import Mathlib

/-!
# Social index calculator: column normalisation, decay, relation ingestion, id registries,
the rank engine and `calculate`

A shallow embedding of `social_index_calculator.cpp`, of the helpers of `include/utils.hpp` it
relies on, and of the rank engine declared in `include/page_rank.hpp`.

Conventions of the embedding.

* `double_type` (a `cpp_dec_float` in the source) is taken as exact arithmetic and
  embedded as `ℚ`.  Division by zero yields a non-finite value in the source; here
  `x / 0 = 0`, so a statement that relies on the value of a quotient shows that its
  divisor is not zero.
* Sizes and counters are natural numbers (no wrap-around).  The ids stored in the id maps
  are 32 bit (`std::map<std::string, uint32_t>`), so an id written into a map or returned by
  `get_account_id` is reduced modulo `2 ^ 32`; `get_total_handled_block_count` returns an
  `unsigned int`, the counter modulo `2 ^ 32`.
* The id maps are lists in the order of insertion without repeated keys; what is proved about
  them does not depend on the order.
* A call that does not return normally (an integer division by zero, a loop that
  never leaves) is `none`.  A call that can throw returns an `Except` value, together with
  the object it was given by reference where the claim is about that object.
* `calculate` is embedded for every choice of the callees whose bodies are not part of the
  sources (`calculate_callees`).
-/

namespace singularity

/-- The numeric type of all weights and scores, taken as exact arithmetic. -/
abbrev double_type := ℚ

/-- A dense vector (`boost::numeric::ublas::vector<double_type>`). -/
abbrev vector_t := List double_type

/-- A sparse vector (`mapped_vector<double_type>`): a size and the stored values; a position
that was never written reads as zero. -/
structure sparce_vector_t where
  size : Nat
  data : Nat → double_type

/-- The vector `sparce_vector_t v(size)`: nothing stored. -/
def sparce_vector_t.zero (size : Nat) : sparce_vector_t :=
  { size := size, data := fun _ => 0 }

/-- Reading `v(i)`. -/
def sparce_vector_t.get (v : sparce_vector_t) (i : Nat) : double_type :=
  v.data i

/-- The assignment `v(i) = x`. -/
def sparce_vector_t.set (v : sparce_vector_t) (i : Nat) (x : double_type) : sparce_vector_t :=
  { v with data := fun k => if k = i then x else v.data k }

/-- Modelled from the spec: the sparse matrix container `mapped_matrix_resizable`, whose header
is not part of the sources at hand.  It is a growable sparse two-dimensional container keyed by
row and column: `data i j` is `some v` when the cell `(i, j)` is stored and `none` when it is
absent (an absent cell reads as zero). -/
structure matrix_t where
  size1 : Nat
  size2 : Nat
  data : Nat → Nat → Option double_type

/-- The matrix `matrix_t m(size1, size2)`: nothing stored. -/
def matrix_t.empty (size1 size2 : Nat) : matrix_t :=
  { size1 := size1, size2 := size2, data := fun _ _ => none }

/-- Reading the cell `m(i, j)`; an absent cell is zero. -/
def matrix_t.get (m : matrix_t) (i j : Nat) : double_type :=
  (m.data i j).getD 0

/-- The assignment `m(i, j) = x`: the cell is stored afterwards, whatever `x` is.  The indices
are not compared with the dimensions. -/
def matrix_t.set (m : matrix_t) (i j : Nat) (x : double_type) : matrix_t :=
  { m with data := fun a b => if a = i ∧ b = j then some x else m.data a b }

/-- Modelled from the spec: `resize` of the sparse container keeps the stored content and
replaces the two dimensions. -/
def matrix_t.resize (m : matrix_t) (size1 size2 : Nat) : matrix_t :=
  { m with size1 := size1, size2 := size2 }

/-- The stored cells of row `i` among the first `n` columns, in increasing column order
(the traversal `for (j = i.begin(); j != i.end(); j++)`). -/
def matrix_t.row_elements (m : matrix_t) (i n : Nat) : List (Nat × Nat × double_type) :=
  (List.range n).filterMap fun j => (m.data i j).map fun v => (i, j, v)

/-- The stored cells in row-major order (the nested traversal over `begin1() .. end1()` and
over each row). -/
def matrix_t.elements (m : matrix_t) : List (Nat × Nat × double_type) :=
  (List.range m.size1).flatMap fun i => m.row_elements i m.size2

/-- The stored values of column `j`, from the first row to the last. -/
def matrix_t.column (m : matrix_t) (j : Nat) : List double_type :=
  (List.range m.size1).filterMap fun i => m.data i j

/-- The sum of the entries of column `j`. -/
def matrix_t.column_sum (m : matrix_t) (j : Nat) : double_type :=
  (m.column j).sum

/-- The minimum of zero and the entries of column `j`. -/
def matrix_t.column_min (m : matrix_t) (j : Nat) : double_type :=
  (m.column j).foldl min 0

/-- The correction `c_j` of column `j` by the stated formula: `-min_j` if `min_j < 0`, else `1`
if `sum_j = 0`, else `0`. -/
def matrix_t.column_c (m : matrix_t) (j : Nat) : double_type :=
  if m.column_min j < 0 then -(m.column_min j) else if m.column_sum j = 0 then 1 else 0

/-- The divisor `sum_j + n * c_j` of column `j`, with `n` the number of columns. -/
def matrix_t.column_divisor (m : matrix_t) (j : Nat) : double_type :=
  m.column_sum j + (m.size2 : double_type) * m.column_c j

/-- The factor `scale_j = 1 / (sum_j + n * c_j)` of column `j` by the stated formula. -/
def matrix_t.column_scale (m : matrix_t) (j : Nat) : double_type :=
  1 / m.column_divisor j

/-- Modelled from the spec: the correction matrix `vector_based_matrix`, the outer product of a
column vector `left` and a row vector `right`; only the two vectors are stored. -/
structure vector_based_matrix where
  left : vector_t
  right : sparce_vector_t

/-- The cell `(i, j)` of the outer product. -/
def vector_based_matrix.get (a : vector_based_matrix) (i j : Nat) : double_type :=
  a.left.getD i 0 * a.right.get j

/-- The sum of the cells of column `j` of the outer product over the first `rows` rows. -/
def vector_based_matrix.column_sum (a : vector_based_matrix) (rows j : Nat) : double_type :=
  ((List.range rows).map fun i => a.get i j).sum

/-- The list of correction matrices that accompanies an outlink matrix. -/
abbrev additional_matrices_vector := List vector_based_matrix

/-! ## `normalize_columns` -/

/-- One step of the first loop of `normalize_columns`, at the stored cell `e = (i, j, v)`:
a nonzero `v` is added to `sum_vector(j)`, and `min_vector(j)` becomes `v` when `v` is below it.
The pair is `(sum_vector, min_vector)`. -/
def accumulate_column (acc : sparce_vector_t × sparce_vector_t) (e : Nat × Nat × double_type) :
    sparce_vector_t × sparce_vector_t :=
  let sum_vector := if e.2.2 ≠ 0 then acc.1.set e.2.1 (acc.1.get e.2.1 + e.2.2) else acc.1
  let min_vector := if e.2.2 < acc.2.get e.2.1 then acc.2.set e.2.1 e.2.2 else acc.2
  (sum_vector, min_vector)

/-- The value `c` of the second loop of `normalize_columns` for a column with the given sum and
minimum. -/
def correction_c (sum min : double_type) : double_type :=
  if min < 0 then min * (-1) else if sum = 0 then 1 else 0

/-- One step of the second loop of `normalize_columns`, at column `i`.  The pair is
`(scale_vector, outlink_vector)`. -/
def scale_column (sum_vector min_vector : sparce_vector_t)
    (acc : sparce_vector_t × sparce_vector_t) (i : Nat) : sparce_vector_t × sparce_vector_t :=
  let c := correction_c (sum_vector.get i) (min_vector.get i)
  let scale_vector :=
    acc.1.set i (1 / (sum_vector.get i + (sum_vector.size : double_type) * c))
  let outlink_vector := acc.2.set i (c * scale_vector.get i)
  (scale_vector, outlink_vector)

/-- The third loop of `normalize_columns` at one stored value of column `j`. -/
def scale_value (scale_vector : sparce_vector_t) (j : Nat) (v : double_type) : double_type :=
  if v ≠ 0 then v * scale_vector.get j else v

/-- The first loop of `normalize_columns`: the pair `(sum_vector, min_vector)` after the
traversal of the stored cells. -/
def normalize_stats (m : matrix_t) : sparce_vector_t × sparce_vector_t :=
  m.elements.foldl accumulate_column
    (sparce_vector_t.zero m.size2, sparce_vector_t.zero m.size2)

/-- The divisor `sum_vector(i) + sum_vector.size() * c` of the second loop of
`normalize_columns` at column `i`. -/
def normalize_divisor (m : matrix_t) (i : Nat) : double_type :=
  (normalize_stats m).1.get i + ((normalize_stats m).1.size : double_type)
    * correction_c ((normalize_stats m).1.get i) ((normalize_stats m).2.get i)

/-- The second loop of `normalize_columns`: the pair `(scale_vector, outlink_vector)`. -/
def normalize_scales (m : matrix_t) : sparce_vector_t × sparce_vector_t :=
  (List.range (normalize_stats m).1.size).foldl
    (scale_column (normalize_stats m).1 (normalize_stats m).2)
    (sparce_vector_t.zero m.size2, sparce_vector_t.zero m.size2)

/-- The function `social_index_calculator::normalize_columns`: the matrix scaled in place (third
loop, every stored cell inside the dimensions) and the list of correction matrices with one more
element, the outer product of `vector_t(m.size1(), 1)` and `outlink_vector`. -/
def normalize_columns (m : matrix_t) (additional_matrices : additional_matrices_vector) :
    matrix_t × additional_matrices_vector :=
  let scale_vector := (normalize_scales m).1
  let outlink_vector := (normalize_scales m).2
  let m' : matrix_t :=
    { m with data := fun i j =>
        if i < m.size1 ∧ j < m.size2 then (m.data i j).map (scale_value scale_vector j)
        else m.data i j }
  (m', additional_matrices ++ [{ left := List.replicate m.size1 1, right := outlink_vector }])

/-- A `2 × 2` matrix with the column `(1, 3)` and an empty second column. -/
def sample_matrix : matrix_t :=
  { size1 := 2, size2 := 2,
    data := fun i j => if j = 0 then (if i = 0 then some 1 else if i = 1 then some 3 else none)
      else none }

/-- The `1 × 1` matrix whose only cell is `-1`. -/
def negative_matrix : matrix_t :=
  { size1 := 1, size2 := 1, data := fun i j => if i = 0 ∧ j = 0 then some (-1) else none }

/-! ## `decay_manager_t` -/

/-- The class `decay_manager_t`. -/
structure decay_manager_t where
  decay_period : Nat
  decay_koefficient : double_type

/-- The loop `while (periods_passed > 0) { result *= decay_koefficient; periods_passed--; }`. -/
def decay_loop (decay_koefficient : double_type) : Nat → double_type → double_type
  | 0, result => result
  | periods_passed + 1, result =>
    decay_loop decay_koefficient periods_passed (result * decay_koefficient)

/-- The method `decay_manager_t::get_decay_value`.  The integer division
`height / decay_period` does not return when `decay_period` is zero. -/
def decay_manager_t.get_decay_value (d : decay_manager_t) (height : Nat) : Option double_type :=
  if d.decay_period = 0 then none
  else some (decay_loop d.decay_koefficient (height / d.decay_period) 1)

/-! ## The calculator: id maps, relations, state -/

/-- The kind of a node. -/
inductive node_type where
  | ACCOUNT
  | CONTENT
deriving DecidableEq

/-- The calculation modes tested by `calculate`. -/
inductive calculation_mode where
  | SIMPLE
  | DIAGONAL
  | PHANTOM_ACCOUNT
deriving DecidableEq

/-- Modelled from the spec: a relation (`relation_t`, whose header is not part of the sources at
hand), with the values of the accessors the calculator calls: `get_source`, `get_target`,
`get_source_type`, `get_target_type`, `get_name`, `get_height` and `is_decayable`. -/
structure relation_t where
  source : String
  target : String
  source_type : node_type
  target_type : node_type
  name : String
  height : Nat
  decayable : Bool
deriving DecidableEq

/-- The id map `std::map<std::string, uint32_t>`, as the list of its entries; every key occurs
at most once.  The order of the entries plays no role in the lookups. -/
abbrev account_id_map_t := List (String × Nat)

/-- The lookup `map.find(name)`: the stored id, or `none` for `map.end()`. -/
def account_id_map_t.find (m : account_id_map_t) (name : String) : Option Nat :=
  List.lookup name m

/-- The call `map.insert(value_type(name, id))`: nothing happens when the key is present;
otherwise the entry is added, the id converted to 32 bits. -/
def account_id_map_t.insert (m : account_id_map_t) (name : String) (id : Nat) :
    account_id_map_t :=
  match m.find name with
  | some _ => m
  | none => m ++ [(name, id % 4294967296)]

/-- The access `map[name]` of `std::map`: the stored id and the map unchanged when the key is
present; otherwise the value `0`, and the key is added with that value. -/
def account_id_map_t.index (m : account_id_map_t) (name : String) : Nat × account_id_map_t :=
  match m.find name with
  | some id => (id, m)
  | none => (0, m ++ [(name, 0)])

/-- The fields of `parameters_t` the calculator reads. -/
structure parameters_t where
  outlink_weight : double_type
  decay_period : Nat
  decay_koefficient : double_type
  num_threads : Nat
  include_detailed_data : Bool
  extended_logging : Bool
  stack_contribution : double_type
  weight_contribution : double_type

/-- The state of a `social_index_calculator`: the members the source file reads and writes
(the class declaration is not part of the sources at hand).  `p_filter` is the optional
relation filter, given by its `check` predicate. -/
structure social_index_calculator where
  parameters : parameters_t
  mode : calculation_mode
  disable_negative_weights : Bool
  reserved_account : String
  p_filter : Option (relation_t → Bool)
  p_decay_manager : decay_manager_t
  account_map : account_id_map_t
  content_map : account_id_map_t
  accounts_count : Nat
  contents_count : Nat
  total_handled_blocks_count : Nat
  handled_blocks_count : Nat
  p_ownership_matrix : matrix_t
  p_vote_matrix : matrix_t
  p_repost_matrix : matrix_t
  p_comment_matrix : matrix_t
  p_trust_matrix : matrix_t
  stack_map : List (String × double_type)
  priority_map : List (String × double_type)

/-! ## `collect_accounts` -/

/-- The id map of the given kind (`account_map` or `content_map`). -/
def social_index_calculator.id_map (s : social_index_calculator) :
    node_type → account_id_map_t
  | node_type.ACCOUNT => s.account_map
  | node_type.CONTENT => s.content_map

/-- The statement `map.insert(value_type(name, counter++))` on the map and the counter of the
given kind: the counter is incremented whether or not the entry is added. -/
def social_index_calculator.insert_id (s : social_index_calculator) (kind : node_type)
    (name : String) : social_index_calculator :=
  match kind with
  | node_type.ACCOUNT =>
    { s with account_map := s.account_map.insert name s.accounts_count,
             accounts_count := s.accounts_count + 1 }
  | node_type.CONTENT =>
    { s with content_map := s.content_map.insert name s.contents_count,
             contents_count := s.contents_count + 1 }

/-- The body of the loop of `collect_accounts` for one relation: both lookups are made first,
then the source and the target are inserted when their lookup found nothing. -/
def collect_relation (s : social_index_calculator) (t : relation_t) : social_index_calculator :=
  let found_source := (s.id_map t.source_type).find t.source
  let found_target := (s.id_map t.target_type).find t.target
  let s1 := if found_source = none then s.insert_id t.source_type t.source else s
  if found_target = none then s1.insert_id t.target_type t.target else s1

/-- The function `social_index_calculator::collect_accounts`. -/
def collect_accounts (s : social_index_calculator) (transactions : List relation_t) :
    social_index_calculator :=
  transactions.foldl collect_relation s

/-- The function `social_index_calculator::filter_block`. -/
def filter_block (s : social_index_calculator) (block : List relation_t) : List relation_t :=
  match s.p_filter with
  | none => block
  | some check => block.filter check

/-! ## `adjust_matrix_sizes` -/

/-- The loop `while (new_size < count) { new_size *= 2; }`.  It never leaves when `new_size`
is zero and `count` is positive; that case is `none`. -/
def grow_size (new_size count : Nat) : Option Nat :=
  if new_size < count then
    if new_size = 0 then none else grow_size (new_size * 2) count
  else some new_size
termination_by count - new_size
decreasing_by omega

/-- One block of `adjust_matrix_sizes`: when a dimension of `m` is below its count, both
dimensions are doubled until they reach their counts and the matrix is resized. -/
def adjust_matrix (m : matrix_t) (count1 count2 : Nat) : Option matrix_t :=
  if m.size1 < count1 ∨ m.size2 < count2 then
    (grow_size m.size1 count1).bind fun new_size_1 =>
      (grow_size m.size2 count2).bind fun new_size_2 =>
        some (m.resize new_size_1 new_size_2)
  else some m

/-- The function `social_index_calculator::adjust_matrix_sizes`, over the vote, ownership,
repost, comment and trust matrices in this order.  (In the block of the ownership matrix the
source runs the loop on the second dimension first; the outcome is the same.) -/
def adjust_matrix_sizes (s : social_index_calculator) : Option social_index_calculator :=
  (adjust_matrix s.p_vote_matrix s.contents_count s.accounts_count).bind fun vote =>
  (adjust_matrix s.p_ownership_matrix s.accounts_count s.contents_count).bind fun ownership =>
  (adjust_matrix s.p_repost_matrix s.contents_count s.contents_count).bind fun repost =>
  (adjust_matrix s.p_comment_matrix s.contents_count s.contents_count).bind fun comment =>
  (adjust_matrix s.p_trust_matrix s.accounts_count s.accounts_count).bind fun trust =>
    some { s with p_vote_matrix := vote, p_ownership_matrix := ownership,
                  p_repost_matrix := repost, p_comment_matrix := comment,
                  p_trust_matrix := trust }

/-! ## `update_weight_matrix` and `add_block` -/

/-- The value `decay_value` of a relation: `get_decay_value(height)` when the relation is
decayable, `1` otherwise. -/
def decay_value (d : decay_manager_t) (t : relation_t) : Option double_type :=
  if t.decayable then d.get_decay_value t.height else some 1

/-- The statement `ownership(account_map[source], content_map[target]) = 1`.  Here and in the
next three definitions the accesses `map[name]` of one statement are made from left to right;
the ids they yield do not depend on that order. -/
def write_ownership (s : social_index_calculator) (t : relation_t) : social_index_calculator :=
  let a := s.account_map.index t.source
  let c := s.content_map.index t.target
  { s with account_map := a.2, content_map := c.2,
           p_ownership_matrix := s.p_ownership_matrix.set a.1 c.1 1 }

/-- The statement `vote(content_map[target], account_map[source]) = decay_value`. -/
def write_upvote (s : social_index_calculator) (t : relation_t) (decay_value : double_type) :
    social_index_calculator :=
  let c := s.content_map.index t.target
  let a := s.account_map.index t.source
  { s with content_map := c.2, account_map := a.2,
           p_vote_matrix := s.p_vote_matrix.set c.1 a.1 decay_value }

/-- The two statements `repost(content_map[target], content_map[source]) = 1` and
`repost(content_map[source], content_map[source]) = -1`. -/
def write_repost (s : social_index_calculator) (t : relation_t) : social_index_calculator :=
  let tg := s.content_map.index t.target
  let sr := tg.2.index t.source
  let sr1 := sr.2.index t.source
  let sr2 := sr1.2.index t.source
  { s with content_map := sr2.2,
           p_repost_matrix := (s.p_repost_matrix.set tg.1 sr.1 1).set sr1.1 sr2.1 (-1) }

/-- The statement `trust(account_map[target], account_map[source]) = 1`. -/
def write_trust (s : social_index_calculator) (t : relation_t) : social_index_calculator :=
  let tg := s.account_map.index t.target
  let sr := tg.2.index t.source
  { s with account_map := sr.2,
           p_trust_matrix := s.p_trust_matrix.set tg.1 sr.1 1 }

/-- The body of the loop of `update_weight_matrix` for one relation (the export of the
relation under `extended_logging` writes to an outside sink and is left out). -/
def update_relation (s : social_index_calculator) (t : relation_t) :
    Option social_index_calculator :=
  (decay_value s.p_decay_manager t).map fun d =>
    let s1 := if t.name = "OWNERSHIP" then write_ownership s t else s
    let s2 := if t.name = "UPVOTE" then write_upvote s1 t d else s1
    let s3 := if t.name = "REPOST" then write_repost s2 t else s2
    if t.name = "TRUST" then write_trust s3 t else s3

/-- The function `social_index_calculator::update_weight_matrix`. -/
def update_weight_matrix (s : social_index_calculator) :
    List relation_t → Option social_index_calculator
  | [] => some s
  | t :: transactions =>
    (update_relation s t).bind fun s' => update_weight_matrix s' transactions

/-- The statements `total_handled_blocks_count++; handled_blocks_count++;`. -/
def count_block (s : social_index_calculator) : social_index_calculator :=
  { s with total_handled_blocks_count := s.total_handled_blocks_count + 1,
           handled_blocks_count := s.handled_blocks_count + 1 }

/-- The function `social_index_calculator::add_block`. -/
def add_block (s : social_index_calculator) (transactions : List relation_t) :
    Option social_index_calculator :=
  let filtered_transactions := filter_block s transactions
  let s1 := collect_accounts s filtered_transactions
  let s2 := count_block s1
  (adjust_matrix_sizes s2).bind fun s3 => update_weight_matrix s3 filtered_transactions

/-! ## Notions used in the statements on `add_block` -/

/-- The state with the ownership, vote, repost, comment and trust matrices replaced by their
images under the five functions. -/
def map_matrices (fo fv fr fc ft : matrix_t → matrix_t) (s : social_index_calculator) :
    social_index_calculator :=
  { s with p_ownership_matrix := fo s.p_ownership_matrix,
           p_vote_matrix := fv s.p_vote_matrix,
           p_repost_matrix := fr s.p_repost_matrix,
           p_comment_matrix := fc s.p_comment_matrix,
           p_trust_matrix := ft s.p_trust_matrix }

/-- Every name found in `m` is found in `m'` with the same id. -/
def map_extends (m m' : account_id_map_t) : Prop :=
  ∀ k id, m.find k = some id → m'.find k = some id

/-- The steps of `add_block` on the filtered relations before `update_weight_matrix`:
`collect_accounts`, the two counters, `adjust_matrix_sizes`. -/
def enter_block (s : social_index_calculator) (filtered_transactions : List relation_t) :
    Option social_index_calculator :=
  adjust_matrix_sizes (count_block (collect_accounts s filtered_transactions))

/-- The five weight matrices have positive dimensions. -/
def positive_dimensions (s : social_index_calculator) : Prop :=
  (0 < s.p_ownership_matrix.size1 ∧ 0 < s.p_ownership_matrix.size2)
  ∧ (0 < s.p_vote_matrix.size1 ∧ 0 < s.p_vote_matrix.size2)
  ∧ (0 < s.p_repost_matrix.size1 ∧ 0 < s.p_repost_matrix.size2)
  ∧ (0 < s.p_comment_matrix.size1 ∧ 0 < s.p_comment_matrix.size2)
  ∧ (0 < s.p_trust_matrix.size1 ∧ 0 < s.p_trust_matrix.size2)

/-! ## Sample inputs -/

/-- Parameters with the default values of `parameters_t` but a decay period of `10` blocks. -/
def sample_parameters : parameters_t :=
  { outlink_weight := 7 / 10, decay_period := 10, decay_koefficient := 9 / 10, num_threads := 1,
    include_detailed_data := false, extended_logging := false, stack_contribution := 0,
    weight_contribution := 0 }

/-- A calculator with the accounts `alice` and `bob`, the contents `post` and `photo`, no
filter and empty weight matrices. -/
def sample_calculator : social_index_calculator :=
  { parameters := sample_parameters, mode := calculation_mode.SIMPLE,
    disable_negative_weights := false, reserved_account := "",
    p_filter := none, p_decay_manager := { decay_period := 10, decay_koefficient := 9 / 10 },
    account_map := [("alice", 0), ("bob", 1)], content_map := [("post", 0), ("photo", 1)],
    accounts_count := 2, contents_count := 2,
    total_handled_blocks_count := 0, handled_blocks_count := 0,
    p_ownership_matrix := matrix_t.empty 4 4, p_vote_matrix := matrix_t.empty 4 4,
    p_repost_matrix := matrix_t.empty 4 4, p_comment_matrix := matrix_t.empty 4 4,
    p_trust_matrix := matrix_t.empty 4 4, stack_map := [], priority_map := [] }

/-- The relation: `bob` upvotes `post` at height `25`. -/
def sample_upvote : relation_t :=
  { source := "bob", target := "post", source_type := node_type.ACCOUNT,
    target_type := node_type.CONTENT, name := "UPVOTE", height := 25, decayable := true }

/-- The relation: `alice` owns `post`. -/
def sample_ownership : relation_t :=
  { source := "alice", target := "post", source_type := node_type.ACCOUNT,
    target_type := node_type.CONTENT, name := "OWNERSHIP", height := 3, decayable := false }

/-- The relation: `post` reposts itself. -/
def self_repost : relation_t :=
  { source := "post", target := "post", source_type := node_type.CONTENT,
    target_type := node_type.CONTENT, name := "REPOST", height := 4, decayable := false }

/-- The relation: `photo` reposts `post`. -/
def sample_repost : relation_t :=
  { source := "photo", target := "post", source_type := node_type.CONTENT,
    target_type := node_type.CONTENT, name := "REPOST", height := 5, decayable := false }

/-- The relation: `bob` upvotes `post` again, at height `40`. -/
def later_upvote : relation_t :=
  { source := "bob", target := "post", source_type := node_type.ACCOUNT,
    target_type := node_type.CONTENT, name := "UPVOTE", height := 40, decayable := true }

/-- The relation: the account `carol` trusts `alice`. -/
def carol_trust : relation_t :=
  { source := "carol", target := "alice", source_type := node_type.ACCOUNT,
    target_type := node_type.ACCOUNT, name := "TRUST", height := 8, decayable := false }

/-! ## Block counters -/

/-- The function `social_index_calculator::skip_blocks`. -/
def skip_blocks (s : social_index_calculator) (blocks_count : Nat) : social_index_calculator :=
  { s with total_handled_blocks_count := s.total_handled_blocks_count + blocks_count,
           handled_blocks_count := s.handled_blocks_count + blocks_count }

/-- A call that ingests or skips blocks. -/
inductive block_call where
  | add (transactions : List relation_t)
  | skip (blocks_count : Nat)

/-- The state after one call, when the call returns. -/
def block_call.run (s : social_index_calculator) : block_call → Option social_index_calculator
  | block_call.add transactions => add_block s transactions
  | block_call.skip blocks_count => some (skip_blocks s blocks_count)

/-- The size `new` is `old` times the smallest power of two that reaches `count`. -/
def doubles_to (old new count : Nat) : Prop :=
  ∃ k, new = old * 2 ^ k ∧ count ≤ new ∧ ∀ j, j < k → old * 2 ^ j < count

/-- Each dimension of the matrix `new` is the dimension of `old` times the smallest power of two
that reaches its count. -/
def matrix_covers (old new : matrix_t) (count1 count2 : Nat) : Prop :=
  doubles_to old.size1 new.size1 count1 ∧ doubles_to old.size2 new.size2 count2

/-! ## `get_account_id`, `get_content_id` -/

/-- The assignment `map[name] = id` of `std::map`: the entry of `name` is overwritten, or added
when the key is absent; the id is converted to 32 bits. -/
def account_id_map_t.assign (m : account_id_map_t) (name : String) (id : Nat) :
    account_id_map_t :=
  match m.find name with
  | some _ => m.map fun e => if e.1 = name then (e.1, id % 4294967296) else e
  | none => m ++ [(name, id % 4294967296)]

/-- The function `social_index_calculator::get_account_id`: the returned optional id and the
state afterwards.  The new id `accounts_count++` is returned as a 32 bit value. -/
def get_account_id (s : social_index_calculator) (name : String) (allow_create : Bool) :
    Option Nat × social_index_calculator :=
  match s.account_map.find name with
  | some id => (some id, s)
  | none =>
    if allow_create then
      (some (s.accounts_count % 4294967296),
        { s with accounts_count := s.accounts_count + 1,
                 account_map := s.account_map.assign name s.accounts_count })
    else (none, s)

/-- The function `social_index_calculator::get_content_id`. -/
def get_content_id (s : social_index_calculator) (name : String) (allow_create : Bool) :
    Option Nat × social_index_calculator :=
  match s.content_map.find name with
  | some id => (some id, s)
  | none =>
    if allow_create then
      (some (s.contents_count % 4294967296),
        { s with contents_count := s.contents_count + 1,
                 content_map := s.content_map.assign name s.contents_count })
    else (none, s)

/-- A call that can register names. -/
inductive registry_call where
  | collect (transactions : List relation_t)
  | account_id (name : String) (allow_create : Bool)
  | content_id (name : String) (allow_create : Bool)

/-- The state after one call. -/
def registry_call.run (s : social_index_calculator) : registry_call → social_index_calculator
  | registry_call.collect transactions => collect_accounts s transactions
  | registry_call.account_id name allow_create => (get_account_id s name allow_create).2
  | registry_call.content_id name allow_create => (get_content_id s name allow_create).2

/-- The state after a sequence of calls. -/
def run_registry_calls (s : social_index_calculator) (calls : List registry_call) :
    social_index_calculator :=
  calls.foldl registry_call.run s

/-- No two names of the map have the same id. -/
def injective_ids (m : account_id_map_t) : Prop :=
  ∀ name1 name2 id, m.find name1 = some id → m.find name2 = some id → name1 = name2

/-- While the count fits 32 bits, every id of the map is below the count and no two names have
the same id. -/
def registry_ok (m : account_id_map_t) (count : Nat) : Prop :=
  count ≤ 4294967296 → (∀ name id, m.find name = some id → id < count) ∧ injective_ids m

/-- The ids of the map are exactly `0, …, count - 1`, each for one name, and no name occurs
twice. -/
def dense_registry (m : account_id_map_t) (count : Nat) : Prop :=
  (m.map Prod.fst).Nodup ∧ List.Perm (m.map Prod.snd) (List.range count)

/-- Both registries of a state satisfy `registry_ok`. -/
def registries_ok (s : social_index_calculator) : Prop :=
  registry_ok s.account_map s.accounts_count ∧ registry_ok s.content_map s.contents_count

/-- The account registry of a state: the map and the counter. -/
def account_registry (s : social_index_calculator) : account_id_map_t × Nat :=
  (s.account_map, s.accounts_count)

/-- The content registry of a state: the map and the counter. -/
def content_registry (s : social_index_calculator) : account_id_map_t × Nat :=
  (s.content_map, s.contents_count)

/-- The sample calculator with empty registries. -/
def fresh_calculator : social_index_calculator :=
  { sample_calculator with account_map := [], content_map := [], accounts_count := 0,
                           contents_count := 0 }

/-- The relation: `dave` trusts `dave`. -/
def self_trust : relation_t :=
  { source := "dave", target := "dave", source_type := node_type.ACCOUNT,
    target_type := node_type.ACCOUNT, name := "TRUST", height := 1, decayable := false }

/-- The state `s'` keeps the id of every name registered in `s`, and its counts are not below
those of `s`. -/
def registry_grows (s s' : social_index_calculator) : Prop :=
  map_extends s.account_map s'.account_map ∧ map_extends s.content_map s'.content_map
    ∧ s.accounts_count ≤ s'.accounts_count ∧ s.contents_count ≤ s'.contents_count

/-- A sequence of calls: a block of two relations is collected, then `post` is asked for as an
account and `verse` as a content, both to be created. -/
def sample_calls : List registry_call :=
  [registry_call.collect [sample_ownership, sample_upvote],
    registry_call.account_id "post" true, registry_call.content_id "verse" true]

/-- A later sequence of calls. -/
def later_calls : List registry_call :=
  [registry_call.collect [carol_trust], registry_call.account_id "erin" false]

/-! ## The rank engine `page_rank`

The header `page_rank.hpp` declares `process`, `calculate_rank`, `iterate`, `MAX_ITERATIONS` and
`precision`; the bodies are not part of the sources at hand and follow the description of the
solver: `r_next = outlink_weight · (O·r_prev + Σ corrections·r_prev) + (1 − outlink_weight)·w`,
stop when `L1(r_next − r_prev) < precision` or after `MAX_ITERATIONS` steps, the last iterate is
returned. -/

/-- Modelled from the spec: the L1 norm of a vector, the sum of the absolute values. -/
def norm_1 (v : vector_t) : double_type :=
  (v.map fun x => |x|).sum

/-- Modelled from the spec: the difference of two vectors, entry by entry. -/
def vector_sub (a b : vector_t) : vector_t :=
  List.zipWith (fun x y => x - y) a b

/-- Modelled from the spec: the vector `c · v`. -/
def vector_scale (c : double_type) (v : vector_t) : vector_t :=
  v.map fun x => c * x

/-- Modelled from the spec: entry `i` of the product `m · v` of a matrix and a vector. -/
def matrix_t.row_prod (m : matrix_t) (v : vector_t) (i : Nat) : double_type :=
  ((List.range m.size2).map fun j => m.get i j * v.getD j 0).sum

/-- Modelled from the spec: entry `i` of the product of a correction matrix and a vector,
`left(i) · Σ_j right(j) · v(j)`. -/
def vector_based_matrix.row_prod (a : vector_based_matrix) (v : vector_t) (i : Nat) :
    double_type :=
  a.left.getD i 0 * ((List.range a.right.size).map fun j => a.right.get j * v.getD j 0).sum

/-- The class `page_rank`: the members set by the constructor. -/
structure page_rank where
  outlink_weight : double_type
  num_threads : Nat

/-- The member `MAX_ITERATIONS`. -/
def page_rank.MAX_ITERATIONS : Nat := 1000

/-- The member `precision`. -/
def page_rank.precision : double_type := 1 / 100

/-- Modelled from the spec: one step `iterate(O, corrections, previous, teleportation)`, with
the teleportation term `(1 − outlink_weight) · w` prepared by `calculate_rank`:
`outlink_weight · (O · previous + Σ corrections · previous) + teleportation`. -/
def page_rank.iterate (p : page_rank) (outlink_matrix : matrix_t)
    (additional_matrices : additional_matrices_vector) (previous teleportation : vector_t) :
    vector_t :=
  (List.range outlink_matrix.size1).map fun i =>
    p.outlink_weight * (outlink_matrix.row_prod previous i
        + (additional_matrices.map fun a => a.row_prod previous i).sum)
      + teleportation.getD i 0

/-- Modelled from the spec: the loop of `calculate_rank` with `steps` steps left: the next
iterate is returned when its L1 distance from the previous one is below `precision`; when no
step is left the last iterate is returned. -/
def page_rank.iterate_loop (p : page_rank) (outlink_matrix : matrix_t)
    (additional_matrices : additional_matrices_vector) (teleportation : vector_t) :
    Nat → vector_t → vector_t
  | 0, previous => previous
  | steps + 1, previous =>
    if norm_1 (vector_sub (p.iterate outlink_matrix additional_matrices previous teleportation)
        previous) < page_rank.precision then
      p.iterate outlink_matrix additional_matrices previous teleportation
    else
      page_rank.iterate_loop p outlink_matrix additional_matrices teleportation steps
        (p.iterate outlink_matrix additional_matrices previous teleportation)

/-- Modelled from the spec: `calculate_rank` sets up the teleportation term
`(1 − outlink_weight) · w` and runs at most `MAX_ITERATIONS` steps from the initial vector. -/
def page_rank.calculate_rank (p : page_rank) (outlink_matrix : matrix_t)
    (additional_matrices : additional_matrices_vector) (initial_vector weight_vector : vector_t) :
    vector_t :=
  p.iterate_loop outlink_matrix additional_matrices
    (vector_scale (1 - p.outlink_weight) weight_vector) page_rank.MAX_ITERATIONS initial_vector

/-- Modelled from the spec: `process` delegates to `calculate_rank`. -/
def page_rank.process (p : page_rank) (outlink_matrix : matrix_t)
    (initial_vector weight_vector : vector_t) (additional_matrices : additional_matrices_vector) :
    vector_t :=
  p.calculate_rank outlink_matrix additional_matrices initial_vector weight_vector

/-- The iterate `r_t` of the rank engine: `r_0` is the initial vector and
`r_(t+1) = outlink_weight · (O · r_t + Σ corrections · r_t) + (1 − outlink_weight) · w`. -/
def page_rank.iterates (p : page_rank) (outlink_matrix : matrix_t)
    (additional_matrices : additional_matrices_vector) (initial_vector weight_vector : vector_t) :
    Nat → vector_t
  | 0 => initial_vector
  | t + 1 =>
    p.iterate outlink_matrix additional_matrices
      (page_rank.iterates p outlink_matrix additional_matrices initial_vector weight_vector t)
      (vector_scale (1 - p.outlink_weight) weight_vector)

/-- A rank engine with the outlink weight `7/10`. -/
def sample_page_rank : page_rank :=
  { outlink_weight := 7 / 10, num_threads := 1 }

/-- The `2 × 2` matrix with the columns `(1/2, 1/2)` and `(1, 0)`, the cell `(1, 1)` absent. -/
def stochastic_matrix : matrix_t :=
  { size1 := 2, size2 := 2,
    data := fun i j =>
      if j = 0 then (if i = 0 then some (1 / 2) else if i = 1 then some (1 / 2) else none)
      else if j = 1 then (if i = 0 then some 1 else none)
      else none }

/-- A correction matrix whose row is zero. -/
def zero_correction : vector_based_matrix :=
  { left := [1, 1], right := sparce_vector_t.zero 2 }

/-- The statement `o(j.index1(), j.index2()) += *j` at the stored cell `e = (i, j, v)`. -/
def add_cell (o : matrix_t) (e : Nat × Nat × double_type) : matrix_t :=
  o.set e.1 e.2.1 (o.get e.1 e.2.1 + e.2.2)

/-- The inner loop of `calculate_content_matrix` over the stored cells of one row: it is left at
the first cell whose column index is not below `size`. -/
def copy_row (size : Nat) (o : matrix_t) (cells : List (Nat × Nat × double_type)) : matrix_t :=
  (cells.takeWhile fun e => decide (e.2.1 < size)).foldl add_cell o

/-- The function `social_index_calculator::calculate_content_matrix`: with `size = o.size1()`,
the rows of `weight_matrix` are visited until the first row index that is not below `size`, and
in each row the stored cells until the first column index that is not below `size`; afterwards
the negative cells of `o` are set to zero when `disable_negative_weights` is set. -/
def calculate_content_matrix (s : social_index_calculator) (o weight_matrix : matrix_t) :
    matrix_t :=
  let size := o.size1
  let o1 := ((List.range weight_matrix.size1).takeWhile fun i => decide (i < size)).foldl
    (fun acc i => copy_row size acc (weight_matrix.row_elements i weight_matrix.size2)) o
  if s.disable_negative_weights then
    { o1 with data := fun i j =>
        if i < o1.size1 ∧ j < o1.size2 then (o1.data i j).map fun v => if v < 0 then 0 else v
        else o1.data i j }
  else o1

/-- The relation: `bob` upvotes `post`, without decay. -/
def plain_upvote : relation_t :=
  { source := "bob", target := "post", source_type := node_type.ACCOUNT,
    target_type := node_type.CONTENT, name := "UPVOTE", height := 5, decayable := false }

/-- The state after the block in which `alice` owns `post` and `bob` upvotes `post` was added to
the calculator with empty registries: two accounts, one content, and the vote of account `1` on
content `0`. -/
def voted_calculator : social_index_calculator :=
  { fresh_calculator with
    account_map := [("alice", 0), ("bob", 1)], content_map := [("post", 0)],
    accounts_count := 2, contents_count := 1,
    total_handled_blocks_count := 1, handled_blocks_count := 1,
    p_ownership_matrix := (matrix_t.empty 4 4).set 0 0 1,
    p_vote_matrix := (matrix_t.empty 4 4).set 0 1 1 }

/-! ## The last steps of `calculate` -/

/-- The step of `calculate` on the final account rank in the mode `PHANTOM_ACCOUNT`: when
`account_map` has more than one entry, every entry of the vector is multiplied by
`k = 1 / (1 - account_rank_final[0])`. -/
def rescale_phantom (s : social_index_calculator) (account_rank_final : vector_t) : vector_t :=
  if s.mode = calculation_mode.PHANTOM_ACCOUNT ∧ s.account_map.length > 1 then
    account_rank_final.map fun x => x * (1 / (1 - account_rank_final.getD 0 0))
  else account_rank_final

/-- The function `social_index_calculator::calculate_score`: the map of the accounts holds every
name of `account_map` other than `reserved_account` with the entry of `account_rank` at its id,
the map of the contents every name of `content_map` with the entry of `content_rank` at its
id. -/
def calculate_score (s : social_index_calculator) (account_rank content_rank : vector_t) :
    node_type → List (String × double_type)
  | node_type.ACCOUNT =>
    (s.account_map.filter fun e => decide (e.1 ≠ s.reserved_account)).map fun e =>
      (e.1, account_rank.getD e.2 0)
  | node_type.CONTENT => s.content_map.map fun e => (e.1, content_rank.getD e.2 0)

/-- A calculator in the mode `PHANTOM_ACCOUNT` whose only registered account is the reserved
account, with id `0`. -/
def phantom_calculator : social_index_calculator :=
  { fresh_calculator with mode := calculation_mode.PHANTOM_ACCOUNT, reserved_account := "reserved",
                          account_map := [("reserved", 0)], accounts_count := 1 }

/-- The state after the block in which `dave` trusts `dave` was added to `phantom_calculator`:
`dave` has the id `1` and `accounts_count` is `3`. -/
def trusted_calculator : social_index_calculator :=
  { phantom_calculator with
    account_map := [("reserved", 0), ("dave", 1)], accounts_count := 3,
    total_handled_blocks_count := 1, handled_blocks_count := 1,
    p_trust_matrix := (matrix_t.empty 4 4).set 1 1 1 }

/-- A calculator in the mode `PHANTOM_ACCOUNT` with the reserved account and two more
accounts. -/
def phantom_pair_calculator : social_index_calculator :=
  { phantom_calculator with
    account_map := [("reserved", 0), ("alice", 1), ("bob", 2)], accounts_count := 3 }

/-- Both registries of a state are dense. -/
def registries_dense (s : social_index_calculator) : Prop :=
  dense_registry s.account_map s.accounts_count ∧ dense_registry s.content_map s.contents_count

/-- The value `std::map<node_type, std::shared_ptr<account_activity_index_map_t> >` returned by
`calculate_score` and `calculate`, as the list of its entries. -/
abbrev score_map_t := List (node_type × List (String × double_type))

/-- The map returned by `calculate_score`: its entries `result[node_type::ACCOUNT]` and
`result[node_type::CONTENT]`. -/
def calculate_score_result (s : social_index_calculator) (account_rank content_rank : vector_t) :
    score_map_t :=
  [(node_type.ACCOUNT, calculate_score s account_rank content_rank node_type.ACCOUNT),
    (node_type.CONTENT, calculate_score s account_rank content_rank node_type.CONTENT)]

/-- A `2 × 2` matrix with the column `(-1, 3)` and an empty second column. -/
def signed_matrix : matrix_t :=
  { size1 := 2, size2 := 2,
    data := fun i j => if j = 0 then (if i = 0 then some (-1) else if i = 1 then some 3 else none)
      else none }

/-! ## The steps of `calculate` -/

/-- The exceptions declared in `utils.hpp`, with the message they carry. -/
inductive exception where
  | runtime_exception (what : String)
  | validation_exception (what : String)
deriving DecidableEq

/-- The function `social_index_calculator::create_default_initial_vector`:
`vector_t(accounts_count, double_type(1) / accounts_count)`. -/
def create_default_initial_vector (s : social_index_calculator) : vector_t :=
  List.replicate s.accounts_count (1 / (s.accounts_count : double_type))

/-- The statements `norm = norm_1(result); if (norm > 0) { result *= double_type(1) / norm; }`
that end `create_stack_vector` and follow the subtraction of the stack in `calculate`. -/
def renormalize (result : vector_t) : vector_t :=
  if norm_1 result > 0 then result.map fun x => x * (1 / norm_1 result) else result

/-- The loop of `create_stack_vector` over the entries of a map from names to values: the value
of a registered name is written at its id (nothing is written outside the vector). -/
def fill_vector (account_map : account_id_map_t) (values : List (String × double_type))
    (result : vector_t) : vector_t :=
  values.foldl
    (fun acc e =>
      match account_map.find e.1 with
      | some account_id => acc.set account_id e.2
      | none => acc)
    result

/-- The function `social_index_calculator::create_stack_vector`. -/
def create_stack_vector (s : social_index_calculator) : vector_t :=
  renormalize (fill_vector s.account_map s.stack_map (List.replicate s.accounts_count 0))

/-- The sum of two vectors, entry by entry. -/
def vector_add (a b : vector_t) : vector_t :=
  List.zipWith (fun x y => x + y) a b

/-- The vector `v * c`. -/
def vector_times (v : vector_t) (c : double_type) : vector_t :=
  v.map fun x => x * c

/-- The local `stack_contribution` of `calculate`:
`norm_1(stack_vector) > 0 ? parameters.stack_contribution : 0`. -/
def stack_contribution (s : social_index_calculator) (stack_vector : vector_t) : double_type :=
  if norm_1 stack_vector > 0 then s.parameters.stack_contribution else 0

/-- The local `weight_contribution` of `calculate`:
`norm_1(priority_vector) > 0 ? parameters.weight_contribution : 0`. -/
def weight_contribution (s : social_index_calculator) (priority_vector : vector_t) :
    double_type :=
  if norm_1 priority_vector > 0 then s.parameters.weight_contribution else 0

/-- The local `const_contribution` of `calculate`:
`double_type(1) - stack_contribution - weight_contribution`. -/
def const_contribution (s : social_index_calculator) (priority_vector stack_vector : vector_t) :
    double_type :=
  1 - stack_contribution s stack_vector - weight_contribution s priority_vector

/-- The local `initial_vector` of `calculate`: `default_initial_vector * const_contribution
+ priority_vector * weight_contribution + stack_vector * stack_contribution`. -/
def initial_vector (s : social_index_calculator) (priority_vector stack_vector : vector_t) :
    vector_t :=
  vector_add
    (vector_add
      (vector_times (create_default_initial_vector s)
        (const_contribution s priority_vector stack_vector))
      (vector_times priority_vector (weight_contribution s priority_vector)))
    (vector_times stack_vector (stack_contribution s stack_vector))

/-- The local `account_rank_final` of `calculate` before the rescaling of the mode
`PHANTOM_ACCOUNT`: `*p_account_rank - stack_vector * ((1 - outlink_weight) *
stack_contribution)`, divided by its L1 norm when the norm is positive. -/
def account_rank_final (s : social_index_calculator) (p_account_rank stack_vector : vector_t) :
    vector_t :=
  renormalize
    (vector_sub p_account_rank
      (vector_times stack_vector
        ((1 - s.parameters.outlink_weight) * stack_contribution s stack_vector)))

/-- The innermost loop of `collapse_matrix` for the row `i` of `in1` and the column `j` of
`in2`: `x` starts at zero and becomes every product `in1(i, k) * in2(k, j)` over the stored
cells `k` of the row that is above it. -/
def collapse_cell (in1 in2 : matrix_t) (i j : Nat) : double_type :=
  (in1.row_elements i in1.size2).foldl
    (fun x e => if e.2.2 * in2.get e.2.1 j > x then e.2.2 * in2.get e.2.1 j else x) 0

/-- The loop of `collapse_matrix` over the columns `j < in2.size2()` for the row `i`: the cell
`out(i, j)` is written when `x > 0`. -/
def collapse_row (in1 in2 : matrix_t) (out : matrix_t) (i : Nat) : matrix_t :=
  (List.range in2.size2).foldl
    (fun acc j => if collapse_cell in1 in2 i j > 0 then acc.set i j (collapse_cell in1 in2 i j)
      else acc)
    out

/-- The function `social_index_calculator::collapse_matrix`. -/
def collapse_matrix (out in1 in2 : matrix_t) : matrix_t :=
  (List.range in1.size1).foldl (collapse_row in1 in2) out

/-- The function `social_index_calculator::set_diagonal_elements`: the outcome of the call and
the matrix afterwards.  The exception is thrown before the loop. -/
def set_diagonal_elements (m : matrix_t) : Except exception Unit × matrix_t :=
  if m.size1 ≠ m.size2 then
    (Except.error (exception.runtime_exception "A square matrix is expected"), m)
  else
    (Except.ok (), (List.range m.size1).foldl (fun acc i => acc.set i i (acc.get i i + 1)) m)

/-- The function `social_index_calculator::add_phantom_account_relations`. -/
def add_phantom_account_relations (s : social_index_calculator) (m : matrix_t) : matrix_t :=
  match (get_account_id s s.reserved_account false).1 with
  | some phantom_account_id =>
    s.account_map.foldl
      (fun acc e => if e.2 ≠ phantom_account_id then acc.set phantom_account_id e.2 1 else acc) m
  | none => m

/-- The function `social_index_calculator::calculate_outlink_matrix`: the loops of
`calculate_content_matrix`, then `normalize_columns`. -/
def calculate_outlink_matrix (s : social_index_calculator) (o weight_matrix : matrix_t)
    (additional_matrices : additional_matrices_vector) :
    matrix_t × additional_matrices_vector :=
  normalize_columns (calculate_content_matrix s o weight_matrix) additional_matrices

/-- The product `prod(m, v)` of a matrix and a vector. -/
def matrix_vector_prod (m : matrix_t) (v : vector_t) : vector_t :=
  (List.range m.size1).map fun i => m.row_prod v i

/-- The sum `a + b` of two matrices, cell by cell, with the dimensions of `a`. -/
def matrix_add (a b : matrix_t) : matrix_t :=
  { a with data := fun i j =>
      match a.data i j, b.data i j with
      | none, none => none
      | _, _ => some (a.get i j + b.get i j) }

/-- The functions `calculate` calls whose bodies are not part of the sources at hand:
`matrix_tools::prod(out, in1, in2)` (the matrix `out` afterwards), `matrix_tools::discretize`
and `p_rank_calculator->process`.  `calculate` is embedded for every choice of them. -/
structure calculate_callees where
  prod : matrix_t → matrix_t → matrix_t → matrix_t
  discretize : vector_t → vector_t
  process : matrix_t → vector_t → vector_t → additional_matrices_vector → vector_t

/-- The local `vote_matrix_with_reposts` of `calculate`. -/
def vote_matrix_with_reposts (s : social_index_calculator) (f : calculate_callees) : matrix_t :=
  matrix_add
    (f.prod (matrix_t.empty s.p_vote_matrix.size1 s.p_vote_matrix.size2) s.p_repost_matrix
      s.p_vote_matrix)
    s.p_vote_matrix

/-- The local `weight_matrix` of `calculate` after `collapse_matrix`. -/
def collapsed_matrix (s : social_index_calculator) (f : calculate_callees) : matrix_t :=
  collapse_matrix
    (matrix_t.empty s.p_ownership_matrix.size1 (vote_matrix_with_reposts s f).size2)
    s.p_ownership_matrix (vote_matrix_with_reposts s f)

/-- The function `social_index_calculator::calculate`: the returned map, or the exception that
leaves it, and the state afterwards.  The detailed data that `calculate_detalization` writes
when `include_detailed_data` is set is not part of the embedded state. -/
def calculate (s : social_index_calculator) (f : calculate_callees) :
    Except exception score_map_t × social_index_calculator :=
  if s.accounts_count = 0 then (Except.ok [], s)
  else
    let trust := calculate_outlink_matrix s (matrix_t.empty s.accounts_count s.accounts_count)
      s.p_trust_matrix []
    let trust_initial_vector :=
      vector_add (vector_times (create_default_initial_vector s) (1 / 10))
        (vector_times (create_stack_vector s) (9 / 10))
    let p_trust_vector := f.process trust.1 trust_initial_vector trust_initial_vector trust.2
    let diagonal :=
      if s.mode = calculation_mode.DIAGONAL then set_diagonal_elements (collapsed_matrix s f)
      else (Except.ok (), collapsed_matrix s f)
    match diagonal.1 with
    | Except.error e => (Except.error e, s)
    | Except.ok _ =>
      let weight_matrix :=
        if s.mode = calculation_mode.PHANTOM_ACCOUNT then
          add_phantom_account_relations s diagonal.2
        else diagonal.2
      let outlink := calculate_outlink_matrix s
        (matrix_t.empty s.accounts_count s.accounts_count) weight_matrix []
      let priority_vector := f.discretize p_trust_vector
      let stack_vector := create_stack_vector s
      let p_account_rank := f.process outlink.1 (initial_vector s priority_vector stack_vector)
        (initial_vector s priority_vector stack_vector) outlink.2
      let final := rescale_phantom s (account_rank_final s p_account_rank stack_vector)
      let content_matrix := calculate_content_matrix s
        (matrix_t.empty s.contents_count s.accounts_count) (vote_matrix_with_reposts s f)
      (Except.ok (calculate_score_result s final (matrix_vector_prod content_matrix final)), s)

/-- The sample calculator with the stack contribution `1/2` and the stakes `1` of `alice` and
`-1` of `bob`. -/
def staked_calculator : social_index_calculator :=
  { sample_calculator with
    parameters := { sample_parameters with stack_contribution := 1 / 2 },
    stack_map := [("alice", 1), ("bob", -1)] }

/-- The sample calculator with the stack contribution `1/2`, the weight contribution `1/4` and
the stakes `3` of `alice` and `1` of `bob`. -/
def funded_calculator : social_index_calculator :=
  { sample_calculator with
    parameters := { sample_parameters with stack_contribution := 1 / 2,
                                           weight_contribution := 1 / 4 },
    stack_map := [("alice", 3), ("bob", 1)] }

/-- Callees that do nothing: `prod` leaves `out` as it is, `discretize` and `process` return
their first vector. -/
def sample_callees : calculate_callees :=
  { prod := fun out _ _ => out, discretize := fun v => v, process := fun _ v _ _ => v }

/-- The sample calculator in the mode `DIAGONAL` with an ownership matrix of `2` rows, while the
vote matrix has `4` columns. -/
def lopsided_calculator : social_index_calculator :=
  { sample_calculator with mode := calculation_mode.DIAGONAL,
                           p_ownership_matrix := matrix_t.empty 2 4 }

/-- The maximum of zero and of the products `in1(i, k) * in2(k, j)` over `k < in1.size2()`. -/
def max_product (in1 in2 : matrix_t) (i j : Nat) : double_type :=
  ((List.range in1.size2).map fun k => in1.get i k * in2.get k j).foldl max 0

/-- The `1 × 2` ownership matrix in which account `0` owns the contents `0` and `1`. -/
def two_owned : matrix_t :=
  { size1 := 1, size2 := 2, data := fun i k => if i = 0 ∧ k < 2 then some 1 else none }

/-- The `2 × 1` vote matrix in which voter `0` gave `2` to content `0` and `3` to content `1`. -/
def two_votes : matrix_t :=
  { size1 := 2, size2 := 1,
    data := fun k j => if j = 0 then (if k = 0 then some 2 else if k = 1 then some 3 else none)
      else none }

/-- The `1 × 1` matrix whose only cell is `1`. -/
def unit_matrix : matrix_t :=
  { size1 := 1, size2 := 1, data := fun i j => if i = 0 ∧ j = 0 then some 1 else none }

/-! ## Lemmas on the loops of `normalize_columns` -/

theorem accumulate_column_size (es : List (Nat × Nat × double_type))
    (acc : sparce_vector_t × sparce_vector_t) :
    (es.foldl accumulate_column acc).1.size = acc.1.size := by
  induction es generalizing acc with
  | nil => rfl
  | cons e es ih =>
    rw [List.foldl_cons, ih]
    unfold accumulate_column
    by_cases h : e.2.2 ≠ 0 <;> simp [h, sparce_vector_t.set]

theorem accumulate_column_sum (es : List (Nat × Nat × double_type))
    (acc : sparce_vector_t × sparce_vector_t) (j : Nat) :
    (es.foldl accumulate_column acc).1.data j
      = acc.1.data j + ((es.filter fun e => e.2.1 = j).map fun e => e.2.2).sum := by
  induction es generalizing acc with
  | nil => simp
  | cons e es ih =>
    rw [List.foldl_cons, ih]
    by_cases hj : e.2.1 = j
    · by_cases hv : e.2.2 = 0
      · simp [accumulate_column, hj, hv]
      · simp [accumulate_column, hj, hv, sparce_vector_t.set, sparce_vector_t.get, add_assoc]
    · have hj' : ¬ j = e.2.1 := fun h => hj h.symm
      by_cases hv : e.2.2 = 0
      · simp [accumulate_column, hj, hv]
      · simp [accumulate_column, hj, hj', hv, sparce_vector_t.set, sparce_vector_t.get]

theorem accumulate_column_min (es : List (Nat × Nat × double_type))
    (acc : sparce_vector_t × sparce_vector_t) (j : Nat) :
    (es.foldl accumulate_column acc).2.data j
      = ((es.filter fun e => e.2.1 = j).map fun e => e.2.2).foldl min (acc.2.data j) := by
  induction es generalizing acc with
  | nil => simp
  | cons e es ih =>
    rw [List.foldl_cons, ih]
    by_cases hj : e.2.1 = j
    · subst hj
      by_cases hv : e.2.2 < acc.2.data e.2.1
      · simp [accumulate_column, hv, sparce_vector_t.set, sparce_vector_t.get,
          min_eq_right (le_of_lt hv)]
      · simp [accumulate_column, hv, sparce_vector_t.set, sparce_vector_t.get,
          min_eq_left (not_lt.mp hv)]
    · have hj' : ¬ j = e.2.1 := fun h => hj h.symm
      by_cases hv : e.2.2 < acc.2.data e.2.1
      · simp [accumulate_column, hj, hj', hv, sparce_vector_t.set, sparce_vector_t.get]
      · simp [accumulate_column, hj, hj', hv, sparce_vector_t.set, sparce_vector_t.get]

theorem row_elements_column (m : matrix_t) (i n j : Nat) :
    ((m.row_elements i n).filter fun e => e.2.1 = j).map (fun e => e.2.2)
      = if j < n then (m.data i j).toList else [] := by
  induction n with
  | zero => simp [matrix_t.row_elements]
  | succ n ih =>
    unfold matrix_t.row_elements at ih ⊢
    rw [List.range_succ, List.filterMap_append, List.filter_append, List.map_append, ih]
    by_cases h1 : j < n
    · have h2 : j < n + 1 := by omega
      have h3 : ¬ n = j := by omega
      cases hd : m.data i n <;> simp [h1, h2, h3, hd]
    · by_cases h3 : n = j
      · subst h3
        cases hd : m.data i n <;> simp [hd]
      · have h2 : ¬ j < n + 1 := by omega
        cases hd : m.data i n <;> simp [h1, h2, h3, hd]

theorem elements_column (m : matrix_t) (j : Nat) (hj : j < m.size2) :
    (m.elements.filter fun e => e.2.1 = j).map (fun e => e.2.2) = m.column j := by
  unfold matrix_t.elements matrix_t.column
  generalize m.size1 = r
  induction r with
  | zero => simp
  | succ r ih =>
    rw [List.range_succ, List.flatMap_append, List.filter_append, List.map_append, ih,
      List.filterMap_append]
    rw [List.flatMap_singleton, row_elements_column, if_pos hj]
    cases hd : m.data r j <;> simp [hd]

theorem scale_column_fold (sum_vector min_vector : sparce_vector_t) (cols : List Nat)
    (acc : sparce_vector_t × sparce_vector_t) (j : Nat) :
    ((cols.foldl (scale_column sum_vector min_vector) acc).1.data j
        = if j ∈ cols then
            1 / (sum_vector.data j + (sum_vector.size : double_type)
              * correction_c (sum_vector.data j) (min_vector.data j))
          else acc.1.data j)
    ∧ ((cols.foldl (scale_column sum_vector min_vector) acc).2.data j
        = if j ∈ cols then
            correction_c (sum_vector.data j) (min_vector.data j)
              * (1 / (sum_vector.data j + (sum_vector.size : double_type)
                * correction_c (sum_vector.data j) (min_vector.data j)))
          else acc.2.data j)
    ∧ (cols.foldl (scale_column sum_vector min_vector) acc).2.size = acc.2.size := by
  induction cols using List.reverseRecOn with
  | nil => simp
  | append_singleton cols c ih =>
    rw [List.foldl_append, List.foldl_cons, List.foldl_nil]
    obtain ⟨ih1, ih2, ih3⟩ := ih
    by_cases hc : j = c
    · subst hc
      simp [scale_column, sparce_vector_t.set, sparce_vector_t.get, ih3]
    · simp [scale_column, sparce_vector_t.set, sparce_vector_t.get, hc, ih1, ih2, ih3]

theorem normalize_stats_size (m : matrix_t) : (normalize_stats m).1.size = m.size2 := by
  simp [normalize_stats, accumulate_column_size, sparce_vector_t.zero]

/-- The first loop of `normalize_columns` computes the column sums. -/
theorem normalize_stats_sum (m : matrix_t) (j : Nat) (hj : j < m.size2) :
    (normalize_stats m).1.data j = m.column_sum j := by
  simp [normalize_stats, accumulate_column_sum, elements_column m j hj, sparce_vector_t.zero,
    matrix_t.column_sum]

/-- The first loop of `normalize_columns` computes the minimum of zero and the column. -/
theorem normalize_stats_min (m : matrix_t) (j : Nat) (hj : j < m.size2) :
    (normalize_stats m).2.data j = m.column_min j := by
  simp [normalize_stats, accumulate_column_min, elements_column m j hj, sparce_vector_t.zero,
    matrix_t.column_min]

/-- The divisor of the second loop is the divisor of the stated formula. -/
theorem normalize_divisor_eq (m : matrix_t) (j : Nat) (hj : j < m.size2) :
    normalize_divisor m j = m.column_divisor j := by
  simp [normalize_divisor, sparce_vector_t.get, normalize_stats_sum m j hj,
    normalize_stats_min m j hj, normalize_stats_size, matrix_t.column_divisor,
    matrix_t.column_c, correction_c]

/-- The correction row built by `normalize_columns`. -/
theorem normalize_columns_additional (m : matrix_t) (a : additional_matrices_vector) :
    ∃ corr : vector_based_matrix,
      (normalize_columns m a).2 = a ++ [corr]
      ∧ corr.left = List.replicate m.size1 1
      ∧ corr.right.size = m.size2
      ∧ ∀ j, j < m.size2 → corr.right.get j = m.column_c j * m.column_scale j := by
  refine ⟨_, rfl, rfl, ?_, ?_⟩
  · simp [normalize_columns, normalize_scales, (scale_column_fold _ _ _ _ 0).2.2,
      sparce_vector_t.zero]
  · intro j hj
    have hmem : j ∈ List.range (normalize_stats m).1.size := by
      rw [normalize_stats_size]
      simpa using hj
    simp only [sparce_vector_t.get]
    simp only [normalize_columns, normalize_scales]
    rw [(scale_column_fold _ _ _ _ j).2.1, if_pos hmem, normalize_stats_sum m j hj,
      normalize_stats_min m j hj, normalize_stats_size]
    simp [matrix_t.column_c, matrix_t.column_scale, matrix_t.column_divisor, correction_c]

/-- The cells of the matrix scaled by `normalize_columns`. -/
theorem normalize_columns_data (m : matrix_t) (a : additional_matrices_vector) (i j : Nat) :
    (normalize_columns m a).1.data i j
      = if i < m.size1 ∧ j < m.size2 then
          (m.data i j).map fun v => if v ≠ 0 then v * m.column_scale j else v
        else m.data i j := by
  by_cases h : i < m.size1 ∧ j < m.size2
  · have hj := h.2
    have hmem : j ∈ List.range (normalize_stats m).1.size := by
      rw [normalize_stats_size]
      simpa using hj
    simp only [normalize_columns, if_pos h]
    congr 1
    funext v
    simp only [scale_value, sparce_vector_t.get, normalize_scales]
    rw [(scale_column_fold _ _ _ _ j).1, if_pos hmem, normalize_stats_sum m j hj,
      normalize_stats_min m j hj, normalize_stats_size]
    simp [matrix_t.column_c, matrix_t.column_scale, matrix_t.column_divisor, correction_c]
  · simp [normalize_columns, h]

theorem normalize_columns_size (m : matrix_t) (a : additional_matrices_vector) :
    (normalize_columns m a).1.size1 = m.size1 ∧ (normalize_columns m a).1.size2 = m.size2 :=
  ⟨rfl, rfl⟩

/-- The stored values of a column after `normalize_columns`. -/
theorem normalize_columns_column (m : matrix_t) (a : additional_matrices_vector) (j : Nat)
    (hj : j < m.size2) :
    (normalize_columns m a).1.column j
      = (m.column j).map fun v => if v ≠ 0 then v * m.column_scale j else v := by
  unfold matrix_t.column
  rw [(normalize_columns_size m a).1, List.map_filterMap]
  apply List.filterMap_congr
  intro i hi
  rw [normalize_columns_data, if_pos ⟨List.mem_range.mp hi, hj⟩]

/-- The sum of a column after `normalize_columns` is the old sum times the factor. -/
theorem normalize_columns_column_sum (m : matrix_t) (a : additional_matrices_vector) (j : Nat)
    (hj : j < m.size2) :
    (normalize_columns m a).1.column_sum j = m.column_sum j * m.column_scale j := by
  unfold matrix_t.column_sum
  rw [normalize_columns_column m a j hj]
  induction m.column j with
  | nil => simp
  | cons v vs ih =>
    rw [List.map_cons, List.sum_cons, List.sum_cons, ih, add_mul]
    by_cases hv : v = 0
    · simp [hv]
    · simp [hv]

/-! ## Columns without negative entries, empty columns -/

theorem mem_column (m : matrix_t) (j : Nat) (v : double_type) :
    v ∈ m.column j ↔ ∃ i, i < m.size1 ∧ m.data i j = some v := by
  simp [matrix_t.column, List.mem_filterMap]

theorem foldl_min_of_le (l : List double_type) (a : double_type) (h : ∀ v ∈ l, a ≤ v) :
    l.foldl min a = a := by
  induction l with
  | nil => rfl
  | cons v vs ih =>
    rw [List.foldl_cons, min_eq_left (h v (List.mem_cons_self v vs))]
    exact ih fun w hw => h w (List.mem_cons_of_mem v hw)

theorem column_nonneg (m : matrix_t) (j : Nat) (h : ∀ i, i < m.size1 → 0 ≤ m.get i j) :
    ∀ v ∈ m.column j, (0 : double_type) ≤ v := by
  intro v hv
  obtain ⟨i, hi, hd⟩ := (mem_column m j v).mp hv
  simpa [matrix_t.get, hd] using h i hi

/-- A column without negative entries has minimum zero. -/
theorem column_min_of_nonneg (m : matrix_t) (j : Nat)
    (h : ∀ i, i < m.size1 → 0 ≤ m.get i j) : m.column_min j = 0 :=
  foldl_min_of_le _ 0 (column_nonneg m j h)

/-- A column without negative entries and with a nonzero entry has a positive sum. -/
theorem column_sum_pos (m : matrix_t) (j : Nat) (h : ∀ i, i < m.size1 → 0 ≤ m.get i j)
    (hnz : ∃ i, i < m.size1 ∧ m.get i j ≠ 0) : 0 < m.column_sum j := by
  obtain ⟨i, hi, hne⟩ := hnz
  cases hd : m.data i j with
  | none => simp [matrix_t.get, hd] at hne
  | some v =>
    have hv : v ∈ m.column j := (mem_column m j v).mpr ⟨i, hi, hd⟩
    have hv0 : v ≠ 0 := by simpa [matrix_t.get, hd] using hne
    have hpos : 0 < v := lt_of_le_of_ne (column_nonneg m j h v hv) (Ne.symm hv0)
    exact lt_of_lt_of_le hpos (List.single_le_sum (column_nonneg m j h) v hv)

/-- A column whose cells are all zero or absent has sum zero. -/
theorem column_sum_of_zero (m : matrix_t) (j : Nat) (h : ∀ i, i < m.size1 → m.get i j = 0) :
    m.column_sum j = 0 := by
  apply List.sum_eq_zero
  intro v hv
  obtain ⟨i, hi, hd⟩ := (mem_column m j v).mp hv
  simpa [matrix_t.get, hd] using h i hi

theorem decay_loop_eq (k : double_type) (n : Nat) (r : double_type) :
    decay_loop k n r = r * k ^ n := by
  induction n generalizing r with
  | zero => simp [decay_loop]
  | succ n ih => rw [decay_loop, ih, pow_succ']; ring

/-- The value of `get_decay_value` for a positive period. -/
theorem get_decay_value_pow (d : decay_manager_t) (hp : 0 < d.decay_period) (height : Nat) :
    d.get_decay_value height = some (d.decay_koefficient ^ (height / d.decay_period)) := by
  have hne : d.decay_period ≠ 0 := by omega
  simp [decay_manager_t.get_decay_value, hne, decay_loop_eq]

/-! ## Claims on `normalize_columns` and `get_decay_value` -/

/-- C1: for every matrix (square or not) and every column `j` of it that has no negative entry
and at least one nonzero entry, the entries of column `j` sum to exactly `1` after
`normalize_columns`. -/
theorem normalize_columns_nonneg_column_sum (m : matrix_t) (a : additional_matrices_vector)
    (j : Nat) (hj : j < m.size2) (hnn : ∀ i, i < m.size1 → 0 ≤ m.get i j)
    (hnz : ∃ i, i < m.size1 ∧ m.get i j ≠ 0) :
    (normalize_columns m a).1.column_sum j = 1 := by
  have hpos := column_sum_pos m j hnn hnz
  rw [normalize_columns_column_sum m a j hj, matrix_t.column_scale, matrix_t.column_divisor,
    matrix_t.column_c, column_min_of_nonneg m j hnn]
  simp [ne_of_gt hpos]

/-- C2: for every square `n × n` matrix and every column `j` whose cells are all zero or
absent, `normalize_columns` leaves every cell of the column as it was, appends a correction
matrix whose row has `1 / n` at `j`, so that every cell of column `j` of the correction matrix
is `1 / n`, the explicit entries sum to `0` and explicit plus correction entries sum to `1`. -/
theorem normalize_columns_zero_column (m : matrix_t) (a : additional_matrices_vector)
    (j : Nat) (hsq : m.size1 = m.size2) (hj : j < m.size2)
    (hz : ∀ i, i < m.size1 → m.get i j = 0) :
    (∀ i, (normalize_columns m a).1.data i j = m.data i j)
    ∧ ∃ corr : vector_based_matrix,
        (normalize_columns m a).2 = a ++ [corr]
        ∧ corr.right.get j = 1 / (m.size2 : double_type)
        ∧ (∀ i, i < m.size1 → corr.get i j = 1 / (m.size2 : double_type))
        ∧ (normalize_columns m a).1.column_sum j = 0
        ∧ (normalize_columns m a).1.column_sum j + corr.column_sum m.size1 j = 1 := by
  have hsum := column_sum_of_zero m j hz
  have hmin := column_min_of_nonneg m j fun i hi => le_of_eq (hz i hi).symm
  have hn : (m.size2 : double_type) ≠ 0 := by
    have : m.size2 ≠ 0 := by omega
    exact_mod_cast this
  have hc : m.column_c j = 1 := by simp [matrix_t.column_c, hmin, hsum]
  have hs : m.column_scale j = 1 / (m.size2 : double_type) := by
    simp [matrix_t.column_scale, matrix_t.column_divisor, hc, hsum]
  refine ⟨?_, ?_⟩
  · intro i
    rw [normalize_columns_data]
    by_cases hi : i < m.size1
    · have h0 := hz i hi
      cases hd : m.data i j with
      | none => simp
      | some v =>
        have : v = 0 := by simpa [matrix_t.get, hd] using h0
        simp [this]
    · simp [hi]
  · obtain ⟨corr, h1, h2, _, h4⟩ := normalize_columns_additional m a
    have hr : corr.right.get j = 1 / (m.size2 : double_type) := by
      rw [h4 j hj, hc, hs, one_mul]
    have hcell : ∀ i, i < m.size1 → corr.get i j = 1 / (m.size2 : double_type) := by
      intro i hi
      simp [vector_based_matrix.get, h2, hr, List.getD_eq_getElem?_getD, hi]
    have hexp : (normalize_columns m a).1.column_sum j = 0 := by
      rw [normalize_columns_column_sum m a j hj, hsum, zero_mul]
    refine ⟨corr, h1, hr, hcell, hexp, ?_⟩
    have hcs : corr.column_sum m.size1 j
        = (m.size1 : double_type) * (1 / (m.size2 : double_type)) := by
      unfold vector_based_matrix.column_sum
      rw [List.map_congr_left (g := fun _ => 1 / (m.size2 : double_type))
        (fun i hi => hcell i (List.mem_range.mp hi))]
      simp
    rw [hexp, hcs, hsq]
    field_simp

/-- Witness of C1 at the first column of `sample_matrix`. -/
theorem normalize_columns_nonneg_column_sum_witness :
    (0 < sample_matrix.size2)
    ∧ (∀ i, i < sample_matrix.size1 → 0 ≤ sample_matrix.get i 0)
    ∧ (∃ i, i < sample_matrix.size1 ∧ sample_matrix.get i 0 ≠ 0)
    ∧ (normalize_columns sample_matrix []).1.column_sum 0 = 1 :=
  have h1 : 0 < sample_matrix.size2 := by decide
  have h2 : ∀ i, i < sample_matrix.size1 → 0 ≤ sample_matrix.get i 0 := by
    intro i hi
    have hi' : i < 2 := hi
    interval_cases i <;> simp [sample_matrix, matrix_t.get]
  have h3 : ∃ i, i < sample_matrix.size1 ∧ sample_matrix.get i 0 ≠ 0 :=
    ⟨0, by decide, by simp [sample_matrix, matrix_t.get]⟩
  ⟨h1, h2, h3, normalize_columns_nonneg_column_sum sample_matrix [] 0 h1 h2 h3⟩

/-- Witness of C2 at the second column of `sample_matrix`. -/
theorem normalize_columns_zero_column_witness :
    sample_matrix.size1 = sample_matrix.size2
    ∧ 1 < sample_matrix.size2
    ∧ (∀ i, i < sample_matrix.size1 → sample_matrix.get i 1 = 0)
    ∧ ((∀ i, (normalize_columns sample_matrix []).1.data i 1 = sample_matrix.data i 1)
      ∧ ∃ corr : vector_based_matrix,
          (normalize_columns sample_matrix []).2 = [] ++ [corr]
          ∧ corr.right.get 1 = 1 / (sample_matrix.size2 : double_type)
          ∧ (∀ i, i < sample_matrix.size1 →
              corr.get i 1 = 1 / (sample_matrix.size2 : double_type))
          ∧ (normalize_columns sample_matrix []).1.column_sum 1 = 0
          ∧ (normalize_columns sample_matrix []).1.column_sum 1
              + corr.column_sum sample_matrix.size1 1 = 1) :=
  have h1 : sample_matrix.size1 = sample_matrix.size2 := rfl
  have h2 : 1 < sample_matrix.size2 := by decide
  have h3 : ∀ i, i < sample_matrix.size1 → sample_matrix.get i 1 = 0 := by
    intro i _
    simp [sample_matrix, matrix_t.get]
  ⟨h1, h2, h3, normalize_columns_zero_column sample_matrix [] 1 h1 h2 h3⟩

/-- The `1 × 1` matrix whose only cell is `-1` is a column of equal negative values: the second
loop of `normalize_columns` divides by `sum + n * c = -1 + 1 * 1 = 0`; explicit entries plus `n`
times the correction row do not sum to `1`, and no factor `r` in the place of the quotient would
make `sum * r + n * (c * r)` equal to `1`. -/
theorem normalize_columns_negative_matrix :
    normalize_divisor negative_matrix 0 = 0
    ∧ (∃ corr : vector_based_matrix,
        (normalize_columns negative_matrix []).2 = [corr]
        ∧ (normalize_columns negative_matrix []).1.column_sum 0
            + (negative_matrix.size2 : double_type) * corr.right.get 0 ≠ 1)
    ∧ ∀ r : double_type,
        (normalize_stats negative_matrix).1.get 0 * r
          + (negative_matrix.size2 : double_type)
            * (correction_c ((normalize_stats negative_matrix).1.get 0)
                ((normalize_stats negative_matrix).2.get 0) * r) ≠ 1 := by
  have hcol : negative_matrix.column 0 = [-1] := by
    simp [matrix_t.column, negative_matrix, List.range_succ]
  have hsum : negative_matrix.column_sum 0 = -1 := by simp [matrix_t.column_sum, hcol]
  have hmin : negative_matrix.column_min 0 = -1 := by simp [matrix_t.column_min, hcol]
  have hc : negative_matrix.column_c 0 = 1 := by simp [matrix_t.column_c, hmin]
  have hsize : negative_matrix.size2 = 1 := rfl
  have hdiv : negative_matrix.column_divisor 0 = 0 := by
    rw [matrix_t.column_divisor, hsum, hc, hsize]
    norm_num
  refine ⟨?_, ?_, ?_⟩
  · rw [normalize_divisor_eq negative_matrix 0 (by decide), hdiv]
  · obtain ⟨corr, h1, _, _, h4⟩ := normalize_columns_additional negative_matrix []
    refine ⟨corr, by simpa using h1, ?_⟩
    rw [normalize_columns_column_sum negative_matrix [] 0 (by decide), h4 0 (by decide),
      matrix_t.column_scale, hdiv]
    norm_num
  · intro r
    simp only [sparce_vector_t.get]
    rw [normalize_stats_sum negative_matrix 0 (by decide),
      normalize_stats_min negative_matrix 0 (by decide), hsum, hmin, hsize]
    norm_num [correction_c]

/-- C4: `normalize_columns` implements the stated formulas.  For every column `j` of a matrix
with `n` columns, with `sum_j` the sum of the column, `min_j` the minimum of zero and the
column, `c_j = -min_j` if `min_j < 0`, else `1` if `sum_j = 0`, else `0`, and
`scale_j = 1 / (sum_j + n * c_j)`: the loops compute `sum_j` and `min_j`, every stored entry
`v` of the column becomes `v * scale_j` (a zero entry stays zero, an absent one absent), and
exactly one correction matrix is appended, with the all-ones column vector of length
`size1` and a row vector of length `n` that has `c_j * scale_j` at position `j`. -/
theorem normalize_columns_formulas (m : matrix_t) (a : additional_matrices_vector) (j : Nat)
    (hj : j < m.size2) :
    (normalize_stats m).1.get j = m.column_sum j
    ∧ (normalize_stats m).2.get j = m.column_min j
    ∧ (normalize_scales m).1.get j = m.column_scale j
    ∧ (∀ i, i < m.size1 →
        (normalize_columns m a).1.data i j = (m.data i j).map fun v => v * m.column_scale j)
    ∧ ∃ corr : vector_based_matrix,
        (normalize_columns m a).2 = a ++ [corr]
        ∧ corr.left = List.replicate m.size1 1
        ∧ corr.right.size = m.size2
        ∧ corr.right.get j = m.column_c j * m.column_scale j := by
  have hmem : j ∈ List.range (normalize_stats m).1.size := by
    rw [normalize_stats_size]
    simpa using hj
  refine ⟨normalize_stats_sum m j hj, normalize_stats_min m j hj, ?_, ?_, ?_⟩
  · simp only [sparce_vector_t.get, normalize_scales]
    rw [(scale_column_fold _ _ _ _ j).1, if_pos hmem, normalize_stats_sum m j hj,
      normalize_stats_min m j hj, normalize_stats_size]
    simp [matrix_t.column_c, matrix_t.column_scale, matrix_t.column_divisor, correction_c]
  · intro i hi
    rw [normalize_columns_data, if_pos ⟨hi, hj⟩]
    cases m.data i j with
    | none => rfl
    | some v =>
      by_cases hv : v = 0
      · simp [hv]
      · simp [hv]
  · obtain ⟨corr, h1, h2, h3, h4⟩ := normalize_columns_additional m a
    exact ⟨corr, h1, h2, h3, h4 j hj⟩

/-- Witness of C4 at the first column of `sample_matrix`. -/
theorem normalize_columns_formulas_witness :
    0 < sample_matrix.size2
    ∧ (normalize_stats sample_matrix).1.get 0 = sample_matrix.column_sum 0
    ∧ (normalize_stats sample_matrix).2.get 0 = sample_matrix.column_min 0
    ∧ (normalize_scales sample_matrix).1.get 0 = sample_matrix.column_scale 0
    ∧ (∀ i, i < sample_matrix.size1 →
        (normalize_columns sample_matrix []).1.data i 0
          = (sample_matrix.data i 0).map fun v => v * sample_matrix.column_scale 0)
    ∧ ∃ corr : vector_based_matrix,
        (normalize_columns sample_matrix []).2 = [] ++ [corr]
        ∧ corr.left = List.replicate sample_matrix.size1 1
        ∧ corr.right.size = sample_matrix.size2
        ∧ corr.right.get 0 = sample_matrix.column_c 0 * sample_matrix.column_scale 0 :=
  ⟨by decide, normalize_columns_formulas sample_matrix [] 0 (by decide)⟩

/-- C5: for every positive `decay_period`, every `decay_koefficient` and every height,
`get_decay_value` returns `decay_koefficient ^ (height / decay_period)`; in particular it
returns `1` at height `0` and `decay_koefficient ^ k` at height `k * decay_period`. -/
theorem get_decay_value_eq (d : decay_manager_t) (hp : 0 < d.decay_period) :
    (∀ height, d.get_decay_value height
        = some (d.decay_koefficient ^ (height / d.decay_period)))
    ∧ d.get_decay_value 0 = some 1
    ∧ ∀ k, d.get_decay_value (k * d.decay_period) = some (d.decay_koefficient ^ k) := by
  refine ⟨get_decay_value_pow d hp, ?_, ?_⟩
  · rw [get_decay_value_pow d hp]; simp
  · intro k
    rw [get_decay_value_pow d hp, Nat.mul_div_cancel k hp]

/-- Witness of C5 for a period of `10` blocks and the coefficient `9 / 10`. -/
theorem get_decay_value_eq_witness :
    (0 < (10 : Nat))
    ∧ (∀ height, decay_manager_t.get_decay_value ⟨10, 9 / 10⟩ height
        = some ((9 / 10 : double_type) ^ (height / 10)))
    ∧ decay_manager_t.get_decay_value ⟨10, 9 / 10⟩ 0 = some 1
    ∧ ∀ k, decay_manager_t.get_decay_value ⟨10, 9 / 10⟩ (k * 10)
        = some ((9 / 10 : double_type) ^ k) :=
  ⟨by decide, get_decay_value_eq ⟨10, 9 / 10⟩ (by decide)⟩

/-! ## Lemmas on the id maps -/

theorem index_fst (m : account_id_map_t) (k : String) :
    (m.index k).1 = (m.find k).getD 0 := by
  unfold account_id_map_t.index
  cases m.find k <;> rfl

theorem index_of_find (m : account_id_map_t) (k : String) (id : Nat)
    (h : m.find k = some id) : m.index k = (id, m) := by
  simp [account_id_map_t.index, h]

theorem find_append_self (m : account_id_map_t) (k : String) (v : Nat)
    (h : m.find k = none) : account_id_map_t.find (m ++ [(k, v)]) k = some v := by
  unfold account_id_map_t.find at h ⊢
  simp [List.lookup_append, h, List.lookup]

theorem find_append_other (m : account_id_map_t) (k k' : String) (v : Nat) (h : k' ≠ k) :
    account_id_map_t.find (m ++ [(k, v)]) k' = m.find k' := by
  have hb : (k' == k) = false := by simp [h]
  unfold account_id_map_t.find
  simp [List.lookup_append, List.lookup, hb]

theorem index_find_self (m : account_id_map_t) (k : String) :
    (m.index k).2.find k = some (m.index k).1 := by
  unfold account_id_map_t.index
  cases h : m.find k with
  | none => exact find_append_self m k 0 h
  | some id => exact h

theorem index_find_other (m : account_id_map_t) (k k' : String) (h : k' ≠ k) :
    (m.index k).2.find k' = m.find k' := by
  unfold account_id_map_t.index
  cases m.find k with
  | none => exact find_append_other m k k' 0 h
  | some id => rfl

theorem index_index (m : account_id_map_t) (k : String) :
    (m.index k).2.index k = ((m.index k).1, (m.index k).2) :=
  index_of_find _ k _ (index_find_self m k)

/-- The id that `map[name]` yields is the same after an access `map[other]`. -/
theorem index_index_fst (m : account_id_map_t) (k k' : String) :
    ((m.index k).2.index k').1 = (m.index k').1 := by
  by_cases h : k' = k
  · subst h
    rw [index_index]
  · rw [index_fst, index_fst, index_find_other m k k' h]

theorem matrix_set_set (m : matrix_t) (i j : Nat) (x y : double_type) :
    (m.set i j x).set i j y = m.set i j y := by
  unfold matrix_t.set
  congr 1
  funext a b
  by_cases h : a = i ∧ b = j <;> simp [h]

theorem update_weight_matrix_single (s : social_index_calculator) (t : relation_t) :
    update_weight_matrix s [t] = update_relation s t := by
  simp [update_weight_matrix]

theorem update_weight_matrix_append (s : social_index_calculator) (l1 l2 : List relation_t) :
    update_weight_matrix s (l1 ++ l2)
      = (update_weight_matrix s l1).bind fun s' => update_weight_matrix s' l2 := by
  induction l1 generalizing s with
  | nil => simp [update_weight_matrix]
  | cons t ts ih =>
    simp only [List.cons_append, update_weight_matrix]
    cases update_relation s t with
    | none => rfl
    | some s' => simpa using ih s'

/-- The value `decay_value` is defined when the relation is not decayable or the period is
positive. -/
theorem decay_value_some (d : decay_manager_t) (t : relation_t)
    (h : t.decayable = true → 0 < d.decay_period) :
    decay_value d t
      = some (if t.decayable then d.decay_koefficient ^ (t.height / d.decay_period) else 1) := by
  unfold decay_value
  by_cases hd : t.decayable = true
  · simp [hd, get_decay_value_pow d (h hd)]
  · simp [hd]

/-! ## One relation in `update_weight_matrix` -/

theorem update_relation_ownership (s : social_index_calculator) (t : relation_t)
    (hname : t.name = "OWNERSHIP") :
    update_relation s t = (decay_value s.p_decay_manager t).map fun _ => write_ownership s t := by
  simp [update_relation, hname]

theorem update_relation_upvote (s : social_index_calculator) (t : relation_t)
    (hname : t.name = "UPVOTE") :
    update_relation s t = (decay_value s.p_decay_manager t).map (write_upvote s t) := by
  simp [update_relation, hname]

theorem update_relation_repost (s : social_index_calculator) (t : relation_t)
    (hname : t.name = "REPOST") :
    update_relation s t = (decay_value s.p_decay_manager t).map fun _ => write_repost s t := by
  simp [update_relation, hname]

theorem update_relation_trust (s : social_index_calculator) (t : relation_t)
    (hname : t.name = "TRUST") :
    update_relation s t = (decay_value s.p_decay_manager t).map fun _ => write_trust s t := by
  simp [update_relation, hname]

theorem update_relation_other (s : social_index_calculator) (t : relation_t)
    (h1 : t.name ≠ "OWNERSHIP") (h2 : t.name ≠ "UPVOTE") (h3 : t.name ≠ "REPOST")
    (h4 : t.name ≠ "TRUST") :
    update_relation s t = (decay_value s.p_decay_manager t).map fun _ => s := by
  simp [update_relation, h1, h2, h3, h4]

/-- The repost matrix after `write_repost`. -/
theorem write_repost_matrix (s : social_index_calculator) (t : relation_t) :
    (write_repost s t).p_repost_matrix
      = (s.p_repost_matrix.set (s.content_map.index t.target).1
            (s.content_map.index t.source).1 1).set
          (s.content_map.index t.source).1 (s.content_map.index t.source).1 (-1) := by
  simp only [write_repost, index_index, index_index_fst]

/-- The trust matrix after `write_trust`. -/
theorem write_trust_matrix (s : social_index_calculator) (t : relation_t) :
    (write_trust s t).p_trust_matrix
      = s.p_trust_matrix.set (s.account_map.index t.target).1
          (s.account_map.index t.source).1 1 := by
  simp only [write_trust, index_index_fst]

/-! ## Claims on `update_weight_matrix` -/

/-- C6: for every UPVOTE relation `t` (with a positive decay period when `t` is decayable),
`update_weight_matrix` returns, and afterwards the cell of the vote matrix at the ids of the
target content and the source account holds `get_decay_value(t.height)`, that is
`decay_koefficient ^ (t.height / decay_period)`, when `t` is decayable and `1` otherwise; the
value depends on the relation's own height only, and no other cell of the vote matrix
changes. -/
theorem update_weight_matrix_upvote (s : social_index_calculator) (t : relation_t)
    (hname : t.name = "UPVOTE")
    (hdec : t.decayable = true → 0 < s.p_decay_manager.decay_period) :
    ∃ s' d, update_weight_matrix s [t] = some s'
      ∧ (if t.decayable then s.p_decay_manager.get_decay_value t.height else some 1) = some d
      ∧ d = (if t.decayable then
              s.p_decay_manager.decay_koefficient ^ (t.height / s.p_decay_manager.decay_period)
            else 1)
      ∧ s'.content_map.find t.target = some (s.content_map.index t.target).1
      ∧ s'.account_map.find t.source = some (s.account_map.index t.source).1
      ∧ s'.p_vote_matrix.data (s.content_map.index t.target).1 (s.account_map.index t.source).1
          = some d
      ∧ ∀ i j,
          ¬ (i = (s.content_map.index t.target).1 ∧ j = (s.account_map.index t.source).1) →
          s'.p_vote_matrix.data i j = s.p_vote_matrix.data i j := by
  have hd := decay_value_some s.p_decay_manager t hdec
  refine ⟨write_upvote s t (if t.decayable then
      s.p_decay_manager.decay_koefficient ^ (t.height / s.p_decay_manager.decay_period)
      else 1), _, ?_, hd, rfl, ?_, ?_, ?_, ?_⟩
  · rw [update_weight_matrix_single, update_relation_upvote s t hname, hd]
    rfl
  · exact index_find_self _ _
  · exact index_find_self _ _
  · simp [write_upvote, matrix_t.set]
  · intro i j hij
    simp [write_upvote, matrix_t.set, hij]

/-- Witness of C6: `bob` upvotes `post` at height `25` with a period of `10` blocks. -/
theorem update_weight_matrix_upvote_witness :
    sample_upvote.name = "UPVOTE"
    ∧ (sample_upvote.decayable = true → 0 < sample_calculator.p_decay_manager.decay_period)
    ∧ ∃ s' d, update_weight_matrix sample_calculator [sample_upvote] = some s'
      ∧ (if sample_upvote.decayable then
            sample_calculator.p_decay_manager.get_decay_value sample_upvote.height
          else some 1) = some d
      ∧ d = (if sample_upvote.decayable then
              sample_calculator.p_decay_manager.decay_koefficient
                ^ (sample_upvote.height / sample_calculator.p_decay_manager.decay_period)
            else 1)
      ∧ s'.content_map.find sample_upvote.target
          = some (sample_calculator.content_map.index sample_upvote.target).1
      ∧ s'.account_map.find sample_upvote.source
          = some (sample_calculator.account_map.index sample_upvote.source).1
      ∧ s'.p_vote_matrix.data (sample_calculator.content_map.index sample_upvote.target).1
          (sample_calculator.account_map.index sample_upvote.source).1 = some d
      ∧ ∀ i j, ¬ (i = (sample_calculator.content_map.index sample_upvote.target).1
            ∧ j = (sample_calculator.account_map.index sample_upvote.source).1) →
          s'.p_vote_matrix.data i j = sample_calculator.p_vote_matrix.data i j :=
  ⟨rfl, fun _ => by decide,
    update_weight_matrix_upvote sample_calculator sample_upvote rfl (fun _ => by decide)⟩

/-- C7, at a content that reposts itself: the cell at the ids of target and source is the
cell at the ids of source and source, and it holds `-1` afterwards, not `1`. -/
theorem update_weight_matrix_self_repost :
    self_repost.name = "REPOST"
    ∧ ∃ s', update_weight_matrix sample_calculator [self_repost] = some s'
      ∧ s'.p_repost_matrix.data (sample_calculator.content_map.index self_repost.target).1
          (sample_calculator.content_map.index self_repost.source).1 = some (-1)
      ∧ s'.p_repost_matrix.data (sample_calculator.content_map.index self_repost.target).1
          (sample_calculator.content_map.index self_repost.source).1 ≠ some 1 := by
  refine ⟨rfl, write_repost sample_calculator self_repost, ?_, ?_, ?_⟩
  · rw [update_weight_matrix_single, update_relation_repost _ _ rfl]
    rfl
  · rw [write_repost_matrix]
    simp [matrix_t.set, self_repost]
  · rw [write_repost_matrix]
    simp [matrix_t.set, self_repost]
    norm_num

/-- C7, amended: for every REPOST relation `t` (with a positive decay period when `t` is
decayable), `update_weight_matrix` returns, and afterwards the cell of the repost matrix at the
ids of source and source holds `-1`, the cell at the ids of target and source holds `1`
when the two ids differ, and no other cell of the repost matrix changes. -/
theorem update_weight_matrix_repost (s : social_index_calculator) (t : relation_t)
    (hname : t.name = "REPOST")
    (hdec : t.decayable = true → 0 < s.p_decay_manager.decay_period) :
    ∃ s', update_weight_matrix s [t] = some s'
      ∧ s'.content_map.find t.target = some (s.content_map.index t.target).1
      ∧ s'.content_map.find t.source = some (s.content_map.index t.source).1
      ∧ s'.p_repost_matrix.data (s.content_map.index t.source).1
          (s.content_map.index t.source).1 = some (-1)
      ∧ ((s.content_map.index t.target).1 ≠ (s.content_map.index t.source).1 →
          s'.p_repost_matrix.data (s.content_map.index t.target).1
            (s.content_map.index t.source).1 = some 1)
      ∧ ∀ i j,
          ¬ (i = (s.content_map.index t.target).1 ∧ j = (s.content_map.index t.source).1) →
          ¬ (i = (s.content_map.index t.source).1 ∧ j = (s.content_map.index t.source).1) →
          s'.p_repost_matrix.data i j = s.p_repost_matrix.data i j := by
  have hd := decay_value_some s.p_decay_manager t hdec
  refine ⟨write_repost s t, ?_, ?_, ?_, ?_, ?_, ?_⟩
  · rw [update_weight_matrix_single, update_relation_repost s t hname, hd]
    rfl
  · simp only [write_repost, index_index]
    by_cases h : t.target = t.source
    · rw [h]
      simp only [index_index]
      exact index_find_self _ _
    · rw [index_find_other _ _ _ h]
      exact index_find_self _ _
  · simp only [write_repost, index_index]
    rw [index_find_self, index_index_fst]
  · rw [write_repost_matrix]
    simp [matrix_t.set]
  · intro hne
    rw [write_repost_matrix]
    simp [matrix_t.set, hne]
  · intro i j h1 h2
    rw [write_repost_matrix]
    simp [matrix_t.set, h1, h2]

/-- Witness of C7: `photo` reposts `post`. -/
theorem update_weight_matrix_repost_witness :
    sample_repost.name = "REPOST"
    ∧ (sample_repost.decayable = true → 0 < sample_calculator.p_decay_manager.decay_period)
    ∧ (sample_calculator.content_map.index sample_repost.target).1
        ≠ (sample_calculator.content_map.index sample_repost.source).1
    ∧ ∃ s', update_weight_matrix sample_calculator [sample_repost] = some s'
      ∧ s'.content_map.find sample_repost.target
          = some (sample_calculator.content_map.index sample_repost.target).1
      ∧ s'.content_map.find sample_repost.source
          = some (sample_calculator.content_map.index sample_repost.source).1
      ∧ s'.p_repost_matrix.data (sample_calculator.content_map.index sample_repost.source).1
          (sample_calculator.content_map.index sample_repost.source).1 = some (-1)
      ∧ ((sample_calculator.content_map.index sample_repost.target).1
            ≠ (sample_calculator.content_map.index sample_repost.source).1 →
          s'.p_repost_matrix.data (sample_calculator.content_map.index sample_repost.target).1
            (sample_calculator.content_map.index sample_repost.source).1 = some 1)
      ∧ ∀ i j,
          ¬ (i = (sample_calculator.content_map.index sample_repost.target).1
              ∧ j = (sample_calculator.content_map.index sample_repost.source).1) →
          ¬ (i = (sample_calculator.content_map.index sample_repost.source).1
              ∧ j = (sample_calculator.content_map.index sample_repost.source).1) →
          s'.p_repost_matrix.data i j = sample_calculator.p_repost_matrix.data i j :=
  ⟨rfl, fun _ => by decide, by decide,
    update_weight_matrix_repost sample_calculator sample_repost rfl (fun _ => by decide)⟩

/-- C8: for every relation `t` (with a positive decay period when `t` is decayable),
`update_weight_matrix` returns and modifies only the weight matrix of the kind of `t`: an
OWNERSHIP relation sets the cell of the ownership matrix at the ids of source account and
target content to `1`, a TRUST relation sets the cell of the trust matrix at the ids of target
account and source account to `1`, and every other cell of the ownership, vote, repost and
trust matrices is as before; an UPVOTE leaves the ownership, repost and trust matrices as they
were, a REPOST the ownership, vote and trust matrices, and a relation of another name all
four. -/
theorem update_weight_matrix_frame (s : social_index_calculator) (t : relation_t)
    (hdec : t.decayable = true → 0 < s.p_decay_manager.decay_period) :
    ∃ s', update_weight_matrix s [t] = some s'
      ∧ s'.p_comment_matrix = s.p_comment_matrix
      ∧ (t.name = "OWNERSHIP" →
          s'.p_ownership_matrix.data (s.account_map.index t.source).1
            (s.content_map.index t.target).1 = some 1
          ∧ (∀ i j, ¬ (i = (s.account_map.index t.source).1
                ∧ j = (s.content_map.index t.target).1) →
              s'.p_ownership_matrix.data i j = s.p_ownership_matrix.data i j)
          ∧ s'.p_vote_matrix = s.p_vote_matrix ∧ s'.p_repost_matrix = s.p_repost_matrix
          ∧ s'.p_trust_matrix = s.p_trust_matrix)
      ∧ (t.name = "TRUST" →
          s'.p_trust_matrix.data (s.account_map.index t.target).1
            (s.account_map.index t.source).1 = some 1
          ∧ (∀ i j, ¬ (i = (s.account_map.index t.target).1
                ∧ j = (s.account_map.index t.source).1) →
              s'.p_trust_matrix.data i j = s.p_trust_matrix.data i j)
          ∧ s'.p_ownership_matrix = s.p_ownership_matrix ∧ s'.p_vote_matrix = s.p_vote_matrix
          ∧ s'.p_repost_matrix = s.p_repost_matrix)
      ∧ (t.name = "UPVOTE" →
          s'.p_ownership_matrix = s.p_ownership_matrix
          ∧ s'.p_repost_matrix = s.p_repost_matrix ∧ s'.p_trust_matrix = s.p_trust_matrix)
      ∧ (t.name = "REPOST" →
          s'.p_ownership_matrix = s.p_ownership_matrix
          ∧ s'.p_vote_matrix = s.p_vote_matrix ∧ s'.p_trust_matrix = s.p_trust_matrix)
      ∧ (t.name ≠ "OWNERSHIP" → t.name ≠ "UPVOTE" → t.name ≠ "REPOST" →
          t.name ≠ "TRUST" →
          s'.p_ownership_matrix = s.p_ownership_matrix ∧ s'.p_vote_matrix = s.p_vote_matrix
          ∧ s'.p_repost_matrix = s.p_repost_matrix ∧ s'.p_trust_matrix = s.p_trust_matrix) := by
  have hd := decay_value_some s.p_decay_manager t hdec
  obtain ⟨s', hs'⟩ : ∃ s', update_weight_matrix s [t] = some s' := by
    rw [update_weight_matrix_single, update_relation, hd]
    exact ⟨_, rfl⟩
  refine ⟨s', hs', ?_, ?_, ?_, ?_, ?_, ?_⟩
  · rw [update_weight_matrix_single, update_relation, hd] at hs'
    simp only [Option.map_some', Option.some.injEq] at hs'
    subst hs'
    by_cases h1 : t.name = "OWNERSHIP"
    · simp [h1, write_ownership]
    · by_cases h2 : t.name = "UPVOTE"
      · simp [h2, write_upvote]
      · by_cases h3 : t.name = "REPOST"
        · simp [h3, write_repost]
        · by_cases h4 : t.name = "TRUST"
          · simp [h4, write_trust]
          · simp [h1, h2, h3, h4]
  · intro hname
    rw [update_weight_matrix_single, update_relation_ownership s t hname, hd] at hs'
    simp only [Option.map_some', Option.some.injEq] at hs'
    subst hs'
    refine ⟨?_, ?_, rfl, rfl, rfl⟩
    · simp [write_ownership, matrix_t.set]
    · intro i j hij
      simp [write_ownership, matrix_t.set, hij]
  · intro hname
    rw [update_weight_matrix_single, update_relation_trust s t hname, hd] at hs'
    simp only [Option.map_some', Option.some.injEq] at hs'
    subst hs'
    refine ⟨?_, ?_, rfl, rfl, rfl⟩
    · rw [write_trust_matrix]
      simp [matrix_t.set]
    · intro i j hij
      rw [write_trust_matrix]
      simp [matrix_t.set, hij]
  · intro hname
    rw [update_weight_matrix_single, update_relation_upvote s t hname, hd] at hs'
    simp only [Option.map_some', Option.some.injEq] at hs'
    subst hs'
    exact ⟨rfl, rfl, rfl⟩
  · intro hname
    rw [update_weight_matrix_single, update_relation_repost s t hname, hd] at hs'
    simp only [Option.map_some', Option.some.injEq] at hs'
    subst hs'
    exact ⟨rfl, rfl, rfl⟩
  · intro h1 h2 h3 h4
    rw [update_weight_matrix_single, update_relation_other s t h1 h2 h3 h4, hd] at hs'
    simp only [Option.map_some', Option.some.injEq] at hs'
    subst hs'
    exact ⟨rfl, rfl, rfl, rfl⟩

/-- Witness of C8: `alice` owns `post`. -/
theorem update_weight_matrix_frame_witness :
    (sample_ownership.decayable = true → 0 < sample_calculator.p_decay_manager.decay_period)
    ∧ sample_ownership.name = "OWNERSHIP"
    ∧ ∃ s', update_weight_matrix sample_calculator [sample_ownership] = some s'
      ∧ s'.p_comment_matrix = sample_calculator.p_comment_matrix
      ∧ (sample_ownership.name = "OWNERSHIP" →
          s'.p_ownership_matrix.data (sample_calculator.account_map.index sample_ownership.source).1
            (sample_calculator.content_map.index sample_ownership.target).1 = some 1
          ∧ (∀ i j, ¬ (i = (sample_calculator.account_map.index sample_ownership.source).1
                ∧ j = (sample_calculator.content_map.index sample_ownership.target).1) →
              s'.p_ownership_matrix.data i j = sample_calculator.p_ownership_matrix.data i j)
          ∧ s'.p_vote_matrix = sample_calculator.p_vote_matrix
          ∧ s'.p_repost_matrix = sample_calculator.p_repost_matrix
          ∧ s'.p_trust_matrix = sample_calculator.p_trust_matrix)
      ∧ (sample_ownership.name = "TRUST" →
          s'.p_trust_matrix.data (sample_calculator.account_map.index sample_ownership.target).1
            (sample_calculator.account_map.index sample_ownership.source).1 = some 1
          ∧ (∀ i j, ¬ (i = (sample_calculator.account_map.index sample_ownership.target).1
                ∧ j = (sample_calculator.account_map.index sample_ownership.source).1) →
              s'.p_trust_matrix.data i j = sample_calculator.p_trust_matrix.data i j)
          ∧ s'.p_ownership_matrix = sample_calculator.p_ownership_matrix
          ∧ s'.p_vote_matrix = sample_calculator.p_vote_matrix
          ∧ s'.p_repost_matrix = sample_calculator.p_repost_matrix)
      ∧ (sample_ownership.name = "UPVOTE" →
          s'.p_ownership_matrix = sample_calculator.p_ownership_matrix
          ∧ s'.p_repost_matrix = sample_calculator.p_repost_matrix
          ∧ s'.p_trust_matrix = sample_calculator.p_trust_matrix)
      ∧ (sample_ownership.name = "REPOST" →
          s'.p_ownership_matrix = sample_calculator.p_ownership_matrix
          ∧ s'.p_vote_matrix = sample_calculator.p_vote_matrix
          ∧ s'.p_trust_matrix = sample_calculator.p_trust_matrix)
      ∧ (sample_ownership.name ≠ "OWNERSHIP" → sample_ownership.name ≠ "UPVOTE" →
          sample_ownership.name ≠ "REPOST" → sample_ownership.name ≠ "TRUST" →
          s'.p_ownership_matrix = sample_calculator.p_ownership_matrix
          ∧ s'.p_vote_matrix = sample_calculator.p_vote_matrix
          ∧ s'.p_repost_matrix = sample_calculator.p_repost_matrix
          ∧ s'.p_trust_matrix = sample_calculator.p_trust_matrix) :=
  ⟨fun _ => by decide, rfl,
    update_weight_matrix_frame sample_calculator sample_ownership (fun _ => by decide)⟩

/-! ## Writing the same cell twice -/

theorem index_find_preserved (m : account_id_map_t) (k k' : String) (v : Nat)
    (h : m.find k = some v) : (m.index k').2.find k = some v := by
  by_cases hk : k = k'
  · subst hk
    rw [index_of_find m k v h]
    exact h
  · rw [index_find_other m k' k hk]
    exact h

/-- After `map[k]`, a second access `map[k]` changes nothing, also with an access `map[k2]`
in between. -/
theorem index_index_index (m : account_id_map_t) (k k2 : String) :
    ((m.index k).2.index k2).2.index k = ((m.index k).1, ((m.index k).2.index k2).2) :=
  index_of_find _ k _ (index_find_preserved _ k k2 _ (index_find_self m k))

theorem matrix_set_repost_twice (m : matrix_t) (a b : Nat) :
    (((m.set a b 1).set b b (-1)).set a b 1).set b b (-1) = (m.set a b 1).set b b (-1) := by
  unfold matrix_t.set
  congr 1
  funext i j
  by_cases h1 : i = b ∧ j = b
  · simp [h1]
  · by_cases h2 : i = a ∧ j = b <;> simp [h1, h2]

theorem write_ownership_twice (s : social_index_calculator) (t1 t2 : relation_t)
    (hs : t1.source = t2.source) (ht : t1.target = t2.target) :
    write_ownership (write_ownership s t1) t2 = write_ownership s t2 := by
  simp only [write_ownership, hs, ht, index_index, matrix_set_set]

theorem write_upvote_twice (s : social_index_calculator) (t1 t2 : relation_t)
    (d1 d2 : double_type) (hs : t1.source = t2.source) (ht : t1.target = t2.target) :
    write_upvote (write_upvote s t1 d1) t2 d2 = write_upvote s t2 d2 := by
  simp only [write_upvote, hs, ht, index_index, matrix_set_set]

theorem write_trust_twice (s : social_index_calculator) (t1 t2 : relation_t)
    (hs : t1.source = t2.source) (ht : t1.target = t2.target) :
    write_trust (write_trust s t1) t2 = write_trust s t2 := by
  simp only [write_trust, hs, ht, index_index, index_index_index, index_index_fst,
    matrix_set_set]

theorem write_repost_twice (s : social_index_calculator) (t1 t2 : relation_t)
    (hs : t1.source = t2.source) (ht : t1.target = t2.target) :
    write_repost (write_repost s t1) t2 = write_repost s t2 := by
  simp only [write_repost, hs, ht, index_index, index_index_index, index_index_fst,
    matrix_set_repost_twice]

theorem update_relation_decay_manager (s s' : social_index_calculator) (t : relation_t)
    (h : update_relation s t = some s') : s'.p_decay_manager = s.p_decay_manager := by
  unfold update_relation at h
  cases hd : decay_value s.p_decay_manager t with
  | none => simp [hd] at h
  | some d =>
    simp only [hd, Option.map_some', Option.some.injEq] at h
    subst h
    by_cases h1 : t.name = "OWNERSHIP"
    · simp [h1, write_ownership]
    · by_cases h2 : t.name = "UPVOTE"
      · simp [h2, write_upvote]
      · by_cases h3 : t.name = "REPOST"
        · simp [h3, write_repost]
        · by_cases h4 : t.name = "TRUST"
          · simp [h4, write_trust]
          · simp [h1, h2, h3, h4]

/-- Two relations with the same source, target and name, one after the other, leave the state
the second one alone leaves. -/
theorem update_relation_twice (s : social_index_calculator) (t1 t2 : relation_t)
    (hs : t1.source = t2.source) (ht : t1.target = t2.target) (hn : t1.name = t2.name)
    (d1 : double_type) (hd1 : decay_value s.p_decay_manager t1 = some d1) :
    (update_relation s t1).bind (fun s' => update_relation s' t2) = update_relation s t2 := by
  cases hu : update_relation s t1 with
  | none => simp [update_relation, hd1] at hu
  | some s1 =>
    have hdm := update_relation_decay_manager s s1 t1 hu
    simp only [Option.some_bind]
    by_cases h1 : t2.name = "OWNERSHIP"
    · rw [update_relation_ownership s t1 (hn.trans h1), hd1] at hu
      simp only [Option.map_some', Option.some.injEq] at hu
      rw [update_relation_ownership s1 t2 h1, update_relation_ownership s t2 h1, hdm, ← hu,
        write_ownership_twice s t1 t2 hs ht]
    · by_cases h2 : t2.name = "UPVOTE"
      · rw [update_relation_upvote s t1 (hn.trans h2), hd1] at hu
        simp only [Option.map_some', Option.some.injEq] at hu
        rw [update_relation_upvote s1 t2 h2, update_relation_upvote s t2 h2, hdm, ← hu]
        cases decay_value s.p_decay_manager t2 with
        | none => rfl
        | some d2 => simp [write_upvote_twice s t1 t2 d1 d2 hs ht]
      · by_cases h3 : t2.name = "REPOST"
        · rw [update_relation_repost s t1 (hn.trans h3), hd1] at hu
          simp only [Option.map_some', Option.some.injEq] at hu
          rw [update_relation_repost s1 t2 h3, update_relation_repost s t2 h3, hdm, ← hu,
            write_repost_twice s t1 t2 hs ht]
        · by_cases h4 : t2.name = "TRUST"
          · rw [update_relation_trust s t1 (hn.trans h4), hd1] at hu
            simp only [Option.map_some', Option.some.injEq] at hu
            rw [update_relation_trust s1 t2 h4, update_relation_trust s t2 h4, hdm, ← hu,
              write_trust_twice s t1 t2 hs ht]
          · rw [update_relation_other s t1 (hn ▸ h1) (hn ▸ h2) (hn ▸ h3) (hn ▸ h4),
              hd1] at hu
            simp only [Option.map_some', Option.some.injEq] at hu
            rw [update_relation_other s1 t2 h1 h2 h3 h4, update_relation_other s t2 h1 h2 h3 h4,
              hdm, ← hu]

theorem update_weight_matrix_decay_manager (s s' : social_index_calculator)
    (l : List relation_t) (h : update_weight_matrix s l = some s') :
    s'.p_decay_manager = s.p_decay_manager := by
  induction l generalizing s with
  | nil =>
    simp only [update_weight_matrix, Option.some.injEq] at h
    rw [← h]
  | cons t ts ih =>
    simp only [update_weight_matrix] at h
    cases hu : update_relation s t with
    | none => simp [hu] at h
    | some s1 =>
      rw [hu, Option.some_bind] at h
      rw [ih s1 h, update_relation_decay_manager s s1 t hu]

theorem update_weight_matrix_pair (s : social_index_calculator) (t1 t2 : relation_t) :
    update_weight_matrix s [t1, t2]
      = (update_relation s t1).bind fun s' => update_relation s' t2 := by
  simp only [update_weight_matrix]
  cases update_relation s t1 with
  | none => rfl
  | some s1 =>
    simp only [Option.some_bind]
    cases update_relation s1 t2 <;> rfl

/-- C9: cell writes are last-write-wins, not additive.  After any list `pre` of relations:
ingesting a relation twice leaves the state that ingesting it once leaves; ingesting `t1` and
then `t2` with the same source, target and name leaves the state, hence the weight matrices,
that `t2` alone leaves; and for two UPVOTEs the cell of the vote matrix holds the decay value
of the second one, `decay_koefficient ^ (t2.height / decay_period)`, not a sum. -/
theorem update_weight_matrix_last_write_wins (s : social_index_calculator)
    (pre : List relation_t) (t1 t2 : relation_t) (hs : t1.source = t2.source)
    (ht : t1.target = t2.target) (hn : t1.name = t2.name)
    (hp : 0 < s.p_decay_manager.decay_period) :
    update_weight_matrix s (pre ++ [t2, t2]) = update_weight_matrix s (pre ++ [t2])
    ∧ update_weight_matrix s (pre ++ [t1, t2]) = update_weight_matrix s (pre ++ [t2])
    ∧ (t2.name = "UPVOTE" → ∀ s0, update_weight_matrix s pre = some s0 →
        ∃ s', update_weight_matrix s (pre ++ [t1, t2]) = some s'
          ∧ s'.p_vote_matrix.data (s0.content_map.index t2.target).1
              (s0.account_map.index t2.source).1
            = some (if t2.decayable then
                s.p_decay_manager.decay_koefficient ^ (t2.height / s.p_decay_manager.decay_period)
              else 1)) := by
  have key : ∀ t : relation_t, t.source = t2.source → t.target = t2.target →
      t.name = t2.name →
      update_weight_matrix s (pre ++ [t, t2]) = update_weight_matrix s (pre ++ [t2]) := by
    intro t hs' ht' hn'
    rw [update_weight_matrix_append, update_weight_matrix_append]
    cases h0 : update_weight_matrix s pre with
    | none => rfl
    | some s0 =>
      have hdm := update_weight_matrix_decay_manager s s0 pre h0
      simp only [Option.some_bind]
      rw [update_weight_matrix_pair, update_weight_matrix_single]
      exact update_relation_twice s0 t t2 hs' ht' hn' _
        (decay_value_some s0.p_decay_manager t fun _ => hdm ▸ hp)
  refine ⟨key t2 rfl rfl rfl, key t1 hs ht hn, ?_⟩
  intro hname s0 h0
  have hdm := update_weight_matrix_decay_manager s s0 pre h0
  have hd := decay_value_some s0.p_decay_manager t2 fun _ => hdm ▸ hp
  rw [hdm] at hd
  refine ⟨write_upvote s0 t2 (if t2.decayable then
      s.p_decay_manager.decay_koefficient ^ (t2.height / s.p_decay_manager.decay_period)
      else 1), ?_, ?_⟩
  · rw [key t1 hs ht hn, update_weight_matrix_append, h0, Option.some_bind,
      update_weight_matrix_single, update_relation_upvote s0 t2 hname, hdm, hd]
    rfl
  · simp [write_upvote, matrix_t.set]

/-- Witness of C9: after `alice` owns `post`, `bob` upvotes `post` at height `25` and again at
height `40`. -/
theorem update_weight_matrix_last_write_wins_witness :
    sample_upvote.source = later_upvote.source
    ∧ sample_upvote.target = later_upvote.target
    ∧ sample_upvote.name = later_upvote.name
    ∧ 0 < sample_calculator.p_decay_manager.decay_period
    ∧ later_upvote.name = "UPVOTE"
    ∧ (∃ s0, update_weight_matrix sample_calculator [sample_ownership] = some s0)
    ∧ update_weight_matrix sample_calculator ([sample_ownership] ++ [later_upvote, later_upvote])
        = update_weight_matrix sample_calculator ([sample_ownership] ++ [later_upvote])
    ∧ update_weight_matrix sample_calculator ([sample_ownership] ++ [sample_upvote, later_upvote])
        = update_weight_matrix sample_calculator ([sample_ownership] ++ [later_upvote])
    ∧ (later_upvote.name = "UPVOTE" →
        ∀ s0, update_weight_matrix sample_calculator [sample_ownership] = some s0 →
        ∃ s', update_weight_matrix sample_calculator
              ([sample_ownership] ++ [sample_upvote, later_upvote]) = some s'
          ∧ s'.p_vote_matrix.data (s0.content_map.index later_upvote.target).1
              (s0.account_map.index later_upvote.source).1
            = some (if later_upvote.decayable then
                sample_calculator.p_decay_manager.decay_koefficient
                  ^ (later_upvote.height / sample_calculator.p_decay_manager.decay_period)
              else 1)) :=
  ⟨rfl, rfl, rfl, by decide, rfl, ⟨_, rfl⟩,
    update_weight_matrix_last_write_wins sample_calculator [sample_ownership] sample_upvote
      later_upvote rfl rfl rfl (by decide)⟩

/-! ## The doubling loops of `adjust_matrix_sizes` -/

theorem grow_size_of_not_lt (s c : Nat) (h : ¬ s < c) : grow_size s c = some s := by
  rw [grow_size, if_neg h]

/-- The doubling loop leaves from a positive size, with a positive size that reaches the
count. -/
theorem grow_size_pos (s c : Nat) (h : 0 < s) :
    ∃ r, grow_size s c = some r ∧ c ≤ r ∧ 0 < r := by
  induction s, c using grow_size.induct with
  | case1 c h0 => omega
  | case2 s c hlt hne ih =>
    obtain ⟨r, hr, hcr, hpos⟩ := ih (by omega)
    exact ⟨r, by rw [grow_size, if_pos hlt, if_neg hne, hr], hcr, hpos⟩
  | case3 s c hge => exact ⟨s, grow_size_of_not_lt s c hge, by omega, h⟩

/-- The guard of a block of `adjust_matrix_sizes` can be left out. -/
theorem adjust_matrix_eq (m : matrix_t) (a b : Nat) :
    adjust_matrix m a b
      = (grow_size m.size1 a).bind fun r =>
          (grow_size m.size2 b).bind fun c => some (m.resize r c) := by
  unfold adjust_matrix
  by_cases h : m.size1 < a ∨ m.size2 < b
  · rw [if_pos h]
  · rw [if_neg h]
    have h1 : ¬ m.size1 < a := fun h' => h (Or.inl h')
    have h2 : ¬ m.size2 < b := fun h' => h (Or.inr h')
    rw [grow_size_of_not_lt _ _ h1, grow_size_of_not_lt _ _ h2]
    rfl

theorem adjust_matrix_pos (m : matrix_t) (a b : Nat) (h1 : 0 < m.size1) (h2 : 0 < m.size2) :
    ∃ m', adjust_matrix m a b = some m' ∧ 0 < m'.size1 ∧ 0 < m'.size2
      ∧ a ≤ m'.size1 ∧ b ≤ m'.size2 ∧ m'.data = m.data := by
  obtain ⟨r, hr, har, hr0⟩ := grow_size_pos m.size1 a h1
  obtain ⟨c, hc, hbc, hc0⟩ := grow_size_pos m.size2 b h2
  refine ⟨m.resize r c, ?_, hr0, hc0, har, hbc, rfl⟩
  rw [adjust_matrix_eq, hr, hc]
  rfl

/-- What `collect_relation` keeps: the weight matrices, the filter, the decay manager and the
block counters; the node counts do not decrease. -/
theorem collect_relation_frame (s : social_index_calculator) (t : relation_t) :
    (collect_relation s t).p_ownership_matrix = s.p_ownership_matrix
    ∧ (collect_relation s t).p_vote_matrix = s.p_vote_matrix
    ∧ (collect_relation s t).p_repost_matrix = s.p_repost_matrix
    ∧ (collect_relation s t).p_comment_matrix = s.p_comment_matrix
    ∧ (collect_relation s t).p_trust_matrix = s.p_trust_matrix
    ∧ (collect_relation s t).p_filter = s.p_filter
    ∧ (collect_relation s t).p_decay_manager = s.p_decay_manager
    ∧ s.accounts_count ≤ (collect_relation s t).accounts_count
    ∧ s.contents_count ≤ (collect_relation s t).contents_count := by
  unfold collect_relation
  cases hs : t.source_type <;> cases ht : t.target_type <;>
    simp only [social_index_calculator.id_map] <;>
    split_ifs <;>
    simp [social_index_calculator.insert_id] <;>
    omega

theorem collect_accounts_frame (s : social_index_calculator) (l : List relation_t) :
    (collect_accounts s l).p_ownership_matrix = s.p_ownership_matrix
    ∧ (collect_accounts s l).p_vote_matrix = s.p_vote_matrix
    ∧ (collect_accounts s l).p_repost_matrix = s.p_repost_matrix
    ∧ (collect_accounts s l).p_comment_matrix = s.p_comment_matrix
    ∧ (collect_accounts s l).p_trust_matrix = s.p_trust_matrix
    ∧ (collect_accounts s l).p_filter = s.p_filter
    ∧ (collect_accounts s l).p_decay_manager = s.p_decay_manager
    ∧ s.accounts_count ≤ (collect_accounts s l).accounts_count
    ∧ s.contents_count ≤ (collect_accounts s l).contents_count := by
  unfold collect_accounts
  induction l generalizing s with
  | nil => simp
  | cons t ts ih =>
    rw [List.foldl_cons]
    obtain ⟨h1, h2, h3, h4, h5, h6, h7, h8, h9⟩ := collect_relation_frame s t
    obtain ⟨i1, i2, i3, i4, i5, i6, i7, i8, i9⟩ := ih (collect_relation s t)
    exact ⟨i1.trans h1, i2.trans h2, i3.trans h3, i4.trans h4, i5.trans h5, i6.trans h6,
      i7.trans h7, le_trans h8 i8, le_trans h9 i9⟩

/-- The result of `adjust_matrix_sizes` is the state with the five adjusted matrices. -/
theorem adjust_matrix_sizes_some (s y : social_index_calculator)
    (h : adjust_matrix_sizes s = some y) :
    y = map_matrices (fun _ => y.p_ownership_matrix) (fun _ => y.p_vote_matrix)
          (fun _ => y.p_repost_matrix) (fun _ => y.p_comment_matrix)
          (fun _ => y.p_trust_matrix) s
    ∧ adjust_matrix s.p_vote_matrix s.contents_count s.accounts_count = some y.p_vote_matrix
    ∧ adjust_matrix s.p_ownership_matrix s.accounts_count s.contents_count
        = some y.p_ownership_matrix
    ∧ adjust_matrix s.p_repost_matrix s.contents_count s.contents_count
        = some y.p_repost_matrix
    ∧ adjust_matrix s.p_comment_matrix s.contents_count s.contents_count
        = some y.p_comment_matrix
    ∧ adjust_matrix s.p_trust_matrix s.accounts_count s.accounts_count
        = some y.p_trust_matrix := by
  unfold adjust_matrix_sizes at h
  cases h1 : adjust_matrix s.p_vote_matrix s.contents_count s.accounts_count with
  | none => simp [h1] at h
  | some v =>
  cases h2 : adjust_matrix s.p_ownership_matrix s.accounts_count s.contents_count with
  | none => simp [h1, h2] at h
  | some o =>
  cases h3 : adjust_matrix s.p_repost_matrix s.contents_count s.contents_count with
  | none => simp [h1, h2, h3] at h
  | some r =>
  cases h4 : adjust_matrix s.p_comment_matrix s.contents_count s.contents_count with
  | none => simp [h1, h2, h3, h4] at h
  | some c =>
  cases h5 : adjust_matrix s.p_trust_matrix s.accounts_count s.accounts_count with
  | none => simp [h1, h2, h3, h4, h5] at h
  | some tr =>
    simp only [h1, h2, h3, h4, h5, Option.some_bind, Option.some.injEq] at h
    subst h
    exact ⟨rfl, rfl, rfl, rfl, rfl, rfl⟩

/-- The five blocks of `adjust_matrix_sizes` all return exactly when the function returns. -/
theorem adjust_matrix_sizes_of_some (s : social_index_calculator) (v o r c tr : matrix_t)
    (h1 : adjust_matrix s.p_vote_matrix s.contents_count s.accounts_count = some v)
    (h2 : adjust_matrix s.p_ownership_matrix s.accounts_count s.contents_count = some o)
    (h3 : adjust_matrix s.p_repost_matrix s.contents_count s.contents_count = some r)
    (h4 : adjust_matrix s.p_comment_matrix s.contents_count s.contents_count = some c)
    (h5 : adjust_matrix s.p_trust_matrix s.accounts_count s.accounts_count = some tr) :
    adjust_matrix_sizes s
      = some (map_matrices (fun _ => o) (fun _ => v) (fun _ => r) (fun _ => c)
          (fun _ => tr) s) := by
  unfold adjust_matrix_sizes
  rw [h1, h2, h3, h4, h5]
  rfl

theorem map_extends_refl (m : account_id_map_t) : map_extends m m := fun _ _ h => h

theorem map_extends_trans (m1 m2 m3 : account_id_map_t) (h12 : map_extends m1 m2)
    (h23 : map_extends m2 m3) : map_extends m1 m3 :=
  fun k id h => h23 k id (h12 k id h)

theorem map_extends_insert (m : account_id_map_t) (k : String) (v : Nat) :
    map_extends m (m.insert k v) := by
  intro k' id h
  unfold account_id_map_t.insert
  cases hk : m.find k with
  | some _ => exact h
  | none =>
    have hne : k' ≠ k := by
      intro he
      rw [he, hk] at h
      exact Option.noConfusion h
    show account_id_map_t.find (m ++ [(k, v % 4294967296)]) k' = some id
    rw [find_append_other m k k' _ hne]
    exact h

theorem insert_id_extends (s : social_index_calculator) (kind kind' : node_type)
    (name : String) : map_extends (s.id_map kind') ((s.insert_id kind name).id_map kind') := by
  cases kind <;> cases kind' <;>
    simp only [social_index_calculator.insert_id, social_index_calculator.id_map] <;>
    first | exact map_extends_insert _ _ _ | exact map_extends_refl _

theorem collect_relation_extends (s : social_index_calculator) (t : relation_t)
    (kind : node_type) : map_extends (s.id_map kind) ((collect_relation s t).id_map kind) := by
  unfold collect_relation
  simp only []
  split_ifs
  · exact map_extends_trans _ _ _ (insert_id_extends s _ kind _) (insert_id_extends _ _ kind _)
  · exact insert_id_extends s _ kind _
  · exact insert_id_extends s _ kind _
  · exact map_extends_refl _

theorem collect_accounts_extends (s : social_index_calculator) (l : List relation_t)
    (kind : node_type) : map_extends (s.id_map kind) ((collect_accounts s l).id_map kind) := by
  unfold collect_accounts
  induction l generalizing s with
  | nil => exact map_extends_refl _
  | cons t ts ih =>
    rw [List.foldl_cons]
    exact map_extends_trans _ _ _ (collect_relation_extends s t kind) (ih _)

theorem add_block_eq (s : social_index_calculator) (l : List relation_t) :
    add_block s l
      = (enter_block s (filter_block s l)).bind fun y =>
          update_weight_matrix y (filter_block s l) := rfl

theorem adjust_matrix_sizes_returns (s : social_index_calculator)
    (h : positive_dimensions s) : ∃ y, adjust_matrix_sizes s = some y := by
  obtain ⟨⟨o1, o2⟩, ⟨v1, v2⟩, ⟨r1, r2⟩, ⟨c1, c2⟩, ⟨t1, t2⟩⟩ := h
  obtain ⟨v, hv, _⟩ := adjust_matrix_pos s.p_vote_matrix s.contents_count s.accounts_count v1 v2
  obtain ⟨o, ho, _⟩ :=
    adjust_matrix_pos s.p_ownership_matrix s.accounts_count s.contents_count o1 o2
  obtain ⟨r, hr, _⟩ :=
    adjust_matrix_pos s.p_repost_matrix s.contents_count s.contents_count r1 r2
  obtain ⟨c, hc, _⟩ :=
    adjust_matrix_pos s.p_comment_matrix s.contents_count s.contents_count c1 c2
  obtain ⟨tr, ht, _⟩ :=
    adjust_matrix_pos s.p_trust_matrix s.accounts_count s.accounts_count t1 t2
  exact ⟨_, adjust_matrix_sizes_of_some s v o r c tr hv ho hr hc ht⟩

theorem update_weight_matrix_returns (s : social_index_calculator) (l : List relation_t)
    (hp : 0 < s.p_decay_manager.decay_period) : ∃ s', update_weight_matrix s l = some s' := by
  induction l generalizing s with
  | nil => exact ⟨s, rfl⟩
  | cons t ts ih =>
    have hd := decay_value_some s.p_decay_manager t fun _ => hp
    obtain ⟨s1, h1⟩ : ∃ s1, update_relation s t = some s1 := by
      rw [update_relation, hd]
      exact ⟨_, rfl⟩
    have hdm := update_relation_decay_manager s s1 t h1
    obtain ⟨s', hs'⟩ := ih s1 (hdm ▸ hp)
    exact ⟨s', by simp only [update_weight_matrix, h1, Option.some_bind, hs']⟩

theorem add_block_returns (s : social_index_calculator) (l : List relation_t)
    (hp : 0 < s.p_decay_manager.decay_period) (hd : positive_dimensions s) :
    ∃ s', add_block s l = some s' := by
  obtain ⟨f1, f2, f3, f4, f5, _, f7, _, _⟩ := collect_accounts_frame s (filter_block s l)
  have hpos : positive_dimensions (count_block (collect_accounts s (filter_block s l))) := by
    unfold positive_dimensions count_block
    simp only [f1, f2, f3, f4, f5]
    exact hd
  obtain ⟨y, hy⟩ := adjust_matrix_sizes_returns _ hpos
  obtain ⟨hy', _⟩ := adjust_matrix_sizes_some _ y hy
  have hyp : 0 < y.p_decay_manager.decay_period := by
    rw [hy']
    show 0 < (collect_accounts s (filter_block s l)).p_decay_manager.decay_period
    rw [f7]
    exact hp
  obtain ⟨s', hs'⟩ := update_weight_matrix_returns y (filter_block s l) hyp
  refine ⟨s', ?_⟩
  rw [add_block_eq]
  unfold enter_block
  rw [hy, Option.some_bind, hs']

theorem sample_calculator_positive_dimensions : positive_dimensions sample_calculator := by
  unfold positive_dimensions
  decide

theorem doubles_to_keeps (old new count : Nat) (h : doubles_to old new count)
    (hc : count ≤ old) : new = old := by
  obtain ⟨k, hk, _, hmin⟩ := h
  cases k with
  | zero => simpa using hk
  | succ k =>
    have := hmin 0 (Nat.succ_pos k)
    simp at this
    omega

theorem grow_size_doubles (s c r : Nat) (hs : 0 < s) (h : grow_size s c = some r) :
    doubles_to s r c := by
  induction s, c using grow_size.induct with
  | case1 c h0 => omega
  | case2 s c hlt hne ih =>
    rw [grow_size, if_pos hlt, if_neg hne] at h
    obtain ⟨k, hk, hcr, hmin⟩ := ih (by omega) h
    refine ⟨k + 1, ?_, hcr, ?_⟩
    · rw [hk, pow_succ]; ring
    · intro j hj
      cases j with
      | zero => simpa using hlt
      | succ j =>
        have := hmin j (by omega)
        rw [pow_succ]
        calc s * (2 ^ j * 2) = s * 2 * 2 ^ j := by ring
          _ < c := this
  | case3 s c hge =>
    rw [grow_size_of_not_lt s c hge, Option.some.injEq] at h
    subst h
    exact ⟨0, by simp, by omega, fun j hj => absurd hj (Nat.not_lt_zero j)⟩

theorem adjust_matrix_covers (m m' : matrix_t) (a b : Nat) (h1 : 0 < m.size1)
    (h2 : 0 < m.size2) (h : adjust_matrix m a b = some m') :
    matrix_covers m m' a b ∧ m'.data = m.data := by
  rw [adjust_matrix_eq] at h
  cases hr : grow_size m.size1 a with
  | none => simp [hr] at h
  | some r =>
    cases hc : grow_size m.size2 b with
    | none => simp [hr, hc] at h
    | some c =>
      simp only [hr, hc, Option.some_bind, Option.some.injEq] at h
      subst h
      exact ⟨⟨grow_size_doubles _ _ _ h1 hr, grow_size_doubles _ _ _ h2 hc⟩, rfl⟩

theorem doubles_to_pos (old new count : Nat) (h : doubles_to old new count) (ho : 0 < old) :
    0 < new := by
  obtain ⟨k, hk, _, _⟩ := h
  rw [hk]
  positivity

/-- What one relation of `update_weight_matrix` keeps: the node counts, the block counters and
the dimensions of the five matrices. -/
theorem update_relation_keeps (s s' : social_index_calculator) (t : relation_t)
    (h : update_relation s t = some s') :
    s'.accounts_count = s.accounts_count ∧ s'.contents_count = s.contents_count
    ∧ s'.total_handled_blocks_count = s.total_handled_blocks_count
    ∧ s'.handled_blocks_count = s.handled_blocks_count
    ∧ (s'.p_ownership_matrix.size1 = s.p_ownership_matrix.size1
      ∧ s'.p_ownership_matrix.size2 = s.p_ownership_matrix.size2)
    ∧ (s'.p_vote_matrix.size1 = s.p_vote_matrix.size1
      ∧ s'.p_vote_matrix.size2 = s.p_vote_matrix.size2)
    ∧ (s'.p_repost_matrix.size1 = s.p_repost_matrix.size1
      ∧ s'.p_repost_matrix.size2 = s.p_repost_matrix.size2)
    ∧ s'.p_comment_matrix = s.p_comment_matrix
    ∧ (s'.p_trust_matrix.size1 = s.p_trust_matrix.size1
      ∧ s'.p_trust_matrix.size2 = s.p_trust_matrix.size2) := by
  unfold update_relation at h
  cases hd : decay_value s.p_decay_manager t with
  | none => simp [hd] at h
  | some d =>
    simp only [hd, Option.map_some', Option.some.injEq] at h
    subst h
    split_ifs <;>
      simp [write_ownership, write_upvote, write_repost, write_trust, matrix_t.set]

theorem update_weight_matrix_keeps (s s' : social_index_calculator) (l : List relation_t)
    (h : update_weight_matrix s l = some s') :
    s'.accounts_count = s.accounts_count ∧ s'.contents_count = s.contents_count
    ∧ s'.total_handled_blocks_count = s.total_handled_blocks_count
    ∧ s'.handled_blocks_count = s.handled_blocks_count
    ∧ (s'.p_ownership_matrix.size1 = s.p_ownership_matrix.size1
      ∧ s'.p_ownership_matrix.size2 = s.p_ownership_matrix.size2)
    ∧ (s'.p_vote_matrix.size1 = s.p_vote_matrix.size1
      ∧ s'.p_vote_matrix.size2 = s.p_vote_matrix.size2)
    ∧ (s'.p_repost_matrix.size1 = s.p_repost_matrix.size1
      ∧ s'.p_repost_matrix.size2 = s.p_repost_matrix.size2)
    ∧ s'.p_comment_matrix = s.p_comment_matrix
    ∧ (s'.p_trust_matrix.size1 = s.p_trust_matrix.size1
      ∧ s'.p_trust_matrix.size2 = s.p_trust_matrix.size2) := by
  induction l generalizing s with
  | nil =>
    simp only [update_weight_matrix, Option.some.injEq] at h
    subst h
    exact ⟨rfl, rfl, rfl, rfl, ⟨rfl, rfl⟩, ⟨rfl, rfl⟩, ⟨rfl, rfl⟩, rfl, ⟨rfl, rfl⟩⟩
  | cons t ts ih =>
    simp only [update_weight_matrix] at h
    cases hu : update_relation s t with
    | none => simp [hu] at h
    | some s1 =>
      rw [hu, Option.some_bind] at h
      obtain ⟨a1, a2, a3, a4, ⟨a5, a6⟩, ⟨a7, a8⟩, ⟨a9, a10⟩, a11, ⟨a12, a13⟩⟩ :=
        update_relation_keeps s s1 t hu
      obtain ⟨b1, b2, b3, b4, ⟨b5, b6⟩, ⟨b7, b8⟩, ⟨b9, b10⟩, b11, ⟨b12, b13⟩⟩ := ih s1 h
      exact ⟨b1.trans a1, b2.trans a2, b3.trans a3, b4.trans a4, ⟨b5.trans a5, b6.trans a6⟩,
        ⟨b7.trans a7, b8.trans a8⟩, ⟨b9.trans a9, b10.trans a10⟩, b11.trans a11,
        ⟨b12.trans a12, b13.trans a13⟩⟩

/-- The state that `add_block` returns, from the state `y` after `enter_block`. -/
theorem add_block_some (s s' : social_index_calculator) (l : List relation_t)
    (h : add_block s l = some s') :
    ∃ y, adjust_matrix_sizes (count_block (collect_accounts s (filter_block s l))) = some y
      ∧ update_weight_matrix y (filter_block s l) = some s' := by
  rw [add_block_eq] at h
  unfold enter_block at h
  cases hy : adjust_matrix_sizes (count_block (collect_accounts s (filter_block s l))) with
  | none => simp [hy] at h
  | some y =>
    rw [hy, Option.some_bind] at h
    exact ⟨y, rfl, h⟩

/-- The node counts, the block counters and the decay manager after `add_block`. -/
theorem add_block_counts (s s' : social_index_calculator) (l : List relation_t)
    (h : add_block s l = some s') :
    s'.accounts_count = (collect_accounts s (filter_block s l)).accounts_count
    ∧ s'.contents_count = (collect_accounts s (filter_block s l)).contents_count
    ∧ s'.total_handled_blocks_count = s.total_handled_blocks_count + 1
    ∧ s'.handled_blocks_count = s.handled_blocks_count + 1
    ∧ s'.p_decay_manager = s.p_decay_manager := by
  obtain ⟨y, hy, hu⟩ := add_block_some s s' l h
  obtain ⟨hy', _⟩ := adjust_matrix_sizes_some _ y hy
  obtain ⟨k1, k2, k3, k4, _⟩ := update_weight_matrix_keeps y s' _ hu
  have hdm := update_weight_matrix_decay_manager y s' _ hu
  have hcf : ∀ x : social_index_calculator, ∀ l : List relation_t,
      (collect_accounts x l).total_handled_blocks_count = x.total_handled_blocks_count
      ∧ (collect_accounts x l).handled_blocks_count = x.handled_blocks_count := by
    intro x l
    induction l generalizing x with
    | nil => exact ⟨rfl, rfl⟩
    | cons t ts ih =>
      have hstep : collect_accounts x (t :: ts) = collect_accounts (collect_relation x t) ts :=
        rfl
      rw [hstep]
      obtain ⟨i1, i2⟩ := ih (collect_relation x t)
      have h1 : (collect_relation x t).total_handled_blocks_count
          = x.total_handled_blocks_count
          ∧ (collect_relation x t).handled_blocks_count = x.handled_blocks_count := by
        unfold collect_relation
        cases t.source_type <;> cases t.target_type <;>
          simp only [social_index_calculator.id_map] <;>
          split_ifs <;>
          simp [social_index_calculator.insert_id]
      exact ⟨i1.trans h1.1, i2.trans h1.2⟩
  obtain ⟨c1, c2⟩ := hcf s (filter_block s l)
  obtain ⟨_, _, _, _, _, _, f7, _, _⟩ := collect_accounts_frame s (filter_block s l)
  rw [hy'] at k1 k2 k3 k4 hdm
  refine ⟨k1, k2, ?_, ?_, ?_⟩
  · rw [k3]
    show (collect_accounts s (filter_block s l)).total_handled_blocks_count + 1 = _
    rw [c1]
  · rw [k4]
    show (collect_accounts s (filter_block s l)).handled_blocks_count + 1 = _
    rw [c2]
  · rw [hdm]
    exact f7

theorem matrix_covers_congr (old new new' : matrix_t) (a b : Nat)
    (h1 : new'.size1 = new.size1) (h2 : new'.size2 = new.size2)
    (h : matrix_covers old new a b) : matrix_covers old new' a b := by
  unfold matrix_covers at h ⊢
  rw [h1, h2]
  exact h

/-- The dimensions of the five matrices after `add_block`. -/
theorem add_block_dimensions (s s' : social_index_calculator) (l : List relation_t)
    (hd : positive_dimensions s) (h : add_block s l = some s') :
    matrix_covers s.p_vote_matrix s'.p_vote_matrix s'.contents_count s'.accounts_count
    ∧ matrix_covers s.p_ownership_matrix s'.p_ownership_matrix s'.accounts_count
        s'.contents_count
    ∧ matrix_covers s.p_repost_matrix s'.p_repost_matrix s'.contents_count s'.contents_count
    ∧ matrix_covers s.p_comment_matrix s'.p_comment_matrix s'.contents_count
        s'.contents_count
    ∧ matrix_covers s.p_trust_matrix s'.p_trust_matrix s'.accounts_count s'.accounts_count := by
  obtain ⟨⟨o1, o2⟩, ⟨v1, v2⟩, ⟨r1, r2⟩, ⟨c1, c2⟩, ⟨t1, t2⟩⟩ := hd
  obtain ⟨y, hy, hu⟩ := add_block_some s s' l h
  obtain ⟨_, y1, y2, y3, y4, y5⟩ := adjust_matrix_sizes_some _ y hy
  obtain ⟨ka, kc, _⟩ := add_block_counts s s' l h
  obtain ⟨_, _, _, _, ⟨b5, b6⟩, ⟨b7, b8⟩, ⟨b9, b10⟩, b11, ⟨b12, b13⟩⟩ :=
    update_weight_matrix_keeps y s' _ hu
  obtain ⟨f1, f2, f3, f4, f5, _⟩ := collect_accounts_frame s (filter_block s l)
  have e1 : (count_block (collect_accounts s (filter_block s l))).p_vote_matrix
      = s.p_vote_matrix := f2
  have e2 : (count_block (collect_accounts s (filter_block s l))).p_ownership_matrix
      = s.p_ownership_matrix := f1
  have e3 : (count_block (collect_accounts s (filter_block s l))).p_repost_matrix
      = s.p_repost_matrix := f3
  have e4 : (count_block (collect_accounts s (filter_block s l))).p_comment_matrix
      = s.p_comment_matrix := f4
  have e5 : (count_block (collect_accounts s (filter_block s l))).p_trust_matrix
      = s.p_trust_matrix := f5
  have ea : (count_block (collect_accounts s (filter_block s l))).accounts_count
      = s'.accounts_count := ka.symm
  have ec : (count_block (collect_accounts s (filter_block s l))).contents_count
      = s'.contents_count := kc.symm
  rw [e1, ea, ec] at y1
  rw [e2, ea, ec] at y2
  rw [e3, ec] at y3
  rw [e4, ec] at y4
  rw [e5, ea] at y5
  refine ⟨?_, ?_, ?_, ?_, ?_⟩
  · exact matrix_covers_congr _ _ _ _ _ b7 b8 (adjust_matrix_covers _ _ _ _ v1 v2 y1).1
  · exact matrix_covers_congr _ _ _ _ _ b5 b6 (adjust_matrix_covers _ _ _ _ o1 o2 y2).1
  · exact matrix_covers_congr _ _ _ _ _ b9 b10 (adjust_matrix_covers _ _ _ _ r1 r2 y3).1
  · rw [b11]
    exact (adjust_matrix_covers _ _ _ _ c1 c2 y4).1
  · exact matrix_covers_congr _ _ _ _ _ b12 b13 (adjust_matrix_covers _ _ _ _ t1 t2 y5).1

theorem matrix_covers_pos (old new : matrix_t) (a b : Nat) (h : matrix_covers old new a b)
    (h1 : 0 < old.size1) (h2 : 0 < old.size2) : 0 < new.size1 ∧ 0 < new.size2 :=
  ⟨doubles_to_pos _ _ _ h.1 h1, doubles_to_pos _ _ _ h.2 h2⟩

theorem add_block_positive_dimensions (s s' : social_index_calculator) (l : List relation_t)
    (hd : positive_dimensions s) (h : add_block s l = some s') : positive_dimensions s' := by
  obtain ⟨m1, m2, m3, m4, m5⟩ := add_block_dimensions s s' l hd h
  obtain ⟨⟨o1, o2⟩, ⟨v1, v2⟩, ⟨r1, r2⟩, ⟨c1, c2⟩, ⟨t1, t2⟩⟩ := hd
  exact ⟨matrix_covers_pos _ _ _ _ m2 o1 o2, matrix_covers_pos _ _ _ _ m1 v1 v2,
    matrix_covers_pos _ _ _ _ m3 r1 r2, matrix_covers_pos _ _ _ _ m4 c1 c2,
    matrix_covers_pos _ _ _ _ m5 t1 t2⟩

/-! ## Claims on the block counters and the matrix dimensions -/

/-- C15: after every `add_block` that starts from matrices with positive dimensions, each
dimension of each weight matrix is the old dimension times the smallest power of two that
reaches the current node count of that dimension (contents × accounts for vote, accounts ×
contents for ownership, contents × contents for repost and comment, accounts × accounts for
trust): hence it covers the count, a dimension that was sufficient stays, and the dimensions
are positive again.  With a positive decay period `add_block` returns. -/
theorem add_block_covers (s : social_index_calculator) (R : List relation_t)
    (hd : positive_dimensions s) :
    (∀ s', add_block s R = some s' →
      (matrix_covers s.p_vote_matrix s'.p_vote_matrix s'.contents_count s'.accounts_count
        ∧ matrix_covers s.p_ownership_matrix s'.p_ownership_matrix s'.accounts_count
            s'.contents_count
        ∧ matrix_covers s.p_repost_matrix s'.p_repost_matrix s'.contents_count
            s'.contents_count
        ∧ matrix_covers s.p_comment_matrix s'.p_comment_matrix s'.contents_count
            s'.contents_count
        ∧ matrix_covers s.p_trust_matrix s'.p_trust_matrix s'.accounts_count
            s'.accounts_count)
      ∧ (s'.contents_count ≤ s'.p_vote_matrix.size1
        ∧ s'.accounts_count ≤ s'.p_vote_matrix.size2
        ∧ s'.accounts_count ≤ s'.p_ownership_matrix.size1
        ∧ s'.contents_count ≤ s'.p_ownership_matrix.size2
        ∧ s'.contents_count ≤ s'.p_repost_matrix.size1
        ∧ s'.contents_count ≤ s'.p_repost_matrix.size2
        ∧ s'.contents_count ≤ s'.p_comment_matrix.size1
        ∧ s'.contents_count ≤ s'.p_comment_matrix.size2
        ∧ s'.accounts_count ≤ s'.p_trust_matrix.size1
        ∧ s'.accounts_count ≤ s'.p_trust_matrix.size2)
      ∧ ((s'.contents_count ≤ s.p_vote_matrix.size1 →
            s'.p_vote_matrix.size1 = s.p_vote_matrix.size1)
        ∧ (s'.accounts_count ≤ s.p_vote_matrix.size2 →
            s'.p_vote_matrix.size2 = s.p_vote_matrix.size2)
        ∧ (s'.accounts_count ≤ s.p_ownership_matrix.size1 →
            s'.p_ownership_matrix.size1 = s.p_ownership_matrix.size1)
        ∧ (s'.contents_count ≤ s.p_ownership_matrix.size2 →
            s'.p_ownership_matrix.size2 = s.p_ownership_matrix.size2)
        ∧ (s'.contents_count ≤ s.p_repost_matrix.size1 →
            s'.p_repost_matrix.size1 = s.p_repost_matrix.size1)
        ∧ (s'.contents_count ≤ s.p_repost_matrix.size2 →
            s'.p_repost_matrix.size2 = s.p_repost_matrix.size2)
        ∧ (s'.contents_count ≤ s.p_comment_matrix.size1 →
            s'.p_comment_matrix.size1 = s.p_comment_matrix.size1)
        ∧ (s'.contents_count ≤ s.p_comment_matrix.size2 →
            s'.p_comment_matrix.size2 = s.p_comment_matrix.size2)
        ∧ (s'.accounts_count ≤ s.p_trust_matrix.size1 →
            s'.p_trust_matrix.size1 = s.p_trust_matrix.size1)
        ∧ (s'.accounts_count ≤ s.p_trust_matrix.size2 →
            s'.p_trust_matrix.size2 = s.p_trust_matrix.size2))
      ∧ positive_dimensions s')
    ∧ (0 < s.p_decay_manager.decay_period → ∃ s', add_block s R = some s') := by
  refine ⟨fun s' h => ?_, fun hp => add_block_returns s R hp hd⟩
  have hm := add_block_dimensions s s' R hd h
  obtain ⟨⟨v1, v2⟩, ⟨o1, o2⟩, ⟨r1, r2⟩, ⟨c1, c2⟩, ⟨t1, t2⟩⟩ := hm
  refine ⟨⟨⟨v1, v2⟩, ⟨o1, o2⟩, ⟨r1, r2⟩, ⟨c1, c2⟩, ⟨t1, t2⟩⟩, ?_, ?_,
    add_block_positive_dimensions s s' R hd h⟩
  · have hle : ∀ old new count, doubles_to old new count → count ≤ new :=
      fun _ _ _ hdt => hdt.choose_spec.2.1
    exact ⟨hle _ _ _ v1, hle _ _ _ v2, hle _ _ _ o1, hle _ _ _ o2, hle _ _ _ r1,
      hle _ _ _ r2, hle _ _ _ c1, hle _ _ _ c2, hle _ _ _ t1, hle _ _ _ t2⟩
  · exact ⟨doubles_to_keeps _ _ _ v1, doubles_to_keeps _ _ _ v2, doubles_to_keeps _ _ _ o1,
      doubles_to_keeps _ _ _ o2, doubles_to_keeps _ _ _ r1, doubles_to_keeps _ _ _ r2,
      doubles_to_keeps _ _ _ c1, doubles_to_keeps _ _ _ c2, doubles_to_keeps _ _ _ t1,
      doubles_to_keeps _ _ _ t2⟩

/-- Witness of C15: a block with an ownership and an upvote on `sample_calculator`. -/
theorem add_block_covers_witness :
    positive_dimensions sample_calculator
    ∧ 0 < sample_calculator.p_decay_manager.decay_period
    ∧ ((∀ s', add_block sample_calculator [sample_ownership, sample_upvote] = some s' →
      (matrix_covers sample_calculator.p_vote_matrix s'.p_vote_matrix s'.contents_count
          s'.accounts_count
        ∧ matrix_covers sample_calculator.p_ownership_matrix s'.p_ownership_matrix s'.accounts_count
            s'.contents_count
        ∧ matrix_covers sample_calculator.p_repost_matrix s'.p_repost_matrix s'.contents_count
            s'.contents_count
        ∧ matrix_covers sample_calculator.p_comment_matrix s'.p_comment_matrix s'.contents_count
            s'.contents_count
        ∧ matrix_covers sample_calculator.p_trust_matrix s'.p_trust_matrix s'.accounts_count
            s'.accounts_count)
      ∧ (s'.contents_count ≤ s'.p_vote_matrix.size1
        ∧ s'.accounts_count ≤ s'.p_vote_matrix.size2
        ∧ s'.accounts_count ≤ s'.p_ownership_matrix.size1
        ∧ s'.contents_count ≤ s'.p_ownership_matrix.size2
        ∧ s'.contents_count ≤ s'.p_repost_matrix.size1
        ∧ s'.contents_count ≤ s'.p_repost_matrix.size2
        ∧ s'.contents_count ≤ s'.p_comment_matrix.size1
        ∧ s'.contents_count ≤ s'.p_comment_matrix.size2
        ∧ s'.accounts_count ≤ s'.p_trust_matrix.size1
        ∧ s'.accounts_count ≤ s'.p_trust_matrix.size2)
      ∧ ((s'.contents_count ≤ sample_calculator.p_vote_matrix.size1 →
            s'.p_vote_matrix.size1 = sample_calculator.p_vote_matrix.size1)
        ∧ (s'.accounts_count ≤ sample_calculator.p_vote_matrix.size2 →
            s'.p_vote_matrix.size2 = sample_calculator.p_vote_matrix.size2)
        ∧ (s'.accounts_count ≤ sample_calculator.p_ownership_matrix.size1 →
            s'.p_ownership_matrix.size1 = sample_calculator.p_ownership_matrix.size1)
        ∧ (s'.contents_count ≤ sample_calculator.p_ownership_matrix.size2 →
            s'.p_ownership_matrix.size2 = sample_calculator.p_ownership_matrix.size2)
        ∧ (s'.contents_count ≤ sample_calculator.p_repost_matrix.size1 →
            s'.p_repost_matrix.size1 = sample_calculator.p_repost_matrix.size1)
        ∧ (s'.contents_count ≤ sample_calculator.p_repost_matrix.size2 →
            s'.p_repost_matrix.size2 = sample_calculator.p_repost_matrix.size2)
        ∧ (s'.contents_count ≤ sample_calculator.p_comment_matrix.size1 →
            s'.p_comment_matrix.size1 = sample_calculator.p_comment_matrix.size1)
        ∧ (s'.contents_count ≤ sample_calculator.p_comment_matrix.size2 →
            s'.p_comment_matrix.size2 = sample_calculator.p_comment_matrix.size2)
        ∧ (s'.accounts_count ≤ sample_calculator.p_trust_matrix.size1 →
            s'.p_trust_matrix.size1 = sample_calculator.p_trust_matrix.size1)
        ∧ (s'.accounts_count ≤ sample_calculator.p_trust_matrix.size2 →
            s'.p_trust_matrix.size2 = sample_calculator.p_trust_matrix.size2))
      ∧ positive_dimensions s')
    ∧ (0 < sample_calculator.p_decay_manager.decay_period
        → ∃ s', add_block sample_calculator [sample_ownership, sample_upvote] = some s')) :=
  ⟨sample_calculator_positive_dimensions, by decide,
    add_block_covers sample_calculator [sample_ownership, sample_upvote]
      sample_calculator_positive_dimensions⟩

/-! ## `get_account_id`, `get_content_id` -/

theorem assign_of_not_found (m : account_id_map_t) (name : String) (id : Nat)
    (h : m.find name = none) : m.assign name id = m ++ [(name, id % 4294967296)] := by
  simp [account_id_map_t.assign, h]

/-- The three cases of `get_account_id`. -/
theorem get_account_id_spec (s : social_index_calculator) (name : String) :
    (∀ id, s.account_map.find name = some id →
      ∀ allow_create, get_account_id s name allow_create = (some id, s))
    ∧ (s.account_map.find name = none →
        (get_account_id s name true).1 = some (s.accounts_count % 4294967296)
        ∧ (s.accounts_count < 4294967296 →
            (get_account_id s name true).1 = some s.accounts_count)
        ∧ (get_account_id s name true).2.account_map.find name
            = (get_account_id s name true).1
        ∧ (∀ other, other ≠ name →
            (get_account_id s name true).2.account_map.find other
              = s.account_map.find other)
        ∧ (get_account_id s name true).2.accounts_count = s.accounts_count + 1
        ∧ (get_account_id s name true).2.content_map = s.content_map
        ∧ (get_account_id s name true).2.contents_count = s.contents_count
        ∧ (∀ allow_create, get_account_id (get_account_id s name true).2 name allow_create
            = ((get_account_id s name true).1, (get_account_id s name true).2)))
    ∧ (s.account_map.find name = none → get_account_id s name false = (none, s)) := by
  refine ⟨fun id h allow_create => ?_, fun h => ?_, fun h => ?_⟩
  · simp [get_account_id, h]
  · have hfind : account_id_map_t.find (s.account_map.assign name s.accounts_count) name
        = some (s.accounts_count % 4294967296) := by
      rw [assign_of_not_found _ _ _ h]
      exact find_append_self _ _ _ h
    have e : get_account_id s name true
        = (some (s.accounts_count % 4294967296),
            { s with accounts_count := s.accounts_count + 1,
                     account_map := s.account_map.assign name s.accounts_count }) := by
      simp [get_account_id, h]
    rw [e]
    refine ⟨rfl, fun hlt => ?_, hfind, fun other ho => ?_, rfl, rfl, rfl, fun a => ?_⟩
    · simp only [Nat.mod_eq_of_lt hlt]
    · show account_id_map_t.find (s.account_map.assign name s.accounts_count) other = _
      rw [assign_of_not_found _ _ _ h]
      exact find_append_other _ _ _ _ ho
    · simp only [get_account_id, hfind]
  · simp [get_account_id, h]

/-- The three cases of `get_content_id`. -/
theorem get_content_id_spec (s : social_index_calculator) (name : String) :
    (∀ id, s.content_map.find name = some id →
      ∀ allow_create, get_content_id s name allow_create = (some id, s))
    ∧ (s.content_map.find name = none →
        (get_content_id s name true).1 = some (s.contents_count % 4294967296)
        ∧ (s.contents_count < 4294967296 →
            (get_content_id s name true).1 = some s.contents_count)
        ∧ (get_content_id s name true).2.content_map.find name
            = (get_content_id s name true).1
        ∧ (∀ other, other ≠ name →
            (get_content_id s name true).2.content_map.find other
              = s.content_map.find other)
        ∧ (get_content_id s name true).2.contents_count = s.contents_count + 1
        ∧ (get_content_id s name true).2.account_map = s.account_map
        ∧ (get_content_id s name true).2.accounts_count = s.accounts_count
        ∧ (∀ allow_create, get_content_id (get_content_id s name true).2 name allow_create
            = ((get_content_id s name true).1, (get_content_id s name true).2)))
    ∧ (s.content_map.find name = none → get_content_id s name false = (none, s)) := by
  refine ⟨fun id h allow_create => ?_, fun h => ?_, fun h => ?_⟩
  · simp [get_content_id, h]
  · have hfind : account_id_map_t.find (s.content_map.assign name s.contents_count) name
        = some (s.contents_count % 4294967296) := by
      rw [assign_of_not_found _ _ _ h]
      exact find_append_self _ _ _ h
    have e : get_content_id s name true
        = (some (s.contents_count % 4294967296),
            { s with contents_count := s.contents_count + 1,
                     content_map := s.content_map.assign name s.contents_count }) := by
      simp [get_content_id, h]
    rw [e]
    refine ⟨rfl, fun hlt => ?_, hfind, fun other ho => ?_, rfl, rfl, rfl, fun a => ?_⟩
    · simp only [Nat.mod_eq_of_lt hlt]
    · show account_id_map_t.find (s.content_map.assign name s.contents_count) other = _
      rw [assign_of_not_found _ _ _ h]
      exact find_append_other _ _ _ _ ho
    · simp only [get_content_id, hfind]
  · simp [get_content_id, h]

/-! ## Claims on the id registries -/

/-- C12: `get_account_id` and `get_content_id`.  A registered name gets its id back and the state
is unchanged.  For a name that is not registered, with `allow_create` the call returns the current
node count (reduced to the 32 bits of an id, hence the count itself while it is below `2^32`),
registers the name with the returned id, leaves the other names, the other registry and its count
alone, increases the count by exactly 1, and a second call with the same name returns the same id
and changes nothing; without `allow_create` it returns absent and changes nothing. -/
theorem get_id_cases (s : social_index_calculator) (name : String) :
    ((∀ id, s.account_map.find name = some id →
      ∀ allow_create, get_account_id s name allow_create = (some id, s))
    ∧ (s.account_map.find name = none →
        (get_account_id s name true).1 = some (s.accounts_count % 4294967296)
        ∧ (s.accounts_count < 4294967296 →
            (get_account_id s name true).1 = some s.accounts_count)
        ∧ (get_account_id s name true).2.account_map.find name
            = (get_account_id s name true).1
        ∧ (∀ other, other ≠ name →
            (get_account_id s name true).2.account_map.find other
              = s.account_map.find other)
        ∧ (get_account_id s name true).2.accounts_count = s.accounts_count + 1
        ∧ (get_account_id s name true).2.content_map = s.content_map
        ∧ (get_account_id s name true).2.contents_count = s.contents_count
        ∧ (∀ allow_create, get_account_id (get_account_id s name true).2 name allow_create
            = ((get_account_id s name true).1, (get_account_id s name true).2)))
    ∧ (s.account_map.find name = none → get_account_id s name false = (none, s)))
    ∧ ((∀ id, s.content_map.find name = some id →
      ∀ allow_create, get_content_id s name allow_create = (some id, s))
    ∧ (s.content_map.find name = none →
        (get_content_id s name true).1 = some (s.contents_count % 4294967296)
        ∧ (s.contents_count < 4294967296 →
            (get_content_id s name true).1 = some s.contents_count)
        ∧ (get_content_id s name true).2.content_map.find name
            = (get_content_id s name true).1
        ∧ (∀ other, other ≠ name →
            (get_content_id s name true).2.content_map.find other
              = s.content_map.find other)
        ∧ (get_content_id s name true).2.contents_count = s.contents_count + 1
        ∧ (get_content_id s name true).2.account_map = s.account_map
        ∧ (get_content_id s name true).2.accounts_count = s.accounts_count
        ∧ (∀ allow_create, get_content_id (get_content_id s name true).2 name allow_create
            = ((get_content_id s name true).1, (get_content_id s name true).2)))
    ∧ (s.content_map.find name = none → get_content_id s name false = (none, s))) :=
  ⟨get_account_id_spec s name, get_content_id_spec s name⟩

/-- Witness of C12: `carol` and `poem` are not registered in `sample_calculator`, `bob` is. -/
theorem get_id_cases_witness :
    sample_calculator.account_map.find "carol" = none
    ∧ sample_calculator.content_map.find "poem" = none
    ∧ sample_calculator.account_map.find "bob" = some 1
    ∧ sample_calculator.accounts_count < 4294967296
    ∧ (get_account_id sample_calculator "carol" true).1 = some 2
    ∧ (get_account_id sample_calculator "carol" true).2.accounts_count = 3
    ∧ (∀ allow_create, get_account_id (get_account_id sample_calculator "carol" true).2 "carol"
          allow_create = (some 2, (get_account_id sample_calculator "carol" true).2))
    ∧ get_account_id sample_calculator "carol" false = (none, sample_calculator)
    ∧ (∀ allow_create, get_account_id sample_calculator "bob" allow_create
          = (some 1, sample_calculator))
    ∧ (get_content_id sample_calculator "poem" true).1 = some 2 :=
  ⟨rfl, rfl, rfl, by decide,
    ((get_id_cases sample_calculator "carol").1.2.1 rfl).2.1 (by decide),
    ((get_id_cases sample_calculator "carol").1.2.1 rfl).2.2.2.2.1,
    ((get_id_cases sample_calculator "carol").1.2.1 rfl).2.2.2.2.2.2.2,
    (get_id_cases sample_calculator "carol").1.2.2 rfl,
    (get_id_cases sample_calculator "bob").1.1 1 rfl,
    ((get_id_cases sample_calculator "poem").2.2.1 rfl).2.1 (by decide)⟩

/-! ## Invariants of the id registries -/

theorem find_append_cases (m : account_id_map_t) (k k' : String) (v id : Nat)
    (hk : m.find k = none) (h : account_id_map_t.find (m ++ [(k, v)]) k' = some id) :
    (k' = k ∧ id = v) ∨ (k' ≠ k ∧ m.find k' = some id) := by
  by_cases e : k' = k
  · subst e
    rw [find_append_self m k' v hk] at h
    exact Or.inl ⟨rfl, (Option.some.inj h).symm⟩
  · rw [find_append_other m k k' v e] at h
    exact Or.inr ⟨e, h⟩

theorem assign_eq_insert (m : account_id_map_t) (name : String) (id : Nat)
    (h : m.find name = none) : m.assign name id = m.insert name id := by
  simp [account_id_map_t.assign, account_id_map_t.insert, h]

theorem registry_ok_nil : registry_ok [] 0 :=
  fun _ => ⟨fun _ _ h => by simp [account_id_map_t.find] at h,
    fun _ _ _ h => by simp [account_id_map_t.find] at h⟩

theorem registry_ok_insert (m : account_id_map_t) (count : Nat) (name : String)
    (h : registry_ok m count) : registry_ok (m.insert name count) (count + 1) := by
  intro hc
  obtain ⟨hlt, hinj⟩ := h (by omega)
  unfold account_id_map_t.insert
  cases hk : m.find name with
  | some _ => exact ⟨fun k id hf => Nat.lt_succ_of_lt (hlt k id hf), hinj⟩
  | none =>
    have hmod : count % 4294967296 = count := Nat.mod_eq_of_lt (by omega)
    show (∀ k id, account_id_map_t.find (m ++ [(name, count % 4294967296)]) k = some id
        → id < count + 1)
      ∧ injective_ids (m ++ [(name, count % 4294967296)])
    rw [hmod]
    refine ⟨fun k id hf => ?_, fun k1 k2 id h1 h2 => ?_⟩
    · rcases find_append_cases m name k count id hk hf with ⟨_, e⟩ | ⟨_, e⟩
      · omega
      · exact Nat.lt_succ_of_lt (hlt k id e)
    · rcases find_append_cases m name k1 count id hk h1 with ⟨e1, i1⟩ | ⟨_, f1⟩
      · rcases find_append_cases m name k2 count id hk h2 with ⟨e2, _⟩ | ⟨_, f2⟩
        · rw [e1, e2]
        · have := hlt k2 id f2
          omega
      · rcases find_append_cases m name k2 count id hk h2 with ⟨_, i2⟩ | ⟨_, f2⟩
        · have := hlt k1 id f1
          omega
        · exact hinj k1 k2 id f1 f2

theorem insert_id_registries_ok (s : social_index_calculator) (kind : node_type)
    (name : String) (h : registries_ok s) : registries_ok (s.insert_id kind name) := by
  cases kind
  · exact ⟨registry_ok_insert _ _ _ h.1, h.2⟩
  · exact ⟨h.1, registry_ok_insert _ _ _ h.2⟩

theorem collect_relation_registries_ok (s : social_index_calculator) (t : relation_t)
    (h : registries_ok s) : registries_ok (collect_relation s t) := by
  unfold collect_relation
  simp only []
  split_ifs
  · exact insert_id_registries_ok _ _ _ (insert_id_registries_ok _ _ _ h)
  · exact insert_id_registries_ok _ _ _ h
  · exact insert_id_registries_ok _ _ _ h
  · exact h

theorem collect_accounts_registries_ok (s : social_index_calculator) (l : List relation_t)
    (h : registries_ok s) : registries_ok (collect_accounts s l) := by
  unfold collect_accounts
  induction l generalizing s with
  | nil => exact h
  | cons t ts ih =>
    rw [List.foldl_cons]
    exact ih _ (collect_relation_registries_ok s t h)

theorem get_account_id_state (s : social_index_calculator) (name : String)
    (allow_create : Bool) :
    (get_account_id s name allow_create).2 = s
    ∨ (s.account_map.find name = none
        ∧ (get_account_id s name allow_create).2
          = s.insert_id node_type.ACCOUNT name) := by
  unfold get_account_id
  cases h : s.account_map.find name with
  | some id => exact Or.inl rfl
  | none =>
    cases allow_create
    · exact Or.inl rfl
    · refine Or.inr ⟨rfl, ?_⟩
      simp only [if_true, social_index_calculator.insert_id, assign_eq_insert _ _ _ h]

theorem get_content_id_state (s : social_index_calculator) (name : String)
    (allow_create : Bool) :
    (get_content_id s name allow_create).2 = s
    ∨ (s.content_map.find name = none
        ∧ (get_content_id s name allow_create).2
          = s.insert_id node_type.CONTENT name) := by
  unfold get_content_id
  cases h : s.content_map.find name with
  | some id => exact Or.inl rfl
  | none =>
    cases allow_create
    · exact Or.inl rfl
    · refine Or.inr ⟨rfl, ?_⟩
      simp only [if_true, social_index_calculator.insert_id, assign_eq_insert _ _ _ h]

theorem registry_call_registries_ok (s : social_index_calculator) (c : registry_call)
    (h : registries_ok s) : registries_ok (c.run s) := by
  cases c with
  | collect l => exact collect_accounts_registries_ok s l h
  | account_id name a =>
    rcases get_account_id_state s name a with e | ⟨_, e⟩
    · exact (congrArg registries_ok e).mpr h
    · exact (congrArg registries_ok e).mpr (insert_id_registries_ok _ _ _ h)
  | content_id name a =>
    rcases get_content_id_state s name a with e | ⟨_, e⟩
    · exact (congrArg registries_ok e).mpr h
    · exact (congrArg registries_ok e).mpr (insert_id_registries_ok _ _ _ h)

theorem run_registry_calls_registries_ok (s : social_index_calculator)
    (calls : List registry_call) (h : registries_ok s) :
    registries_ok (run_registry_calls s calls) := by
  unfold run_registry_calls
  induction calls generalizing s with
  | nil => exact h
  | cons c cs ih =>
    rw [List.foldl_cons]
    exact ih _ (registry_call_registries_ok s c h)

theorem registry_grows_refl (s : social_index_calculator) : registry_grows s s :=
  ⟨map_extends_refl _, map_extends_refl _, le_refl _, le_refl _⟩

theorem registry_grows_trans (s1 s2 s3 : social_index_calculator) (h12 : registry_grows s1 s2)
    (h23 : registry_grows s2 s3) : registry_grows s1 s3 :=
  ⟨map_extends_trans _ _ _ h12.1 h23.1, map_extends_trans _ _ _ h12.2.1 h23.2.1,
    le_trans h12.2.2.1 h23.2.2.1, le_trans h12.2.2.2 h23.2.2.2⟩

theorem insert_id_grows (s : social_index_calculator) (kind : node_type) (name : String) :
    registry_grows s (s.insert_id kind name) := by
  refine ⟨insert_id_extends s kind node_type.ACCOUNT name,
    insert_id_extends s kind node_type.CONTENT name, ?_, ?_⟩ <;>
  cases kind <;> simp [social_index_calculator.insert_id]

theorem collect_accounts_grows (s : social_index_calculator) (l : List relation_t) :
    registry_grows s (collect_accounts s l) :=
  ⟨collect_accounts_extends s l node_type.ACCOUNT, collect_accounts_extends s l node_type.CONTENT,
    (collect_accounts_frame s l).2.2.2.2.2.2.2.1, (collect_accounts_frame s l).2.2.2.2.2.2.2.2⟩

theorem registry_call_grows (s : social_index_calculator) (c : registry_call) :
    registry_grows s (c.run s) := by
  cases c with
  | collect l => exact collect_accounts_grows s l
  | account_id name a =>
    rcases get_account_id_state s name a with e | ⟨_, e⟩
    · exact (congrArg (registry_grows s) e).mpr (registry_grows_refl s)
    · exact (congrArg (registry_grows s) e).mpr (insert_id_grows _ _ _)
  | content_id name a =>
    rcases get_content_id_state s name a with e | ⟨_, e⟩
    · exact (congrArg (registry_grows s) e).mpr (registry_grows_refl s)
    · exact (congrArg (registry_grows s) e).mpr (insert_id_grows _ _ _)

theorem run_registry_calls_grows (s : social_index_calculator) (calls : List registry_call) :
    registry_grows s (run_registry_calls s calls) := by
  unfold run_registry_calls
  induction calls generalizing s with
  | nil => exact registry_grows_refl s
  | cons c cs ih =>
    rw [List.foldl_cons]
    exact registry_grows_trans _ _ _ (registry_call_grows s c) (ih _)

theorem run_registry_calls_append (s : social_index_calculator)
    (calls later : List registry_call) :
    run_registry_calls s (calls ++ later)
      = run_registry_calls (run_registry_calls s calls) later :=
  List.foldl_append _ _ _ _

theorem insert_id_account_registry (s1 s2 : social_index_calculator) (kind : node_type)
    (name : String) (h : account_registry s1 = account_registry s2) :
    account_registry (s1.insert_id kind name) = account_registry (s2.insert_id kind name) := by
  simp only [account_registry, Prod.mk.injEq] at h
  cases kind <;> simp [social_index_calculator.insert_id, account_registry, h.1, h.2]

theorem insert_id_content_registry (s1 s2 : social_index_calculator) (kind : node_type)
    (name : String) (h : content_registry s1 = content_registry s2) :
    content_registry (s1.insert_id kind name) = content_registry (s2.insert_id kind name) := by
  simp only [content_registry, Prod.mk.injEq] at h
  cases kind <;> simp [social_index_calculator.insert_id, content_registry, h.1, h.2]

theorem insert_id_content_keeps_account (s : social_index_calculator) (name : String) :
    account_registry (s.insert_id node_type.CONTENT name) = account_registry s := rfl

theorem insert_id_account_keeps_content (s : social_index_calculator) (name : String) :
    content_registry (s.insert_id node_type.ACCOUNT name) = content_registry s := rfl

theorem collect_relation_account_registry (s1 s2 : social_index_calculator) (t : relation_t)
    (h : account_registry s1 = account_registry s2) :
    account_registry (collect_relation s1 t) = account_registry (collect_relation s2 t) := by
  have hm : s1.account_map = s2.account_map := congrArg Prod.fst h
  unfold collect_relation
  cases hs : t.source_type <;> cases ht : t.target_type <;>
    simp only [social_index_calculator.id_map, hm] <;>
    split_ifs <;>
    (try simp only [insert_id_content_keeps_account]) <;>
    first
      | exact h
      | exact insert_id_account_registry _ _ _ _ h
      | exact insert_id_account_registry _ _ _ _ (insert_id_account_registry _ _ _ _ h)

theorem collect_relation_content_registry (s1 s2 : social_index_calculator) (t : relation_t)
    (h : content_registry s1 = content_registry s2) :
    content_registry (collect_relation s1 t) = content_registry (collect_relation s2 t) := by
  have hm : s1.content_map = s2.content_map := congrArg Prod.fst h
  unfold collect_relation
  cases hs : t.source_type <;> cases ht : t.target_type <;>
    simp only [social_index_calculator.id_map, hm] <;>
    split_ifs <;>
    (try simp only [insert_id_account_keeps_content]) <;>
    first
      | exact h
      | exact insert_id_content_registry _ _ _ _ h
      | exact insert_id_content_registry _ _ _ _ (insert_id_content_registry _ _ _ _ h)

theorem collect_accounts_account_registry (s1 s2 : social_index_calculator)
    (l : List relation_t) (h : account_registry s1 = account_registry s2) :
    account_registry (collect_accounts s1 l) = account_registry (collect_accounts s2 l) := by
  unfold collect_accounts
  induction l generalizing s1 s2 with
  | nil => exact h
  | cons t ts ih =>
    rw [List.foldl_cons, List.foldl_cons]
    exact ih _ _ (collect_relation_account_registry s1 s2 t h)

theorem collect_accounts_content_registry (s1 s2 : social_index_calculator)
    (l : List relation_t) (h : content_registry s1 = content_registry s2) :
    content_registry (collect_accounts s1 l) = content_registry (collect_accounts s2 l) := by
  unfold collect_accounts
  induction l generalizing s1 s2 with
  | nil => exact h
  | cons t ts ih =>
    rw [List.foldl_cons, List.foldl_cons]
    exact ih _ _ (collect_relation_content_registry s1 s2 t h)

theorem get_account_id_account_registry (s1 s2 : social_index_calculator) (name : String)
    (a : Bool) (h : account_registry s1 = account_registry s2) :
    (get_account_id s1 name a).1 = (get_account_id s2 name a).1
    ∧ account_registry (get_account_id s1 name a).2
        = account_registry (get_account_id s2 name a).2 := by
  simp only [account_registry, Prod.mk.injEq] at h
  unfold get_account_id
  rw [h.1, h.2]
  cases s2.account_map.find name with
  | some id => exact ⟨rfl, Prod.ext h.1 h.2⟩
  | none =>
    cases a
    · exact ⟨rfl, Prod.ext h.1 h.2⟩
    · exact ⟨rfl, rfl⟩

theorem get_content_id_content_registry (s1 s2 : social_index_calculator) (name : String)
    (a : Bool) (h : content_registry s1 = content_registry s2) :
    (get_content_id s1 name a).1 = (get_content_id s2 name a).1
    ∧ content_registry (get_content_id s1 name a).2
        = content_registry (get_content_id s2 name a).2 := by
  simp only [content_registry, Prod.mk.injEq] at h
  unfold get_content_id
  rw [h.1, h.2]
  cases s2.content_map.find name with
  | some id => exact ⟨rfl, Prod.ext h.1 h.2⟩
  | none =>
    cases a
    · exact ⟨rfl, Prod.ext h.1 h.2⟩
    · exact ⟨rfl, rfl⟩

theorem get_content_id_keeps_account (s : social_index_calculator) (name : String) (a : Bool) :
    account_registry (get_content_id s name a).2 = account_registry s := by
  unfold get_content_id
  cases s.content_map.find name with
  | some id => rfl
  | none => cases a <;> rfl

theorem get_account_id_keeps_content (s : social_index_calculator) (name : String) (a : Bool) :
    content_registry (get_account_id s name a).2 = content_registry s := by
  unfold get_account_id
  cases s.account_map.find name with
  | some id => rfl
  | none => cases a <;> rfl

theorem registry_call_account_registry (s1 s2 : social_index_calculator) (c : registry_call)
    (h : account_registry s1 = account_registry s2) :
    account_registry (c.run s1) = account_registry (c.run s2) := by
  cases c with
  | collect l => exact collect_accounts_account_registry s1 s2 l h
  | account_id name a => exact (get_account_id_account_registry s1 s2 name a h).2
  | content_id name a =>
    exact (get_content_id_keeps_account s1 name a).trans
      (h.trans (get_content_id_keeps_account s2 name a).symm)

theorem registry_call_content_registry (s1 s2 : social_index_calculator) (c : registry_call)
    (h : content_registry s1 = content_registry s2) :
    content_registry (c.run s1) = content_registry (c.run s2) := by
  cases c with
  | collect l => exact collect_accounts_content_registry s1 s2 l h
  | content_id name a => exact (get_content_id_content_registry s1 s2 name a h).2
  | account_id name a =>
    exact (get_account_id_keeps_content s1 name a).trans
      (h.trans (get_account_id_keeps_content s2 name a).symm)

theorem run_registry_calls_account_registry (s1 s2 : social_index_calculator)
    (calls : List registry_call) (h : account_registry s1 = account_registry s2) :
    account_registry (run_registry_calls s1 calls)
      = account_registry (run_registry_calls s2 calls) := by
  unfold run_registry_calls
  induction calls generalizing s1 s2 with
  | nil => exact h
  | cons c cs ih =>
    rw [List.foldl_cons, List.foldl_cons]
    exact ih _ _ (registry_call_account_registry s1 s2 c h)

theorem run_registry_calls_content_registry (s1 s2 : social_index_calculator)
    (calls : List registry_call) (h : content_registry s1 = content_registry s2) :
    content_registry (run_registry_calls s1 calls)
      = content_registry (run_registry_calls s2 calls) := by
  unfold run_registry_calls
  induction calls generalizing s1 s2 with
  | nil => exact h
  | cons c cs ih =>
    rw [List.foldl_cons, List.foldl_cons]
    exact ih _ _ (registry_call_content_registry s1 s2 c h)

/-- C13: starting from empty registries, after every sequence of `collect_accounts`,
`get_account_id` and `get_content_id` calls: while a node count fits the 32 bits of an id, two
names of that kind with the same id are the same name; whatever calls follow, every registered
name keeps its id and no count decreases; and the account registry after the calls is the same
from every start state with the same account registry, whatever its content registry is, and
likewise for the content registry (the two kinds are numbered independently). -/
theorem id_assignment (s0 : social_index_calculator)
    (hempty : s0.account_map = [] ∧ s0.accounts_count = 0
      ∧ s0.content_map = [] ∧ s0.contents_count = 0)
    (calls later : List registry_call) :
    ((run_registry_calls s0 calls).accounts_count ≤ 4294967296 →
      ∀ name1 name2 id, (run_registry_calls s0 calls).account_map.find name1 = some id →
        (run_registry_calls s0 calls).account_map.find name2 = some id → name1 = name2)
    ∧ ((run_registry_calls s0 calls).contents_count ≤ 4294967296 →
      ∀ name1 name2 id, (run_registry_calls s0 calls).content_map.find name1 = some id →
        (run_registry_calls s0 calls).content_map.find name2 = some id → name1 = name2)
    ∧ (∀ name id, (run_registry_calls s0 calls).account_map.find name = some id →
        (run_registry_calls s0 (calls ++ later)).account_map.find name = some id)
    ∧ (∀ name id, (run_registry_calls s0 calls).content_map.find name = some id →
        (run_registry_calls s0 (calls ++ later)).content_map.find name = some id)
    ∧ (run_registry_calls s0 calls).accounts_count
        ≤ (run_registry_calls s0 (calls ++ later)).accounts_count
    ∧ (run_registry_calls s0 calls).contents_count
        ≤ (run_registry_calls s0 (calls ++ later)).contents_count
    ∧ (∀ x : social_index_calculator,
        x.account_map = s0.account_map → x.accounts_count = s0.accounts_count →
        (run_registry_calls x calls).account_map = (run_registry_calls s0 calls).account_map
        ∧ (run_registry_calls x calls).accounts_count
            = (run_registry_calls s0 calls).accounts_count)
    ∧ (∀ x : social_index_calculator,
        x.content_map = s0.content_map → x.contents_count = s0.contents_count →
        (run_registry_calls x calls).content_map = (run_registry_calls s0 calls).content_map
        ∧ (run_registry_calls x calls).contents_count
            = (run_registry_calls s0 calls).contents_count) := by
  obtain ⟨ha, hac, hc, hcc⟩ := hempty
  have hok : registries_ok (run_registry_calls s0 calls) := by
    refine run_registry_calls_registries_ok s0 calls ⟨?_, ?_⟩
    · rw [ha, hac]
      exact registry_ok_nil
    · rw [hc, hcc]
      exact registry_ok_nil
  have hgrow := run_registry_calls_grows (run_registry_calls s0 calls) later
  rw [← run_registry_calls_append] at hgrow
  refine ⟨fun hb => (hok.1 hb).2, fun hb => (hok.2 hb).2, hgrow.1, hgrow.2.1, hgrow.2.2.1,
    hgrow.2.2.2, fun x hm hn => ?_, fun x hm hn => ?_⟩
  · have := run_registry_calls_account_registry x s0 calls (Prod.ext hm hn)
    exact ⟨congrArg Prod.fst this, congrArg Prod.snd this⟩
  · have := run_registry_calls_content_registry x s0 calls (Prod.ext hm hn)
    exact ⟨congrArg Prod.fst this, congrArg Prod.snd this⟩

/-- Witness of C13: a block, an account and a content asked for by name, then later calls, from
empty registries; the name `post` gets the id `2` as an account and the id `0` as a content. -/
theorem id_assignment_witness :
    (fresh_calculator.account_map = [] ∧ fresh_calculator.accounts_count = 0
      ∧ fresh_calculator.content_map = [] ∧ fresh_calculator.contents_count = 0)
    ∧ (run_registry_calls fresh_calculator sample_calls).accounts_count ≤ 4294967296
    ∧ (run_registry_calls fresh_calculator sample_calls).contents_count ≤ 4294967296
    ∧ (run_registry_calls fresh_calculator sample_calls).account_map
        = [("alice", 0), ("bob", 1), ("post", 2)]
    ∧ (run_registry_calls fresh_calculator sample_calls).content_map
        = [("post", 0), ("verse", 1)]
    ∧ (run_registry_calls fresh_calculator (sample_calls ++ later_calls)).account_map
        = [("alice", 0), ("bob", 1), ("post", 2), ("carol", 3)]
    ∧ (
((run_registry_calls fresh_calculator sample_calls).accounts_count ≤ 4294967296 →
      ∀ name1 name2 id, (run_registry_calls fresh_calculator sample_calls).account_map.find name1 = some id →
        (run_registry_calls fresh_calculator sample_calls).account_map.find name2 = some id → name1 = name2)
    ∧ ((run_registry_calls fresh_calculator sample_calls).contents_count ≤ 4294967296 →
      ∀ name1 name2 id, (run_registry_calls fresh_calculator sample_calls).content_map.find name1 = some id →
        (run_registry_calls fresh_calculator sample_calls).content_map.find name2 = some id → name1 = name2)
    ∧ (∀ name id, (run_registry_calls fresh_calculator sample_calls).account_map.find name = some id →
        (run_registry_calls fresh_calculator (sample_calls ++ later_calls)).account_map.find name = some id)
    ∧ (∀ name id, (run_registry_calls fresh_calculator sample_calls).content_map.find name = some id →
        (run_registry_calls fresh_calculator (sample_calls ++ later_calls)).content_map.find name = some id)
    ∧ (run_registry_calls fresh_calculator sample_calls).accounts_count
        ≤ (run_registry_calls fresh_calculator (sample_calls ++ later_calls)).accounts_count
    ∧ (run_registry_calls fresh_calculator sample_calls).contents_count
        ≤ (run_registry_calls fresh_calculator (sample_calls ++ later_calls)).contents_count
    ∧ (∀ x : social_index_calculator,
        x.account_map = fresh_calculator.account_map → x.accounts_count = fresh_calculator.accounts_count →
        (run_registry_calls x sample_calls).account_map = (run_registry_calls fresh_calculator sample_calls).account_map
        ∧ (run_registry_calls x sample_calls).accounts_count
            = (run_registry_calls fresh_calculator sample_calls).accounts_count)
    ∧ (∀ x : social_index_calculator,
        x.content_map = fresh_calculator.content_map → x.contents_count = fresh_calculator.contents_count →
        (run_registry_calls x sample_calls).content_map = (run_registry_calls fresh_calculator sample_calls).content_map
        ∧ (run_registry_calls x sample_calls).contents_count
            = (run_registry_calls fresh_calculator sample_calls).contents_count)) :=
  ⟨⟨rfl, rfl, rfl, rfl⟩, by decide, by decide, rfl, rfl, rfl,
    id_assignment fresh_calculator ⟨rfl, rfl, rfl, rfl⟩ sample_calls later_calls⟩

/-- C14: the ids are not dense after `collect_accounts` on a relation whose source and target are
the same unseen account: from empty registries, the relation in which `dave` trusts `dave`
registers the one name `dave` with id `0` and leaves `accounts_count` at `2`, so the ids of the
account names are `0` alone and not `0, 1`. -/
theorem collect_accounts_self_trust :
    fresh_calculator.account_map = [] ∧ fresh_calculator.accounts_count = 0
    ∧ (collect_accounts fresh_calculator [self_trust]).account_map = [("dave", 0)]
    ∧ (collect_accounts fresh_calculator [self_trust]).accounts_count = 2
    ∧ ¬ dense_registry (collect_accounts fresh_calculator [self_trust]).account_map
        (collect_accounts fresh_calculator [self_trust]).accounts_count := by
  refine ⟨rfl, rfl, rfl, rfl, fun h => ?_⟩
  have hl := h.2.length_eq
  have e1 : (collect_accounts fresh_calculator [self_trust]).account_map = [("dave", 0)] := rfl
  have e2 : (collect_accounts fresh_calculator [self_trust]).accounts_count = 2 := rfl
  rw [e1, e2] at hl
  simp at hl

/-! ## Dense ids -/

theorem find_eq_none_iff (m : account_id_map_t) (name : String) :
    m.find name = none ↔ name ∉ m.map Prod.fst := by
  induction m with
  | nil => simp [account_id_map_t.find]
  | cons e rest ih =>
    obtain ⟨k, v⟩ := e
    by_cases hk : name = k
    · subst hk
      simp [account_id_map_t.find, List.lookup]
    · have hb : (name == k) = false := by simpa using hk
      have : account_id_map_t.find ((k, v) :: rest) name = account_id_map_t.find rest name := by
        simp [account_id_map_t.find, List.lookup, hb]
      rw [this, ih]
      simp [hk]

theorem dense_registry_insert (m : account_id_map_t) (count : Nat) (name : String)
    (h : dense_registry m count) (hf : m.find name = none) (hc : count < 4294967296) :
    dense_registry (m.insert name count) (count + 1) := by
  have hm : m.insert name count = m ++ [(name, count)] := by
    simp [account_id_map_t.insert, hf, Nat.mod_eq_of_lt hc]
  rw [hm]
  refine ⟨?_, ?_⟩
  · rw [List.map_append, List.nodup_append]
    refine ⟨h.1, List.nodup_singleton _, ?_⟩
    intro a ha hb
    rw [List.map_cons, List.map_nil, List.mem_singleton] at hb
    subst hb
    exact (find_eq_none_iff m a).mp hf ha
  · rw [List.map_append, List.range_succ]
    exact h.2.append_right _

theorem insert_id_dense (s : social_index_calculator) (kind : node_type) (name : String)
    (hd : registries_dense s) (hf : (s.id_map kind).find name = none)
    (hb : (s.insert_id kind name).accounts_count ≤ 4294967296
      ∧ (s.insert_id kind name).contents_count ≤ 4294967296) :
    registries_dense (s.insert_id kind name) := by
  cases kind
  · exact ⟨dense_registry_insert _ _ _ hd.1 hf (Nat.lt_of_succ_le hb.1), hd.2⟩
  · exact ⟨hd.1, dense_registry_insert _ _ _ hd.2 hf (Nat.lt_of_succ_le hb.2)⟩

theorem insert_id_find_other (s : social_index_calculator) (kind kind' : node_type)
    (name name' : String) (h : ¬ (kind = kind' ∧ name = name'))
    (hf : (s.id_map kind').find name' = none) :
    ((s.insert_id kind name).id_map kind').find name' = none := by
  cases kind <;> cases kind' <;>
    simp only [social_index_calculator.insert_id, social_index_calculator.id_map] <;>
    first
      | exact hf
      | (have hne : name' ≠ name := fun e => h ⟨rfl, e.symm⟩
         simp only [social_index_calculator.id_map] at hf
         unfold account_id_map_t.insert
         split
         · exact hf
         · rw [find_append_other _ _ _ _ hne]
           exact hf)

theorem collect_relation_dense (s : social_index_calculator) (t : relation_t)
    (hd : registries_dense s)
    (hself : ¬ (t.source_type = t.target_type ∧ t.source = t.target))
    (hb : (collect_relation s t).accounts_count ≤ 4294967296
      ∧ (collect_relation s t).contents_count ≤ 4294967296) :
    registries_dense (collect_relation s t) := by
  unfold collect_relation at hb ⊢
  simp only [] at hb ⊢
  split_ifs at hb ⊢ with ht hs hs
  · have hg := insert_id_grows (s.insert_id t.source_type t.source) t.target_type t.target
    refine insert_id_dense _ _ _
      (insert_id_dense s _ _ hd hs ⟨le_trans hg.2.2.1 hb.1, le_trans hg.2.2.2 hb.2⟩)
      (insert_id_find_other s _ _ _ _ hself ht) hb
  · exact insert_id_dense s _ _ hd ht hb
  · exact insert_id_dense s _ _ hd hs hb
  · exact hd

theorem collect_accounts_dense_of (s : social_index_calculator) (l : List relation_t)
    (hd : registries_dense s)
    (hself : ∀ t ∈ l, ¬ (t.source_type = t.target_type ∧ t.source = t.target))
    (hb : (collect_accounts s l).accounts_count ≤ 4294967296
      ∧ (collect_accounts s l).contents_count ≤ 4294967296) :
    registries_dense (collect_accounts s l) := by
  unfold collect_accounts at hb ⊢
  induction l generalizing s with
  | nil => exact hd
  | cons t ts ih =>
    rw [List.foldl_cons] at hb ⊢
    have hg := collect_accounts_grows (collect_relation s t) ts
    unfold collect_accounts at hg
    exact ih _ (collect_relation_dense s t hd (hself t (List.mem_cons_self t ts))
        ⟨le_trans hg.2.2.1 hb.1, le_trans hg.2.2.2 hb.2⟩)
      (fun u hu => hself u (List.mem_cons_of_mem t hu)) hb

/-- C14, for lists without a relation of a name to itself: starting from empty registries, after
`collect_accounts` on a list none of whose relations has the same name of the same kind as source
and as target, and while the counts fit the 32 bits of an id, no name is registered twice, the
ids of the account names are exactly `0, …, accounts_count - 1`, `accounts_count` is the number
of registered account names, and likewise for the content names and `contents_count`. -/
theorem collect_accounts_dense (s : social_index_calculator)
    (hempty : s.account_map = [] ∧ s.accounts_count = 0
      ∧ s.content_map = [] ∧ s.contents_count = 0)
    (transactions : List relation_t)
    (hself : ∀ t ∈ transactions, ¬ (t.source_type = t.target_type ∧ t.source = t.target))
    (hbound : (collect_accounts s transactions).accounts_count ≤ 4294967296
      ∧ (collect_accounts s transactions).contents_count ≤ 4294967296) :
    dense_registry (collect_accounts s transactions).account_map
      (collect_accounts s transactions).accounts_count
    ∧ dense_registry (collect_accounts s transactions).content_map
      (collect_accounts s transactions).contents_count
    ∧ (collect_accounts s transactions).account_map.length
        = (collect_accounts s transactions).accounts_count
    ∧ (collect_accounts s transactions).content_map.length
        = (collect_accounts s transactions).contents_count := by
  obtain ⟨ha, hac, hc, hcc⟩ := hempty
  have h0 : registries_dense s := by
    unfold registries_dense
    rw [ha, hac, hc, hcc]
    exact ⟨⟨List.nodup_nil, List.Perm.refl _⟩, ⟨List.nodup_nil, List.Perm.refl _⟩⟩
  have hd := collect_accounts_dense_of s transactions h0 hself hbound
  refine ⟨hd.1, hd.2, ?_, ?_⟩
  · have := hd.1.2.length_eq
    simpa using this
  · have := hd.2.2.length_eq
    simpa using this

/-- Witness of C14: an ownership, an upvote and a trust relation between different names. -/
theorem collect_accounts_dense_witness :
    (fresh_calculator.account_map = [] ∧ fresh_calculator.accounts_count = 0
      ∧ fresh_calculator.content_map = [] ∧ fresh_calculator.contents_count = 0)
    ∧ (∀ t ∈ [sample_ownership, sample_upvote, carol_trust],
        ¬ (t.source_type = t.target_type ∧ t.source = t.target))
    ∧ (collect_accounts fresh_calculator
        [sample_ownership, sample_upvote, carol_trust]).account_map
        = [("alice", 0), ("bob", 1), ("carol", 2)]
    ∧ (collect_accounts fresh_calculator
        [sample_ownership, sample_upvote, carol_trust]).accounts_count = 3
    ∧ dense_registry
        (collect_accounts fresh_calculator
          [sample_ownership, sample_upvote, carol_trust]).account_map
        (collect_accounts fresh_calculator
          [sample_ownership, sample_upvote, carol_trust]).accounts_count
    ∧ dense_registry
        (collect_accounts fresh_calculator
          [sample_ownership, sample_upvote, carol_trust]).content_map
        (collect_accounts fresh_calculator
          [sample_ownership, sample_upvote, carol_trust]).contents_count
    ∧ (collect_accounts fresh_calculator
        [sample_ownership, sample_upvote, carol_trust]).account_map.length
        = (collect_accounts fresh_calculator
          [sample_ownership, sample_upvote, carol_trust]).accounts_count
    ∧ (collect_accounts fresh_calculator
        [sample_ownership, sample_upvote, carol_trust]).content_map.length
        = (collect_accounts fresh_calculator
          [sample_ownership, sample_upvote, carol_trust]).contents_count := by
  have hself : ∀ t ∈ [sample_ownership, sample_upvote, carol_trust],
      ¬ (t.source_type = t.target_type ∧ t.source = t.target) := by
    intro t ht
    simp only [List.mem_cons, List.mem_singleton, List.not_mem_nil, or_false] at ht
    rcases ht with rfl | rfl | rfl <;> decide
  exact ⟨⟨rfl, rfl, rfl, rfl⟩, hself, rfl, rfl,
    collect_accounts_dense fresh_calculator ⟨rfl, rfl, rfl, rfl⟩
      [sample_ownership, sample_upvote, carol_trust] hself ⟨by decide, by decide⟩⟩

/-! ## The rank engine -/

theorem iterates_shift (p : page_rank) (O : matrix_t) (A : additional_matrices_vector)
    (v w : vector_t) (t : Nat) :
    p.iterates O A v w (t + 1)
      = p.iterates O A (p.iterate O A v (vector_scale (1 - p.outlink_weight) w)) w t := by
  induction t with
  | zero => rfl
  | succ t ih =>
    show p.iterate O A (p.iterates O A v w (t + 1)) _ = p.iterate O A _ _
    rw [ih]

theorem iterate_loop_steps (p : page_rank) (O : matrix_t) (A : additional_matrices_vector)
    (w : vector_t) (n : Nat) (v : vector_t) :
    ∃ k, 1 ≤ k ∧ k ≤ n + 1
      ∧ p.iterate_loop O A (vector_scale (1 - p.outlink_weight) w) (n + 1) v
          = p.iterates O A v w k
      ∧ (∀ t, t + 1 < k →
          ¬ norm_1 (vector_sub (p.iterates O A v w (t + 1)) (p.iterates O A v w t))
              < page_rank.precision)
      ∧ (k < n + 1 →
          norm_1 (vector_sub (p.iterates O A v w k) (p.iterates O A v w (k - 1)))
            < page_rank.precision) := by
  induction n generalizing v with
  | zero =>
    refine ⟨1, le_refl _, le_refl _, ?_, fun t ht => absurd ht (by omega),
      fun h => absurd h (by omega)⟩
    show (if _ then _ else _) = _
    split_ifs <;> rfl
  | succ n ih =>
    by_cases hd : norm_1 (vector_sub
        (p.iterate O A v (vector_scale (1 - p.outlink_weight) w)) v) < page_rank.precision
    · refine ⟨1, le_refl _, by omega, ?_, fun t ht => absurd ht (by omega), fun _ => hd⟩
      show (if _ then _ else _) = _
      rw [if_pos hd]
      rfl
    · obtain ⟨k, hk1, hk2, hk3, hk4, hk5⟩ :=
        ih (p.iterate O A v (vector_scale (1 - p.outlink_weight) w))
      refine ⟨k + 1, by omega, by omega, ?_, fun t ht => ?_, fun hlt => ?_⟩
      · show (if _ then _ else _) = _
        rw [if_neg hd, hk3, iterates_shift]
      · cases t with
        | zero => exact hd
        | succ t =>
          rw [iterates_shift p O A v w (t + 1), iterates_shift p O A v w t]
          exact hk4 t (by omega)
      · have hk : k - 1 + 1 = k := by omega
        have := hk5 (by omega)
        rw [← hk, ← iterates_shift, hk, ← iterates_shift] at this
        have e : k + 1 - 1 = k - 1 + 1 := by omega
        rw [e]
        exact this

/-- C16: for every outlink matrix, correction list, initial vector and teleport vector,
`process` returns the iterate `r_k` of some step `k` with `1 ≤ k ≤ MAX_ITERATIONS = 1000`; no
earlier step had successive iterates at an L1 distance below the precision `0.01`, and when `k`
is below `MAX_ITERATIONS` the step `k` had.  The function is total: it returns a vector whether
or not the precision test is ever met. -/
theorem process_terminates (p : page_rank) (outlink_matrix : matrix_t)
    (initial_vector weight_vector : vector_t) (additional_matrices : additional_matrices_vector) :
    page_rank.MAX_ITERATIONS = 1000 ∧ page_rank.precision = 1 / 100
    ∧ ∃ k, 1 ≤ k ∧ k ≤ page_rank.MAX_ITERATIONS
      ∧ p.process outlink_matrix initial_vector weight_vector additional_matrices
          = p.iterates outlink_matrix additional_matrices initial_vector weight_vector k
      ∧ (∀ t, t + 1 < k →
          ¬ norm_1 (vector_sub
              (p.iterates outlink_matrix additional_matrices initial_vector weight_vector (t + 1))
              (p.iterates outlink_matrix additional_matrices initial_vector weight_vector t))
            < page_rank.precision)
      ∧ (k < page_rank.MAX_ITERATIONS →
          norm_1 (vector_sub
              (p.iterates outlink_matrix additional_matrices initial_vector weight_vector k)
              (p.iterates outlink_matrix additional_matrices initial_vector weight_vector (k - 1)))
            < page_rank.precision) :=
  ⟨rfl, rfl, iterate_loop_steps p outlink_matrix additional_matrices weight_vector 999
    initial_vector⟩

/-! ## Sums over the entries of vectors and matrices -/

theorem sum_map_range (n : Nat) (f : Nat → double_type) :
    ((List.range n).map f).sum = ∑ i in Finset.range n, f i := by
  induction n with
  | zero => simp
  | succ n ih =>
    rw [List.range_succ, List.map_append, List.sum_append, ih, Finset.sum_range_succ]
    simp

theorem getD_map_range (n : Nat) (f : Nat → double_type) (i : Nat) (h : i < n) :
    ((List.range n).map f).getD i 0 = f i := by
  simp [List.getD_eq_getElem?_getD, h]

theorem norm_1_eq_sum (v : vector_t) :
    norm_1 v = ∑ i in Finset.range v.length, |v.getD i 0| := by
  induction v with
  | nil => simp [norm_1]
  | cons x xs ih =>
    rw [List.length_cons, Finset.sum_range_succ']
    simp only [List.getD_cons_succ, List.getD_cons_zero]
    rw [← ih]
    simp [norm_1, add_comm]

theorem vector_sum_eq (v : vector_t) :
    v.sum = ∑ i in Finset.range v.length, v.getD i 0 := by
  induction v with
  | nil => simp
  | cons x xs ih =>
    rw [List.length_cons, Finset.sum_range_succ', List.sum_cons, ih]
    simp only [List.getD_cons_succ, List.getD_cons_zero]
    exact add_comm _ _

theorem vector_sub_getD (a b : vector_t) (h : a.length = b.length) (i : Nat) :
    (vector_sub a b).getD i 0 = a.getD i 0 - b.getD i 0 := by
  induction a generalizing b i with
  | nil =>
    cases b with
    | nil => simp [vector_sub]
    | cons y ys => simp at h
  | cons x xs ih =>
    cases b with
    | nil => simp at h
    | cons y ys =>
      cases i with
      | zero => simp [vector_sub]
      | succ i =>
        have := ih ys (by simpa using h) i
        simpa [vector_sub] using this

theorem vector_sub_length (a b : vector_t) (h : a.length = b.length) :
    (vector_sub a b).length = b.length := by
  simp [vector_sub, h]

theorem iterate_length (p : page_rank) (O : matrix_t) (A : additional_matrices_vector)
    (r tele : vector_t) : (p.iterate O A r tele).length = O.size1 := by
  simp [page_rank.iterate]

theorem iterate_getD (p : page_rank) (O : matrix_t) (A : additional_matrices_vector)
    (r tele : vector_t) (i : Nat) (h : i < O.size1) :
    (p.iterate O A r tele).getD i 0
      = p.outlink_weight * (O.row_prod r i + (A.map fun a => a.row_prod r i).sum)
        + tele.getD i 0 := by
  unfold page_rank.iterate
  rw [getD_map_range _ _ _ h]

theorem sum_filterMap_getD (l : List Nat) (f : Nat → Option double_type) :
    (l.filterMap f).sum = (l.map fun x => (f x).getD 0).sum := by
  induction l with
  | nil => rfl
  | cons x xs ih =>
    cases h : f x with
    | none => simp [List.filterMap_cons, h, ih]
    | some v => simp [List.filterMap_cons, h, ih]

theorem column_sum_eq (m : matrix_t) (j : Nat) :
    m.column_sum j = ∑ i in Finset.range m.size1, m.get i j := by
  rw [← sum_map_range]
  exact sum_filterMap_getD _ _

/-- The step of the rank engine does not increase the L1 distance when it is linear with a
matrix `E` without negative entries whose columns sum to one. -/
theorem contraction (n : Nat) (E : Nat → Nat → double_type) (α : double_type)
    (hE : ∀ i j, i < n → j < n → 0 ≤ E i j)
    (hcol : ∀ j, j < n → ∑ i in Finset.range n, E i j = 1)
    (h0 : 0 ≤ α) (h1 : α ≤ 1) (d : Nat → double_type) :
    ∑ i in Finset.range n, |α * ∑ j in Finset.range n, E i j * d j|
      ≤ ∑ j in Finset.range n, |d j| := by
  have hrow : ∀ i ∈ Finset.range n,
      |α * ∑ j in Finset.range n, E i j * d j|
        ≤ ∑ j in Finset.range n, E i j * |d j| := by
    intro i hi
    rw [abs_mul, abs_of_nonneg h0]
    have hs : |∑ j in Finset.range n, E i j * d j| ≤ ∑ j in Finset.range n, E i j * |d j| := by
      refine le_trans (Finset.abs_sum_le_sum_abs _ _) (le_of_eq ?_)
      refine Finset.sum_congr rfl fun j hj => ?_
      rw [abs_mul, abs_of_nonneg (hE i j (Finset.mem_range.mp hi) (Finset.mem_range.mp hj))]
    have hnn : 0 ≤ |∑ j in Finset.range n, E i j * d j| := abs_nonneg _
    calc α * |∑ j in Finset.range n, E i j * d j|
        ≤ 1 * |∑ j in Finset.range n, E i j * d j| := mul_le_mul_of_nonneg_right h1 hnn
      _ = |∑ j in Finset.range n, E i j * d j| := one_mul _
      _ ≤ _ := hs
  refine le_trans (Finset.sum_le_sum hrow) (le_of_eq ?_)
  rw [Finset.sum_comm]
  refine Finset.sum_congr rfl fun j hj => ?_
  rw [← Finset.sum_mul, hcol j (Finset.mem_range.mp hj), one_mul]

theorem iterate_distance_le (p : page_rank) (O : matrix_t) (A : additional_matrices_vector)
    (tele : vector_t) (n : Nat) (E : Nat → Nat → double_type) (hn : O.size1 = n)
    (hstep : ∀ r : vector_t, ∀ i, i < n →
      (p.iterate O A r tele).getD i 0
        = p.outlink_weight * ∑ j in Finset.range n, E i j * r.getD j 0 + tele.getD i 0)
    (hE : ∀ i j, i < n → j < n → 0 ≤ E i j)
    (hcol : ∀ j, j < n → ∑ i in Finset.range n, E i j = 1)
    (h0 : 0 ≤ p.outlink_weight) (h1 : p.outlink_weight ≤ 1)
    (r r' : vector_t) (hr : r.length = n) (hr' : r'.length = n) :
    norm_1 (vector_sub (p.iterate O A r' tele) (p.iterate O A r tele))
      ≤ norm_1 (vector_sub r' r) := by
  have hl : (p.iterate O A r' tele).length = (p.iterate O A r tele).length := by
    rw [iterate_length, iterate_length]
  rw [norm_1_eq_sum, norm_1_eq_sum, vector_sub_length _ _ hl,
    vector_sub_length _ _ (hr'.trans hr.symm), iterate_length, hn, hr]
  have hL : ∑ i in Finset.range n,
        |(vector_sub (p.iterate O A r' tele) (p.iterate O A r tele)).getD i 0|
      = ∑ i in Finset.range n,
        |p.outlink_weight * ∑ j in Finset.range n, E i j * (r'.getD j 0 - r.getD j 0)| := by
    refine Finset.sum_congr rfl fun i hi => ?_
    rw [vector_sub_getD _ _ hl, hstep r' i (Finset.mem_range.mp hi),
      hstep r i (Finset.mem_range.mp hi)]
    congr 1
    simp only [mul_sub, Finset.sum_sub_distrib]
    ring
  have hR : ∑ i in Finset.range n, |(vector_sub r' r).getD i 0|
      = ∑ j in Finset.range n, |r'.getD j 0 - r.getD j 0| := by
    refine Finset.sum_congr rfl fun i _ => ?_
    rw [vector_sub_getD _ _ (hr'.trans hr.symm)]
  rw [hL, hR]
  exact contraction n E _ hE hcol h0 h1 _

theorem row_prod_eq (m : matrix_t) (v : vector_t) (i : Nat) :
    m.row_prod v i = ∑ j in Finset.range m.size2, m.get i j * v.getD j 0 := by
  unfold matrix_t.row_prod
  rw [sum_map_range]

theorem correction_row_prod_eq (a : vector_based_matrix) (v : vector_t) (i : Nat) :
    a.row_prod v i
      = a.left.getD i 0 * ∑ j in Finset.range a.right.size, a.right.get j * v.getD j 0 := by
  unfold vector_based_matrix.row_prod
  rw [sum_map_range]

theorem iterates_length (p : page_rank) (O : matrix_t) (A : additional_matrices_vector)
    (v w : vector_t) (h : v.length = O.size1) (t : Nat) :
    (p.iterates O A v w t).length = O.size1 := by
  cases t with
  | zero => exact h
  | succ t => exact iterate_length _ _ _ _ _

theorem iterate_getD_plain (p : page_rank) (O : matrix_t) (A : additional_matrices_vector)
    (hA : ∀ a ∈ A, ∀ j, j < a.right.size → a.right.get j = 0)
    (r tele : vector_t) (i : Nat) (h : i < O.size1) :
    (p.iterate O A r tele).getD i 0
      = p.outlink_weight * ∑ j in Finset.range O.size2, O.get i j * r.getD j 0
        + tele.getD i 0 := by
  rw [iterate_getD _ _ _ _ _ _ h, row_prod_eq]
  have hz : (A.map fun a => a.row_prod r i).sum = 0 := by
    apply List.sum_eq_zero
    intro x hx
    obtain ⟨a, ha, rfl⟩ := List.mem_map.mp hx
    rw [correction_row_prod_eq]
    have : ∑ j in Finset.range a.right.size, a.right.get j * r.getD j 0 = 0 :=
      Finset.sum_eq_zero fun j hj => by rw [hA a ha j (Finset.mem_range.mp hj), zero_mul]
    rw [this, mul_zero]
  rw [hz, add_zero]

/-- C17: for an `n × n` outlink matrix without negative entries whose columns sum to one, with
correction rows that are zero (no correction is needed), an outlink weight with
`0 ≤ outlink_weight < 1`, every teleport vector `w` and every initial vector of length `n`, the
L1 distance between successive iterates
`r_(t+1) = outlink_weight · (O · r_t + Σ corrections · r_t) + (1 − outlink_weight) · w` does not
increase: `L1(r_(t+2) − r_(t+1)) ≤ L1(r_(t+1) − r_t)` for every `t`. -/
theorem iterates_distance_antitone (p : page_rank) (outlink_matrix : matrix_t)
    (additional_matrices : additional_matrices_vector) (initial_vector weight_vector : vector_t)
    (n : Nat) (hsize1 : outlink_matrix.size1 = n) (hsize2 : outlink_matrix.size2 = n)
    (hnonneg : ∀ i j, i < n → j < n → 0 ≤ outlink_matrix.get i j)
    (hstochastic : ∀ j, j < n → outlink_matrix.column_sum j = 1)
    (hcorrections : ∀ a ∈ additional_matrices, ∀ j, j < a.right.size → a.right.get j = 0)
    (hweight0 : 0 ≤ p.outlink_weight) (hweight1 : p.outlink_weight < 1)
    (hinitial : initial_vector.length = n) (t : Nat) :
    norm_1 (vector_sub
        (p.iterates outlink_matrix additional_matrices initial_vector weight_vector (t + 2))
        (p.iterates outlink_matrix additional_matrices initial_vector weight_vector (t + 1)))
      ≤ norm_1 (vector_sub
        (p.iterates outlink_matrix additional_matrices initial_vector weight_vector (t + 1))
        (p.iterates outlink_matrix additional_matrices initial_vector weight_vector t)) := by
  have hlen := iterates_length p outlink_matrix additional_matrices initial_vector weight_vector
    (hinitial.trans hsize1.symm)
  refine iterate_distance_le p outlink_matrix additional_matrices _ n
    (fun i j => outlink_matrix.get i j) hsize1 (fun r i hi => ?_) hnonneg (fun j hj => ?_)
    hweight0 (le_of_lt hweight1) _ _ ((hlen t).trans hsize1) ((hlen (t + 1)).trans hsize1)
  · rw [iterate_getD_plain p outlink_matrix additional_matrices hcorrections r _ i
      (by rw [hsize1]; exact hi), hsize2]
  · rw [← hstochastic j hj, column_sum_eq, hsize1]

/-- Witness of C17 at a `2 × 2` matrix with the columns `(1/2, 1/2)` and `(1, 0)`. -/
theorem iterates_distance_antitone_witness :
    (∀ i j, i < 2 → j < 2 → 0 ≤ stochastic_matrix.get i j)
    ∧ (∀ j, j < 2 → stochastic_matrix.column_sum j = 1)
    ∧ (∀ a ∈ [zero_correction], ∀ j, j < a.right.size → a.right.get j = 0)
    ∧ 0 ≤ sample_page_rank.outlink_weight ∧ sample_page_rank.outlink_weight < 1
    ∧ norm_1 (vector_sub
          (sample_page_rank.iterates stochastic_matrix [zero_correction] [1, 0] [1 / 2, 1 / 2] 2)
          (sample_page_rank.iterates stochastic_matrix [zero_correction] [1, 0] [1 / 2, 1 / 2] 1))
        ≤ norm_1 (vector_sub
          (sample_page_rank.iterates stochastic_matrix [zero_correction] [1, 0] [1 / 2, 1 / 2] 1)
          (sample_page_rank.iterates stochastic_matrix [zero_correction] [1, 0] [1 / 2, 1 / 2]
            0)) := by
  have h1 : ∀ i j, i < 2 → j < 2 → 0 ≤ stochastic_matrix.get i j := by
    intro i j hi hj
    interval_cases i <;> interval_cases j <;> norm_num [stochastic_matrix, matrix_t.get]
  have h2 : ∀ j, j < 2 → stochastic_matrix.column_sum j = 1 := by
    intro j hj
    rw [column_sum_eq]
    interval_cases j <;>
      norm_num [stochastic_matrix, matrix_t.get, Finset.sum_range_succ]
  have h3 : ∀ a ∈ [zero_correction], ∀ j, j < a.right.size → a.right.get j = 0 := by
    intro a ha j _
    rw [List.mem_singleton.mp ha]
    rfl
  have h4 : (0 : double_type) ≤ sample_page_rank.outlink_weight := by
    norm_num [sample_page_rank]
  have h5 : sample_page_rank.outlink_weight < 1 := by
    norm_num [sample_page_rank]
  exact ⟨h1, h2, h3, h4, h5,
    iterates_distance_antitone sample_page_rank stochastic_matrix [zero_correction] [1, 0]
      [1 / 2, 1 / 2] 2 rfl rfl h1 h2 h3 h4 h5 rfl 0⟩

/-! ## The effective matrix after `normalize_columns` -/

theorem foldl_min_le (l : List double_type) (a : double_type) :
    l.foldl min a ≤ a ∧ ∀ v ∈ l, l.foldl min a ≤ v := by
  induction l generalizing a with
  | nil => exact ⟨le_refl _, fun v hv => absurd hv (List.not_mem_nil v)⟩
  | cons x xs ih =>
    rw [List.foldl_cons]
    obtain ⟨h1, h2⟩ := ih (min a x)
    refine ⟨le_trans h1 (min_le_left _ _), fun v hv => ?_⟩
    rcases List.mem_cons.mp hv with rfl | hv
    · exact le_trans h1 (min_le_right _ _)
    · exact h2 v hv

theorem column_min_nonpos (m : matrix_t) (j : Nat) : m.column_min j ≤ 0 :=
  (foldl_min_le _ 0).1

theorem column_min_le_get (m : matrix_t) (j i : Nat) (hi : i < m.size1) :
    m.column_min j ≤ m.get i j := by
  cases hd : m.data i j with
  | none =>
    have : m.get i j = 0 := by simp [matrix_t.get, hd]
    rw [this]
    exact column_min_nonpos m j
  | some v =>
    have : m.get i j = v := by simp [matrix_t.get, hd]
    rw [this]
    exact (foldl_min_le _ 0).2 v ((mem_column m j v).mpr ⟨i, hi, hd⟩)

theorem get_add_c_nonneg (m : matrix_t) (j i : Nat) (hi : i < m.size1) :
    0 ≤ m.get i j + m.column_c j := by
  have h1 := column_min_le_get m j i hi
  have h2 := column_min_nonpos m j
  unfold matrix_t.column_c
  split_ifs with hneg hz
  · linarith
  · have := not_lt.mp hneg
    linarith
  · have := not_lt.mp hneg
    linarith

theorem column_divisor_eq_sum (m : matrix_t) (j : Nat) (hsq : m.size1 = m.size2) :
    m.column_divisor j = ∑ i in Finset.range m.size1, (m.get i j + m.column_c j) := by
  unfold matrix_t.column_divisor
  rw [column_sum_eq, Finset.sum_add_distrib, Finset.sum_const, Finset.card_range, nsmul_eq_mul,
    hsq]

theorem column_divisor_nonneg (m : matrix_t) (j : Nat) (hsq : m.size1 = m.size2) :
    0 ≤ m.column_divisor j := by
  rw [column_divisor_eq_sum m j hsq]
  exact Finset.sum_nonneg fun i hi => get_add_c_nonneg m j i (Finset.mem_range.mp hi)

theorem normalize_columns_get (m : matrix_t) (a : additional_matrices_vector) (i j : Nat)
    (hi : i < m.size1) (hj : j < m.size2) :
    (normalize_columns m a).1.get i j = m.get i j * m.column_scale j := by
  unfold matrix_t.get
  rw [normalize_columns_data, if_pos ⟨hi, hj⟩]
  cases m.data i j with
  | none => simp
  | some v =>
    by_cases hv : v = 0
    · simp [hv]
    · simp [hv]

theorem norm_1_of_nonneg (v : vector_t) (h : ∀ x ∈ v, (0 : double_type) ≤ x) :
    norm_1 v = v.sum := by
  unfold norm_1
  induction v with
  | nil => rfl
  | cons x xs ih =>
    rw [List.map_cons, List.sum_cons, List.sum_cons,
      ih fun y hy => h y (List.mem_cons_of_mem x hy), abs_of_nonneg (h x (List.mem_cons_self x xs))]

/-- C19, at a state with two accounts and one content: after the block in which `alice` owns
`post` and `bob` upvotes `post`, the vote matrix holds `1` in the cell (content `0`, account `1`)
and the repost matrix is empty, so `vote'` is the vote matrix.  `calculate_content_matrix` on the
`contents_count × accounts_count` matrix leaves the loop over row `0` at column `1`, because `1`
is not below `size = o.size1() = 1`: the cell `(0, 1)` of the content matrix stays absent, and
the score of content `0` is `0` for every account rank vector and not the rank of account `1`. -/
theorem calculate_content_matrix_drops_column :
    add_block fresh_calculator [sample_ownership, plain_upvote] = some voted_calculator
    ∧ voted_calculator.accounts_count = 2 ∧ voted_calculator.contents_count = 1
    ∧ voted_calculator.disable_negative_weights = false
    ∧ (∀ i j, voted_calculator.p_repost_matrix.data i j = none)
    ∧ voted_calculator.p_vote_matrix.get 0 1 = 1
    ∧ (calculate_content_matrix voted_calculator
        (matrix_t.empty voted_calculator.contents_count voted_calculator.accounts_count)
        voted_calculator.p_vote_matrix).data 0 1 = none
    ∧ (∀ account_rank : vector_t,
        (calculate_content_matrix voted_calculator
          (matrix_t.empty voted_calculator.contents_count voted_calculator.accounts_count)
          voted_calculator.p_vote_matrix).row_prod account_rank 0 = 0
        ∧ ((List.range voted_calculator.accounts_count).map fun j =>
            voted_calculator.p_vote_matrix.get 0 j * account_rank.getD j 0).sum
          = account_rank.getD 1 0) := by
  refine ⟨rfl, rfl, rfl, rfl, fun i j => rfl, ?_, rfl, fun account_rank => ⟨?_, ?_⟩⟩
  · simp [voted_calculator, matrix_t.get, matrix_t.set]
  · have h : calculate_content_matrix voted_calculator
        (matrix_t.empty voted_calculator.contents_count voted_calculator.accounts_count)
        voted_calculator.p_vote_matrix = matrix_t.empty 1 2 := rfl
    rw [h]
    simp [matrix_t.row_prod, matrix_t.empty, matrix_t.get]
  · simp [voted_calculator, matrix_t.get, matrix_t.set, matrix_t.empty, List.range_succ]

/-! ## What `calculate_content_matrix` copies -/

theorem takeWhile_eq_filter {α : Type} (key : α → Nat) (size : Nat) (l : List α)
    (h : l.Pairwise fun a b => key a < key b) :
    l.takeWhile (fun a => decide (key a < size)) = l.filter fun a => decide (key a < size) := by
  induction l with
  | nil => rfl
  | cons a l ih =>
    rw [List.pairwise_cons] at h
    by_cases ha : key a < size
    · rw [List.takeWhile_cons, List.filter_cons]
      simp only [ha, decide_True, if_true]
      rw [ih h.2]
    · have hnil : l.filter (fun b => decide (key b < size)) = [] := by
        rw [List.filter_eq_nil_iff]
        intro b hb
        have := h.1 b hb
        simp only [decide_eq_true_eq]
        omega
      rw [List.takeWhile_cons, List.filter_cons]
      simp only [ha, decide_False, Bool.false_eq_true, if_false]
      exact hnil.symm

theorem row_elements_pairwise (m : matrix_t) (i n : Nat) :
    (m.row_elements i n).Pairwise fun a b => a.2.1 < b.2.1 := by
  unfold matrix_t.row_elements
  refine List.Pairwise.filterMap _ ?_ (List.pairwise_lt_range n)
  intro j j' hjj b hb b' hb'
  simp only [Option.mem_def, Option.map_eq_some'] at hb hb'
  obtain ⟨_, _, rfl⟩ := hb
  obtain ⟨_, _, rfl⟩ := hb'
  exact hjj

theorem row_elements_succ (m : matrix_t) (i n : Nat) :
    m.row_elements i (n + 1)
      = m.row_elements i n ++ ((m.data i n).map fun v => (i, n, v)).toList := by
  unfold matrix_t.row_elements
  rw [List.range_succ, List.filterMap_append]
  cases h : m.data i n <;> simp [List.filterMap_cons, h]

theorem add_cell_get (o : matrix_t) (e : Nat × Nat × double_type) (a b : Nat) :
    (add_cell o e).get a b
      = if a = e.1 ∧ b = e.2.1 then o.get e.1 e.2.1 + e.2.2 else o.get a b := by
  unfold add_cell matrix_t.set matrix_t.get
  by_cases h : a = e.1 ∧ b = e.2.1
  · simp [h]
  · simp only [h, if_false]

theorem copy_row_get (size : Nat) (w : matrix_t) (i n : Nat) (o : matrix_t) (a b : Nat) :
    (copy_row size o (w.row_elements i n)).get a b
      = o.get a b + if a = i ∧ b < n ∧ b < size then w.get i b else 0 := by
  unfold copy_row
  rw [takeWhile_eq_filter (fun e : Nat × Nat × double_type => e.2.1) size _
    (row_elements_pairwise w i n)]
  induction n with
  | zero => simp [matrix_t.row_elements]
  | succ n ih =>
    rw [row_elements_succ, List.filter_append, List.foldl_append]
    cases hd : w.data i n with
    | none =>
      have hw : w.get i n = 0 := by simp [matrix_t.get, hd]
      simp only [Option.map_none', Option.toList_none, List.filter_nil, List.foldl_nil, ih]
      congr 1
      by_cases hab : a = i ∧ b = n
      · obtain ⟨rfl, rfl⟩ := hab
        simp [hw]
      · have : (a = i ∧ b < n + 1 ∧ b < size) ↔ (a = i ∧ b < n ∧ b < size) := by
          constructor
          · rintro ⟨h1, h2, h3⟩
            exact ⟨h1, by have : b ≠ n := fun h => hab ⟨h1, h⟩; omega, h3⟩
          · rintro ⟨h1, h2, h3⟩
            exact ⟨h1, by omega, h3⟩
        simp only [this]
    | some v =>
      have hw : w.get i n = v := by simp [matrix_t.get, hd]
      by_cases hn : n < size
      · simp only [Option.map_some', Option.toList_some, List.filter_cons, hn, decide_True,
          if_true, List.filter_nil, List.foldl_cons, List.foldl_nil, add_cell_get, ih]
        by_cases hab : a = i ∧ b = n
        · obtain ⟨rfl, rfl⟩ := hab
          simp [hn, hw, ih]
        · have : (a = i ∧ b < n + 1 ∧ b < size) ↔ (a = i ∧ b < n ∧ b < size) := by
            constructor
            · rintro ⟨h1, h2, h3⟩
              exact ⟨h1, by have : b ≠ n := fun h => hab ⟨h1, h⟩; omega, h3⟩
            · rintro ⟨h1, h2, h3⟩
              exact ⟨h1, by omega, h3⟩
          simp only [hab, if_false, this]
      · simp only [Option.map_some', Option.toList_some, List.filter_cons, hn, decide_False,
          Bool.false_eq_true, if_false, List.filter_nil, List.foldl_nil, ih]
        congr 1
        have : (a = i ∧ b < n + 1 ∧ b < size) ↔ (a = i ∧ b < n ∧ b < size) := by
          constructor
          · rintro ⟨h1, h2, h3⟩
            exact ⟨h1, by omega, h3⟩
          · rintro ⟨h1, h2, h3⟩
            exact ⟨h1, by omega, h3⟩
        simp only [this]

theorem copy_rows_get (size : Nat) (w : matrix_t) (m : Nat) (o : matrix_t) (a b : Nat) :
    (((List.range m).filter fun i => decide (i < size)).foldl
        (fun acc i => copy_row size acc (w.row_elements i w.size2)) o).get a b
      = o.get a b
        + if a < m ∧ a < size ∧ b < w.size2 ∧ b < size then w.get a b else 0 := by
  induction m with
  | zero => simp
  | succ m ih =>
    rw [List.range_succ, List.filter_append, List.foldl_append]
    by_cases hm : m < size
    · simp only [List.filter_cons, hm, decide_True, if_true, List.filter_nil, List.foldl_cons,
        List.foldl_nil, copy_row_get, ih]
      by_cases ha : a = m
      · subst ha
        simp [hm]
      · have h1 : (a < m + 1 ∧ a < size ∧ b < w.size2 ∧ b < size)
            ↔ (a < m ∧ a < size ∧ b < w.size2 ∧ b < size) := by
          constructor
          · rintro ⟨h1, h2⟩
            exact ⟨by omega, h2⟩
          · rintro ⟨h1, h2⟩
            exact ⟨by omega, h2⟩
        simp only [ha, false_and, if_false, add_zero, h1]
    · simp only [List.filter_cons, hm, decide_False, Bool.false_eq_true, if_false,
        List.filter_nil, List.foldl_nil, ih]
      congr 1
      have h1 : (a < m + 1 ∧ a < size ∧ b < w.size2 ∧ b < size)
          ↔ (a < m ∧ a < size ∧ b < w.size2 ∧ b < size) := by
        constructor
        · rintro ⟨h1, h2, h3⟩
          exact ⟨by omega, h2, h3⟩
        · rintro ⟨h1, h2⟩
          exact ⟨by omega, h2⟩
      simp only [h1]

/-- C19, what the code copies: with negative weights not disabled, the cell `(k, j)` of the
matrix `o` after `calculate_content_matrix(o, weight_matrix)` is its old value plus
`weight_matrix[k, j]` when both `k` and `j` are below `o.size1()` (and inside `weight_matrix`),
and its old value otherwise.  For the `contents_count × accounts_count` matrix of `calculate`
these are the rows `k < contents_count` and the columns `j < contents_count`: the number of
columns of `o` plays no part. -/
theorem calculate_content_matrix_get (s : social_index_calculator) (o weight_matrix : matrix_t)
    (hnegative : s.disable_negative_weights = false) (k j : Nat) :
    (calculate_content_matrix s o weight_matrix).get k j
      = o.get k j
        + if k < weight_matrix.size1 ∧ k < o.size1 ∧ j < weight_matrix.size2 ∧ j < o.size1 then
            weight_matrix.get k j
          else 0 := by
  unfold calculate_content_matrix
  simp only [hnegative, Bool.false_eq_true, if_false]
  rw [takeWhile_eq_filter (fun i : Nat => i) o.size1 _ (List.pairwise_lt_range _)]
  exact copy_rows_get o.size1 weight_matrix weight_matrix.size1 o k j

/-- Witness of C19: the cells `(0, 0)` and `(0, 1)` of the content matrix of
`voted_calculator`. -/
theorem calculate_content_matrix_get_witness :
    voted_calculator.disable_negative_weights = false
    ∧ (calculate_content_matrix voted_calculator
        (matrix_t.empty voted_calculator.contents_count voted_calculator.accounts_count)
        voted_calculator.p_vote_matrix).get 0 0
      = (matrix_t.empty voted_calculator.contents_count voted_calculator.accounts_count).get 0 0
        + (if 0 < voted_calculator.p_vote_matrix.size1
              ∧ 0 < (matrix_t.empty voted_calculator.contents_count
                  voted_calculator.accounts_count).size1
              ∧ 0 < voted_calculator.p_vote_matrix.size2
              ∧ 0 < (matrix_t.empty voted_calculator.contents_count
                  voted_calculator.accounts_count).size1 then
            voted_calculator.p_vote_matrix.get 0 0
          else 0)
    ∧ (calculate_content_matrix voted_calculator
        (matrix_t.empty voted_calculator.contents_count voted_calculator.accounts_count)
        voted_calculator.p_vote_matrix).get 0 1
      = (matrix_t.empty voted_calculator.contents_count voted_calculator.accounts_count).get 0 1
        + (if 0 < voted_calculator.p_vote_matrix.size1
              ∧ 0 < (matrix_t.empty voted_calculator.contents_count
                  voted_calculator.accounts_count).size1
              ∧ 1 < voted_calculator.p_vote_matrix.size2
              ∧ 1 < (matrix_t.empty voted_calculator.contents_count
                  voted_calculator.accounts_count).size1 then
            voted_calculator.p_vote_matrix.get 0 1
          else 0) :=
  ⟨rfl,
    calculate_content_matrix_get voted_calculator
      (matrix_t.empty voted_calculator.contents_count voted_calculator.accounts_count)
      voted_calculator.p_vote_matrix rfl 0 0,
    calculate_content_matrix_get voted_calculator
      (matrix_t.empty voted_calculator.contents_count voted_calculator.accounts_count)
      voted_calculator.p_vote_matrix rfl 0 1⟩

theorem filter_other_sum (l : account_id_map_t) (name : String) (v : Nat)
    (g : Nat → double_type) (hnodup : (l.map Prod.fst).Nodup) (hfind : l.find name = some v) :
    ((l.filter fun e => decide (e.1 ≠ name)).map fun e => g e.2).sum
      = ((l.map Prod.snd).map g).sum - g v := by
  induction l with
  | nil => simp [account_id_map_t.find] at hfind
  | cons e rest ih =>
    obtain ⟨k, x⟩ := e
    rw [List.map_cons, List.nodup_cons] at hnodup
    by_cases hk : k = name
    · subst hk
      have hv : x = v := by
        simpa [account_id_map_t.find, List.lookup] using hfind
      have hrest : (rest.filter fun e => decide (e.1 ≠ k)) = rest := by
        rw [List.filter_eq_self]
        intro e he
        have : e.1 ≠ k := fun h => hnodup.1 (by
          show k ∈ List.map Prod.fst rest
          rw [← h]
          exact List.mem_map_of_mem Prod.fst he)
        simpa using this
      rw [List.filter_cons]
      simp only [ne_eq, not_true_eq_false, decide_False, Bool.false_eq_true, if_false]
      simp only [ne_eq] at hrest
      rw [hrest, ← hv]
      simp [List.map_map, Function.comp_def]
    · have hb : (name == k) = false := by
        simpa using fun h : name = k => hk h.symm
      have hfind' : account_id_map_t.find rest name = some v := by
        simpa [account_id_map_t.find, List.lookup, hb] using hfind
      have := ih hnodup.2 hfind'
      rw [List.filter_cons]
      simp only [ne_eq, hk, not_false_eq_true, decide_True, if_true, List.map_cons,
        List.sum_cons]
      simp only [ne_eq] at this
      rw [this]
      ring

theorem map_mul_getD (v : vector_t) (k : double_type) (i : Nat) :
    (v.map fun x => x * k).getD i 0 = v.getD i 0 * k := by
  rw [List.getD_eq_getElem?_getD, List.getD_eq_getElem?_getD, List.getElem?_map]
  cases v[i]? with
  | none => simp
  | some x => simp

/-- C20: in the mode `PHANTOM_ACCOUNT` with more than one registered account, in a state whose
account ids are dense (the ids of the registered names are exactly `0, …, accounts_count - 1`)
and whose reserved account has the id `0`, the entry the rescaling reads: for every account
rank vector of length `accounts_count` without negative entries, with L1 norm one and whose
entry `0` is not one, after the rescaling by `1 / (1 - account_rank[0])` the scores in the
returned map of the accounts sum to exactly one. -/
theorem phantom_scores_sum (s : social_index_calculator) (account_rank content_rank : vector_t)
    (hmode : s.mode = calculation_mode.PHANTOM_ACCOUNT) (hmany : s.account_map.length > 1)
    (hdense : dense_registry s.account_map s.accounts_count)
    (hphantom : s.account_map.find s.reserved_account = some 0)
    (hlen : account_rank.length = s.accounts_count)
    (hnonneg : ∀ x ∈ account_rank, 0 ≤ x) (hnorm : norm_1 account_rank = 1)
    (hne : account_rank.getD 0 0 ≠ 1) :
    ((calculate_score s (rescale_phantom s account_rank) content_rank node_type.ACCOUNT).map
      Prod.snd).sum = 1 := by
  have hr : rescale_phantom s account_rank
      = account_rank.map fun x => x * (1 / (1 - account_rank.getD 0 0)) := by
    unfold rescale_phantom
    rw [if_pos ⟨hmode, hmany⟩]
  rw [hr]
  show (((s.account_map.filter fun e => decide (e.1 ≠ s.reserved_account)).map fun e =>
    (e.1, (account_rank.map fun x => x * (1 / (1 - account_rank.getD 0 0))).getD e.2 0)).map
      Prod.snd).sum = 1
  rw [List.map_map]
  have hfun : (Prod.snd ∘ fun e : String × Nat =>
      (e.1, (account_rank.map fun x => x * (1 / (1 - account_rank.getD 0 0))).getD e.2 0))
      = fun e => (fun i => account_rank.getD i 0 * (1 / (1 - account_rank.getD 0 0))) e.2 := by
    funext e
    exact map_mul_getD _ _ _
  rw [hfun]
  refine (filter_other_sum s.account_map s.reserved_account 0
    (fun i => account_rank.getD i 0 * (1 / (1 - account_rank.getD 0 0))) hdense.1
    hphantom).trans ?_
  rw [(hdense.2.map _).sum_eq, sum_map_range, ← Finset.sum_mul]
  rw [norm_1_of_nonneg _ hnonneg, vector_sum_eq, hlen] at hnorm
  rw [hnorm]
  have h1 : 1 - account_rank.getD 0 0 ≠ 0 := fun h => hne (by linarith)
  generalize account_rank.getD 0 0 = a at h1
  field_simp

/-- Witness of C20: the reserved account and two accounts, with the ranks `(1/2, 1/4, 1/4)`. -/
theorem phantom_scores_sum_witness :
    phantom_pair_calculator.mode = calculation_mode.PHANTOM_ACCOUNT
    ∧ phantom_pair_calculator.account_map.length > 1
    ∧ dense_registry phantom_pair_calculator.account_map phantom_pair_calculator.accounts_count
    ∧ phantom_pair_calculator.account_map.find phantom_pair_calculator.reserved_account = some 0
    ∧ ([1 / 2, 1 / 4, 1 / 4] : vector_t).length = phantom_pair_calculator.accounts_count
    ∧ (∀ x ∈ ([1 / 2, 1 / 4, 1 / 4] : vector_t), 0 ≤ x)
    ∧ norm_1 [1 / 2, 1 / 4, 1 / 4] = 1
    ∧ ([1 / 2, 1 / 4, 1 / 4] : vector_t).getD 0 0 ≠ 1
    ∧ ((calculate_score phantom_pair_calculator
          (rescale_phantom phantom_pair_calculator [1 / 2, 1 / 4, 1 / 4]) []
          node_type.ACCOUNT).map Prod.snd).sum = 1 := by
  have hdense : dense_registry phantom_pair_calculator.account_map
      phantom_pair_calculator.accounts_count := ⟨by decide, List.Perm.refl _⟩
  have hnonneg : ∀ x ∈ ([1 / 2, 1 / 4, 1 / 4] : vector_t), 0 ≤ x := by
    intro x hx
    simp only [List.mem_cons, List.mem_singleton, List.not_mem_nil, or_false] at hx
    rcases hx with rfl | rfl | rfl <;> norm_num
  have hnorm : norm_1 [1 / 2, 1 / 4, 1 / 4] = 1 := by
    norm_num [norm_1, abs_of_nonneg]
  have hne : ([1 / 2, 1 / 4, 1 / 4] : vector_t).getD 0 0 ≠ 1 := by
    norm_num
  exact ⟨rfl, by decide, hdense, rfl, rfl, hnonneg, hnorm, hne,
    phantom_scores_sum phantom_pair_calculator [1 / 2, 1 / 4, 1 / 4] [] rfl (by decide) hdense
      rfl rfl hnonneg hnorm hne⟩

/-- C20, in a state whose account ids are not dense: after the block in which `dave` trusts
`dave` was added to a calculator in the mode `PHANTOM_ACCOUNT` whose reserved account has the id
`0`, `dave` has the id `1` and `accounts_count` is `3`.  For the account rank vector
`(1/2, 1/4, 1/4)` the rescaling gives `(1, 1/2, 1/2)` and the returned map of the accounts is
`dave ↦ 1/2`: the scores sum to `1/2`, the share of the id `2` belongs to no name. -/
theorem phantom_scores_self_trust :
    add_block phantom_calculator [self_trust] = some trusted_calculator
    ∧ trusted_calculator.mode = calculation_mode.PHANTOM_ACCOUNT
    ∧ trusted_calculator.account_map.length > 1
    ∧ trusted_calculator.account_map.find trusted_calculator.reserved_account = some 0
    ∧ ([1 / 2, 1 / 4, 1 / 4] : vector_t).length = trusted_calculator.accounts_count
    ∧ (∀ x ∈ ([1 / 2, 1 / 4, 1 / 4] : vector_t), 0 ≤ x)
    ∧ norm_1 [1 / 2, 1 / 4, 1 / 4] = 1
    ∧ ([1 / 2, 1 / 4, 1 / 4] : vector_t).getD 0 0 ≠ 1
    ∧ calculate_score trusted_calculator
        (rescale_phantom trusted_calculator [1 / 2, 1 / 4, 1 / 4]) [] node_type.ACCOUNT
        = [("dave", 1 / 2)]
    ∧ ((calculate_score trusted_calculator
          (rescale_phantom trusted_calculator [1 / 2, 1 / 4, 1 / 4]) []
          node_type.ACCOUNT).map Prod.snd).sum = 1 / 2 := by
  have hnonneg : ∀ x ∈ ([1 / 2, 1 / 4, 1 / 4] : vector_t), 0 ≤ x := by
    intro x hx
    simp only [List.mem_cons, List.mem_singleton, List.not_mem_nil, or_false] at hx
    rcases hx with rfl | rfl | rfl <;> norm_num
  have hr : rescale_phantom trusted_calculator [1 / 2, 1 / 4, 1 / 4] = [1, 1 / 2, 1 / 2] := by
    unfold rescale_phantom
    rw [if_pos ⟨rfl, by decide⟩]
    norm_num
  have hs : calculate_score trusted_calculator [1, 1 / 2, 1 / 2] [] node_type.ACCOUNT
      = [("dave", 1 / 2)] := by
    simp [calculate_score, trusted_calculator, phantom_calculator, fresh_calculator,
      sample_calculator]
  refine ⟨rfl, rfl, by decide, rfl, rfl, hnonneg, by norm_num [norm_1, abs_of_nonneg],
    by norm_num, ?_, ?_⟩
  · rw [hr, hs]
  · rw [hr, hs]
    norm_num

/-! ## Claims on `calculate_score` and on the normalised matrix -/

theorem lookup_map_filter (l : account_id_map_t) (reserved name : String)
    (f : Nat → double_type) :
    List.lookup name ((l.filter fun e => decide (e.1 ≠ reserved)).map fun e => (e.1, f e.2))
      = if name = reserved then none else (l.find name).map f := by
  induction l with
  | nil => simp [account_id_map_t.find]
  | cons e rest ih =>
    obtain ⟨k, v⟩ := e
    by_cases hk : k = reserved
    · subst hk
      rw [List.filter_cons]
      simp only [ne_eq, not_true_eq_false, decide_False, Bool.false_eq_true, if_false]
      simp only [ne_eq] at ih
      rw [ih]
      by_cases hn : name = k
      · simp [hn]
      · have hb : (name == k) = false := by simpa using hn
        simp [hn, account_id_map_t.find, List.lookup, hb]
    · rw [List.filter_cons]
      simp only [ne_eq, hk, not_false_eq_true, decide_True, if_true, List.map_cons]
      simp only [ne_eq] at ih
      by_cases hn : name = k
      · subst hn
        simp [hk, account_id_map_t.find, List.lookup]
      · have hb : (name == k) = false := by simpa using hn
        simp only [List.lookup, hb, ih]
        simp [account_id_map_t.find, List.lookup, hb]

theorem lookup_map_entries (l : account_id_map_t) (name : String) (f : Nat → double_type) :
    List.lookup name (l.map fun e => (e.1, f e.2)) = (l.find name).map f := by
  induction l with
  | nil => simp [account_id_map_t.find]
  | cons e rest ih =>
    obtain ⟨k, v⟩ := e
    by_cases hn : name = k
    · subst hn
      simp [account_id_map_t.find, List.lookup]
    · have hb : (name == k) = false := by simpa using hn
      simp only [List.map_cons, List.lookup, hb, ih]
      simp [account_id_map_t.find, List.lookup, hb]

/-- C21: for every account rank vector and content rank vector the map returned by
`calculate_score` has exactly the keys `ACCOUNT` and `CONTENT`.  The names of its `ACCOUNT` map
are the names of `account_map` other than `reserved_account`, and a name registered with the id
`id` is mapped to `account_rank[id]`; the names of its `CONTENT` map are the names of
`content_map`, and a name registered with the id `id` is mapped to `content_rank[id]`. -/
theorem calculate_score_entries (s : social_index_calculator)
    (account_rank content_rank : vector_t) :
    (calculate_score_result s account_rank content_rank).map Prod.fst
        = [node_type.ACCOUNT, node_type.CONTENT]
    ∧ (∀ kind, List.lookup kind (calculate_score_result s account_rank content_rank)
        = some (calculate_score s account_rank content_rank kind))
    ∧ (calculate_score s account_rank content_rank node_type.ACCOUNT).map Prod.fst
        = (s.account_map.map Prod.fst).filter (fun name => decide (name ≠ s.reserved_account))
    ∧ (∀ name, List.lookup name (calculate_score s account_rank content_rank node_type.ACCOUNT)
        = if name = s.reserved_account then none
          else (s.account_map.find name).map fun id => account_rank.getD id 0)
    ∧ (calculate_score s account_rank content_rank node_type.CONTENT).map Prod.fst
        = s.content_map.map Prod.fst
    ∧ (∀ name, List.lookup name (calculate_score s account_rank content_rank node_type.CONTENT)
        = (s.content_map.find name).map fun id => content_rank.getD id 0) := by
  refine ⟨rfl, fun kind => ?_, ?_,
    fun name => lookup_map_filter s.account_map s.reserved_account name
      (fun id => account_rank.getD id 0), ?_,
    fun name => lookup_map_entries s.content_map name (fun id => content_rank.getD id 0)⟩
  · cases kind <;> rfl
  · simp only [calculate_score, List.map_map, List.filter_map]
    rfl
  · simp only [calculate_score, List.map_map]
    rfl

theorem normalize_columns_entry (m : matrix_t) (a : additional_matrices_vector) :
    ∃ corr : vector_based_matrix,
      (normalize_columns m a).2 = a ++ [corr]
      ∧ ∀ i j, i < m.size1 → j < m.size2 →
          (normalize_columns m a).1.get i j + corr.get i j
            = (m.get i j + m.column_c j) * m.column_scale j := by
  obtain ⟨corr, h1, h2, _, h4⟩ := normalize_columns_additional m a
  refine ⟨corr, h1, fun i j hi hj => ?_⟩
  rw [normalize_columns_get m a i j hi hj, vector_based_matrix.get, h2, h4 j hj]
  have : (List.replicate m.size1 (1 : double_type)).getD i 0 = 1 := by
    simp [List.getD_eq_getElem?_getD, List.getElem?_replicate, hi]
  rw [this]
  ring

/-- C26: for every `n × n` matrix none of whose columns has the divisor `sum_j + n · c_j = 0`,
after `normalize_columns` every effective entry, the scaled cell of the matrix (zero where the
cell is absent) plus the value of the new correction matrix in that cell, is non-negative,
whatever the signs of the weights are, and the effective entries of every column sum to one. -/
theorem normalize_columns_stochastic (m : matrix_t) (a : additional_matrices_vector) (n : Nat)
    (hsize1 : m.size1 = n) (hsize2 : m.size2 = n)
    (hdivisor : ∀ j, j < n → m.column_divisor j ≠ 0) :
    ∃ corr : vector_based_matrix,
      (normalize_columns m a).2 = a ++ [corr]
      ∧ (∀ i j, i < n → j < n → 0 ≤ (normalize_columns m a).1.get i j + corr.get i j)
      ∧ (∀ j, j < n →
          ((List.range n).map fun i =>
            (normalize_columns m a).1.get i j + corr.get i j).sum = 1) := by
  obtain ⟨corr, h1, h2⟩ := normalize_columns_entry m a
  have hsq : m.size1 = m.size2 := hsize1.trans hsize2.symm
  refine ⟨corr, h1, fun i j hi hj => ?_, fun j hj => ?_⟩
  · rw [h2 i j (by rw [hsize1]; exact hi) (by rw [hsize2]; exact hj)]
    refine mul_nonneg (get_add_c_nonneg m j i (by rw [hsize1]; exact hi)) ?_
    unfold matrix_t.column_scale
    exact div_nonneg zero_le_one (column_divisor_nonneg m j hsq)
  · rw [sum_map_range]
    have he : ∀ i ∈ Finset.range n,
        (normalize_columns m a).1.get i j + corr.get i j
          = (m.get i j + m.column_c j) * m.column_scale j :=
      fun i hi => h2 i j (by rw [hsize1]; exact Finset.mem_range.mp hi) (by rw [hsize2]; exact hj)
    rw [Finset.sum_congr rfl he, ← Finset.sum_mul]
    have hd := column_divisor_eq_sum m j hsq
    rw [hsize1] at hd
    rw [← hd, matrix_t.column_scale]
    have := hdivisor j hj
    field_simp

/-- Witness of C26 at a `2 × 2` matrix with the negative column `(-1, 3)` and an empty column. -/
theorem normalize_columns_stochastic_witness :
    signed_matrix.size1 = 2 ∧ signed_matrix.size2 = 2
    ∧ signed_matrix.get 0 0 = -1
    ∧ (∀ j, j < 2 → signed_matrix.column_divisor j ≠ 0)
    ∧ ∃ corr : vector_based_matrix,
      (normalize_columns signed_matrix []).2 = [] ++ [corr]
      ∧ (∀ i j, i < 2 → j < 2 → 0 ≤ (normalize_columns signed_matrix []).1.get i j + corr.get i j)
      ∧ (∀ j, j < 2 →
          ((List.range 2).map fun i =>
            (normalize_columns signed_matrix []).1.get i j + corr.get i j).sum = 1) := by
  have hsum : ∀ j, j < 2 → signed_matrix.column_sum j = if j = 0 then 2 else 0 := by
    intro j hj
    rw [column_sum_eq]
    interval_cases j <;> norm_num [signed_matrix, matrix_t.get, Finset.sum_range_succ]
  have hmin : ∀ j, j < 2 → signed_matrix.column_min j = if j = 0 then -1 else 0 := by
    intro j hj
    interval_cases j
    · simp [matrix_t.column_min, matrix_t.column, signed_matrix, List.range_succ,
        List.filterMap_cons]
      norm_num
    · simp [matrix_t.column_min, matrix_t.column, signed_matrix, List.range_succ,
        List.filterMap_cons]
  have hd : ∀ j, j < 2 → signed_matrix.column_divisor j ≠ 0 := by
    intro j hj
    unfold matrix_t.column_divisor matrix_t.column_c
    rw [hsum j hj, hmin j hj]
    interval_cases j <;> norm_num [signed_matrix]
  exact ⟨rfl, rfl, by norm_num [signed_matrix, matrix_t.get], hd,
    normalize_columns_stochastic signed_matrix [] 2 rfl rfl hd⟩

/-- A column without negative entry is not a column of equal negative values. -/
theorem nonneg_column_not_negative (m : matrix_t) (n j : Nat) (hn : 0 < n)
    (h : ∀ i, i < n → 0 ≤ m.get i j) :
    ¬ ∃ v : double_type, v < 0 ∧ ∀ i, i < n → m.get i j = v := by
  rintro ⟨v, hv, hall⟩
  have h0 := h 0 hn
  rw [hall 0 hn] at h0
  linarith

theorem norm_1_nonneg (v : vector_t) : 0 ≤ norm_1 v := by
  unfold norm_1
  exact List.sum_nonneg fun x hx => by
    obtain ⟨y, _, rfl⟩ := List.mem_map.mp hx
    exact abs_nonneg y

theorem vector_add_sum (a b : vector_t) (h : a.length = b.length) :
    (vector_add a b).sum = a.sum + b.sum ∧ (vector_add a b).length = b.length := by
  induction a generalizing b with
  | nil =>
    cases b with
    | nil => simp [vector_add]
    | cons y ys => simp at h
  | cons x xs ih =>
    cases b with
    | nil => simp at h
    | cons y ys =>
      obtain ⟨h1, h2⟩ := ih ys (by simpa using h)
      unfold vector_add at h1 h2 ⊢
      refine ⟨?_, by simp [h2]⟩
      rw [List.zipWith_cons_cons, List.sum_cons, List.sum_cons, List.sum_cons, h1]
      ring

theorem vector_times_sum (v : vector_t) (c : double_type) :
    (vector_times v c).sum = v.sum * c ∧ (vector_times v c).length = v.length := by
  unfold vector_times
  refine ⟨?_, List.length_map _ _⟩
  induction v with
  | nil => simp
  | cons x xs ih =>
    rw [List.map_cons, List.sum_cons, List.sum_cons, ih]
    ring

theorem create_default_initial_vector_sum (s : social_index_calculator)
    (h : s.accounts_count ≠ 0) :
    (create_default_initial_vector s).sum = 1
    ∧ (create_default_initial_vector s).length = s.accounts_count := by
  unfold create_default_initial_vector
  refine ⟨?_, List.length_replicate _ _⟩
  rw [List.sum_replicate, nsmul_eq_mul]
  have : (s.accounts_count : double_type) ≠ 0 := Nat.cast_ne_zero.mpr h
  field_simp

theorem share_sum (v : vector_t) (share : double_type)
    (h : (∀ x ∈ v, 0 ≤ x) ∧ (norm_1 v = 0 ∨ norm_1 v = 1)) :
    v.sum * (if norm_1 v > 0 then share else 0) = if norm_1 v > 0 then share else 0 := by
  rcases h.2 with h0 | h1
  · rw [if_neg (by rw [h0]; exact lt_irrefl _), mul_zero]
  · rw [← norm_1_of_nonneg v h.1, h1, one_mul]

/-- C24: the three shares of the composite initial vector of `calculate` sum to one: the stack
share is `parameters.stack_contribution` when the L1 norm of the stack vector is not zero and
`0` otherwise, the weight share is `parameters.weight_contribution` when the L1 norm of the
priority vector is not zero and `0` otherwise, and the uniform share is one minus the two.
When at least one account is registered and the stack vector and the priority vector, of length
`accounts_count`, have no negative entry and an L1 norm of zero or one, the entries of the
composite initial vector sum to exactly one. -/
theorem initial_vector_sum (s : social_index_calculator)
    (priority_vector stack_vector : vector_t) :
    stack_contribution s stack_vector + weight_contribution s priority_vector
        + const_contribution s priority_vector stack_vector = 1
    ∧ stack_contribution s stack_vector
        = (if norm_1 stack_vector ≠ 0 then s.parameters.stack_contribution else 0)
    ∧ weight_contribution s priority_vector
        = (if norm_1 priority_vector ≠ 0 then s.parameters.weight_contribution else 0)
    ∧ const_contribution s priority_vector stack_vector
        = 1 - stack_contribution s stack_vector - weight_contribution s priority_vector
    ∧ (s.accounts_count ≠ 0 →
        priority_vector.length = s.accounts_count →
        stack_vector.length = s.accounts_count →
        ((∀ x ∈ priority_vector, 0 ≤ x)
          ∧ (norm_1 priority_vector = 0 ∨ norm_1 priority_vector = 1)) →
        ((∀ x ∈ stack_vector, 0 ≤ x)
          ∧ (norm_1 stack_vector = 0 ∨ norm_1 stack_vector = 1)) →
        (initial_vector s priority_vector stack_vector).sum = 1) := by
  have hpos : ∀ v : vector_t, norm_1 v > 0 ↔ norm_1 v ≠ 0 := fun v =>
    ⟨fun h => ne_of_gt h, fun h => lt_of_le_of_ne (norm_1_nonneg v) (Ne.symm h)⟩
  refine ⟨?_, ?_, ?_, rfl, fun hcount hplen hslen hp hs => ?_⟩
  · unfold const_contribution
    ring
  · unfold stack_contribution
    simp only [hpos]
  · unfold weight_contribution
    simp only [hpos]
  · obtain ⟨hd1, hd2⟩ := create_default_initial_vector_sum s hcount
    have t1 := vector_times_sum (create_default_initial_vector s)
      (const_contribution s priority_vector stack_vector)
    have t2 := vector_times_sum priority_vector (weight_contribution s priority_vector)
    have t3 := vector_times_sum stack_vector (stack_contribution s stack_vector)
    have a1 := vector_add_sum _ _ ((t1.2.trans hd2).trans (t2.2.trans hplen).symm)
    have a2 := vector_add_sum _ _ ((a1.2.trans (t2.2.trans hplen)).trans (t3.2.trans hslen).symm)
    unfold initial_vector
    rw [a2.1, a1.1, t1.1, t2.1, t3.1, hd1]
    have e2 := share_sum priority_vector s.parameters.weight_contribution hp
    have e3 := share_sum stack_vector s.parameters.stack_contribution hs
    unfold const_contribution
    unfold weight_contribution stack_contribution
    rw [e2, e3]
    ring

/-- Witness of C24: the stakes `3` and `1` give the stack vector `(3/4, 1/4)`; with the priority
vector `(0, 1)` the shares are `1/2`, `1/4` and `1/4`. -/
theorem initial_vector_sum_witness :
    funded_calculator.accounts_count ≠ 0
    ∧ create_stack_vector funded_calculator = [3 / 4, 1 / 4]
    ∧ ([0, 1] : vector_t).length = funded_calculator.accounts_count
    ∧ ([3 / 4, 1 / 4] : vector_t).length = funded_calculator.accounts_count
    ∧ ((∀ x ∈ ([0, 1] : vector_t), 0 ≤ x) ∧ (norm_1 [0, 1] = 0 ∨ norm_1 [0, 1] = 1))
    ∧ ((∀ x ∈ ([3 / 4, 1 / 4] : vector_t), 0 ≤ x)
        ∧ (norm_1 [3 / 4, 1 / 4] = 0 ∨ norm_1 [3 / 4, 1 / 4] = 1))
    ∧ (initial_vector funded_calculator [0, 1] [3 / 4, 1 / 4]).sum = 1 := by
  have hfill : fill_vector funded_calculator.account_map funded_calculator.stack_map
      (List.replicate funded_calculator.accounts_count 0) = [3, 1] := rfl
  have hstack : create_stack_vector funded_calculator = [3 / 4, 1 / 4] := by
    unfold create_stack_vector renormalize
    rw [hfill, if_pos (by norm_num [norm_1, abs_of_nonneg])]
    norm_num [norm_1, abs_of_nonneg]
  have hp : (∀ x ∈ ([0, 1] : vector_t), 0 ≤ x) ∧ (norm_1 [0, 1] = 0 ∨ norm_1 [0, 1] = 1) := by
    refine ⟨?_, Or.inr (by norm_num [norm_1])⟩
    intro x hx
    simp only [List.mem_cons, List.mem_singleton, List.not_mem_nil, or_false] at hx
    rcases hx with rfl | rfl <;> norm_num
  have hs : (∀ x ∈ ([3 / 4, 1 / 4] : vector_t), 0 ≤ x)
      ∧ (norm_1 [3 / 4, 1 / 4] = 0 ∨ norm_1 [3 / 4, 1 / 4] = 1) := by
    refine ⟨?_, Or.inr (by norm_num [norm_1, abs_of_nonneg])⟩
    intro x hx
    simp only [List.mem_cons, List.mem_singleton, List.not_mem_nil, or_false] at hx
    rcases hx with rfl | rfl <;> norm_num
  exact ⟨by decide, hstack, rfl, rfl, hp, hs,
    (initial_vector_sum funded_calculator [0, 1] [3 / 4, 1 / 4]).2.2.2.2 (by decide) rfl rfl
      hp hs⟩

/-- C24, with a negative stake: the stakes `1` of `alice` and `-1` of `bob` give the stack vector
`(1/2, -1/2)`, whose L1 norm is one and whose entries sum to zero; with the stack contribution
`1/2` and the priority vector `(0, 0)`, whose L1 norm is zero, the shares are `1/2`, `0` and
`1/2`, and the composite initial vector is `(1/2, 0)`: its entries sum to `1/2`. -/
theorem initial_vector_negative_stake :
    staked_calculator.accounts_count = 2
    ∧ create_stack_vector staked_calculator = [1 / 2, -1 / 2]
    ∧ norm_1 [1 / 2, -1 / 2] = 1 ∧ ([1 / 2, -1 / 2] : vector_t).sum = 0
    ∧ norm_1 [0, 0] = 0
    ∧ stack_contribution staked_calculator [1 / 2, -1 / 2] = 1 / 2
    ∧ weight_contribution staked_calculator [0, 0] = 0
    ∧ const_contribution staked_calculator [0, 0] [1 / 2, -1 / 2] = 1 / 2
    ∧ initial_vector staked_calculator [0, 0] [1 / 2, -1 / 2] = [1 / 2, 0]
    ∧ (initial_vector staked_calculator [0, 0] [1 / 2, -1 / 2]).sum = 1 / 2 := by
  have hfill : fill_vector staked_calculator.account_map staked_calculator.stack_map
      (List.replicate staked_calculator.accounts_count 0) = [1, -1] := rfl
  have hstack : create_stack_vector staked_calculator = [1 / 2, -1 / 2] := by
    unfold create_stack_vector renormalize
    rw [hfill, if_pos (by norm_num [norm_1, abs_of_nonneg])]
    norm_num [norm_1, abs_of_nonneg]
  have hn : norm_1 [1 / 2, -1 / 2] = 1 := by
    norm_num [norm_1, abs_of_nonneg, abs_of_neg]
  have hs : stack_contribution staked_calculator [1 / 2, -1 / 2] = 1 / 2 := by
    unfold stack_contribution
    rw [hn, if_pos one_pos]
    rfl
  have hw : weight_contribution staked_calculator [0, 0] = 0 := by
    unfold weight_contribution
    rw [if_neg (by norm_num [norm_1])]
  have hc : const_contribution staked_calculator [0, 0] [1 / 2, -1 / 2] = 1 / 2 := by
    unfold const_contribution
    rw [hs, hw]
    norm_num
  have hi : initial_vector staked_calculator [0, 0] [1 / 2, -1 / 2] = [1 / 2, 0] := by
    unfold initial_vector
    rw [hc, hs, hw]
    norm_num [vector_add, vector_times, create_default_initial_vector, staked_calculator,
      sample_calculator, List.replicate]
  refine ⟨rfl, hstack, hn, by norm_num, by norm_num [norm_1], hs, hw, hc, hi, ?_⟩
  rw [hi]
  norm_num

/-! ## Claims on `set_diagonal_elements` and on the first statement of `calculate` -/

theorem diagonal_fold (m : matrix_t) (n : Nat) :
    ((List.range n).foldl (fun acc i => acc.set i i (acc.get i i + 1)) m).size1 = m.size1
    ∧ ((List.range n).foldl (fun acc i => acc.set i i (acc.get i i + 1)) m).size2 = m.size2
    ∧ ∀ a b,
        ((List.range n).foldl (fun acc i => acc.set i i (acc.get i i + 1)) m).data a b
          = if a = b ∧ a < n then some (m.get a a + 1) else m.data a b := by
  induction n with
  | zero => simp
  | succ n ih =>
    obtain ⟨h1, h2, h3⟩ := ih
    rw [List.range_succ, List.foldl_append]
    refine ⟨h1, h2, fun a b => ?_⟩
    have hg : ((List.range n).foldl (fun acc i => acc.set i i (acc.get i i + 1)) m).get n n
        = m.get n n := by
      show (Option.getD _ 0) = Option.getD _ 0
      rw [h3 n n, if_neg fun hc => absurd hc.2 (lt_irrefl n)]
    show (if a = n ∧ b = n then
        some (((List.range n).foldl (fun acc i => acc.set i i (acc.get i i + 1)) m).get n n + 1)
      else ((List.range n).foldl (fun acc i => acc.set i i (acc.get i i + 1)) m).data a b) = _
    rw [hg, h3 a b]
    by_cases hab : a = n ∧ b = n
    · obtain ⟨rfl, rfl⟩ := hab
      simp
    · rw [if_neg hab]
      by_cases hd : a = b ∧ a < n
      · rw [if_pos hd, if_pos ⟨hd.1, by omega⟩]
      · rw [if_neg hd, if_neg]
        rintro ⟨rfl, hlt⟩
        exact hd ⟨rfl, by
          have : a ≠ n := fun h => hab ⟨h, h⟩
          omega⟩

theorem collapse_row_size (in1 in2 out : matrix_t) (i : Nat) :
    (collapse_row in1 in2 out i).size1 = out.size1
    ∧ (collapse_row in1 in2 out i).size2 = out.size2 := by
  unfold collapse_row
  induction (List.range in2.size2) generalizing out with
  | nil => exact ⟨rfl, rfl⟩
  | cons j js ih =>
    rw [List.foldl_cons]
    split_ifs
    · exact ih (out.set i j (collapse_cell in1 in2 i j))
    · exact ih out

theorem collapse_matrix_size (out in1 in2 : matrix_t) :
    (collapse_matrix out in1 in2).size1 = out.size1
    ∧ (collapse_matrix out in1 in2).size2 = out.size2 := by
  unfold collapse_matrix
  induction (List.range in1.size1) generalizing out with
  | nil => exact ⟨rfl, rfl⟩
  | cons i is ih =>
    rw [List.foldl_cons]
    exact ⟨(ih _).1.trans (collapse_row_size in1 in2 out i).1,
      (ih _).2.trans (collapse_row_size in1 in2 out i).2⟩

/-- C25: `set_diagonal_elements` throws exactly when the matrix is not square.  Then it throws
the `runtime_exception` "A square matrix is expected", no cell of the matrix is changed, and
`calculate`, which calls it in the mode `DIAGONAL`, is left with that exception.  For a square
matrix nothing is thrown, every diagonal cell `m(i, i)` with `i < size1` holds its old value
plus one, and every other cell and both dimensions are as before. -/
theorem set_diagonal_elements_spec (m : matrix_t) (s : social_index_calculator)
    (f : calculate_callees) :
    (m.size1 ≠ m.size2 →
      set_diagonal_elements m
        = (Except.error (exception.runtime_exception "A square matrix is expected"), m))
    ∧ (m.size1 = m.size2 →
      (set_diagonal_elements m).1 = Except.ok ()
      ∧ (set_diagonal_elements m).2.size1 = m.size1
      ∧ (set_diagonal_elements m).2.size2 = m.size2
      ∧ (∀ i, i < m.size1 → (set_diagonal_elements m).2.get i i = m.get i i + 1)
      ∧ (∀ i j, i ≠ j → (set_diagonal_elements m).2.data i j = m.data i j)
      ∧ (∀ i, m.size1 ≤ i → (set_diagonal_elements m).2.data i i = m.data i i))
    ∧ ((∃ e, (set_diagonal_elements m).1 = Except.error e) ↔ m.size1 ≠ m.size2)
    ∧ (s.accounts_count ≠ 0 → s.mode = calculation_mode.DIAGONAL →
      (collapsed_matrix s f).size1 ≠ (collapsed_matrix s f).size2 →
      calculate s f
        = (Except.error (exception.runtime_exception "A square matrix is expected"), s)) := by
  refine ⟨fun h => ?_, fun h => ?_, ⟨fun h => ?_, fun h => ?_⟩, fun hc hm hs => ?_⟩
  · unfold set_diagonal_elements
    rw [if_pos h]
  · have he : set_diagonal_elements m
        = (Except.ok (),
            (List.range m.size1).foldl (fun acc i => acc.set i i (acc.get i i + 1)) m) := by
      unfold set_diagonal_elements
      rw [if_neg (not_not.mpr h)]
    obtain ⟨h1, h2, h3⟩ := diagonal_fold m m.size1
    rw [he]
    refine ⟨rfl, h1, h2, fun i hi => ?_, fun i j hij => ?_, fun i hi => ?_⟩
    · show (Option.getD _ 0) = _
      rw [h3 i i, if_pos ⟨rfl, hi⟩]
      rfl
    · rw [h3 i j, if_neg fun hc => hij hc.1]
    · rw [h3 i i, if_neg fun hc => absurd hc.2 (by omega)]
  · by_contra hsq
    obtain ⟨e, he⟩ := h
    unfold set_diagonal_elements at he
    rw [if_neg (not_not.mpr hsq)] at he
    cases he
  · refine ⟨exception.runtime_exception "A square matrix is expected", ?_⟩
    unfold set_diagonal_elements
    rw [if_pos h]
  · unfold calculate
    rw [if_neg hc]
    simp only [hm, if_true]
    unfold set_diagonal_elements
    rw [if_pos hs]

/-- Witness of C25: a `2 × 4` matrix, the square `sample_matrix`, and `calculate` in the mode
`DIAGONAL` on a state whose ownership matrix has `2` rows while the vote matrix has `4`
columns. -/
theorem set_diagonal_elements_spec_witness :
    (matrix_t.empty 2 4).size1 ≠ (matrix_t.empty 2 4).size2
    ∧ set_diagonal_elements (matrix_t.empty 2 4)
        = (Except.error (exception.runtime_exception "A square matrix is expected"),
            matrix_t.empty 2 4)
    ∧ sample_matrix.size1 = sample_matrix.size2
    ∧ (set_diagonal_elements sample_matrix).1 = Except.ok ()
    ∧ (set_diagonal_elements sample_matrix).2.get 0 0 = 2
    ∧ (set_diagonal_elements sample_matrix).2.get 1 1 = 1
    ∧ (set_diagonal_elements sample_matrix).2.data 1 0 = some 3
    ∧ lopsided_calculator.accounts_count ≠ 0
    ∧ lopsided_calculator.mode = calculation_mode.DIAGONAL
    ∧ (collapsed_matrix lopsided_calculator sample_callees).size1
        ≠ (collapsed_matrix lopsided_calculator sample_callees).size2
    ∧ calculate lopsided_calculator sample_callees
        = (Except.error (exception.runtime_exception "A square matrix is expected"),
            lopsided_calculator) := by
  have hwide : (matrix_t.empty 2 4).size1 ≠ (matrix_t.empty 2 4).size2 := by decide
  have hsize : (collapsed_matrix lopsided_calculator sample_callees).size1
      ≠ (collapsed_matrix lopsided_calculator sample_callees).size2 := by
    unfold collapsed_matrix
    rw [(collapse_matrix_size _ _ _).1, (collapse_matrix_size _ _ _).2]
    decide
  have hsquare := (set_diagonal_elements_spec sample_matrix lopsided_calculator
    sample_callees).2.1 rfl
  refine ⟨hwide,
    (set_diagonal_elements_spec (matrix_t.empty 2 4) lopsided_calculator sample_callees).1 hwide,
    rfl, hsquare.1, ?_, ?_, ?_, by decide, rfl, hsize,
    (set_diagonal_elements_spec (matrix_t.empty 2 4) lopsided_calculator
      sample_callees).2.2.2 (by decide) rfl hsize⟩
  · rw [hsquare.2.2.2.1 0 (by decide)]
    norm_num [sample_matrix, matrix_t.get]
  · rw [hsquare.2.2.2.1 1 (by decide)]
    norm_num [sample_matrix, matrix_t.get]
  · rw [hsquare.2.2.2.2.1 1 0 (by decide)]
    simp [sample_matrix]

/-- C27: when `accounts_count` is zero, `calculate` returns the empty map, which has neither an
entry for `ACCOUNT` nor one for `CONTENT`, whatever the functions it would call do, and the
state is as before.  The empty map is returned in no other case, and no call of `calculate`
changes the state. -/
theorem calculate_without_accounts (s : social_index_calculator) (f : calculate_callees) :
    (s.accounts_count = 0 →
      calculate s f = (Except.ok [], s)
      ∧ ∀ kind result, (calculate s f).1 = Except.ok result → List.lookup kind result = none)
    ∧ ((calculate s f).1 = Except.ok [] → s.accounts_count = 0)
    ∧ (calculate s f).2 = s := by
  refine ⟨fun h => ?_, fun h => ?_, ?_⟩
  · have he : calculate s f = (Except.ok [], s) := by
      unfold calculate
      rw [if_pos h]
    refine ⟨he, fun kind result hr => ?_⟩
    rw [he] at hr
    cases hr
    rfl
  · by_contra hc
    unfold calculate at h
    rw [if_neg hc] at h
    simp only [] at h
    split at h
    · cases h
    · simp [calculate_score_result] at h
  · unfold calculate
    by_cases hc : s.accounts_count = 0
    · rw [if_pos hc]
    · rw [if_neg hc]
      simp only []
      split <;> rfl

/-- Witness of C27: the calculator with empty registries. -/
theorem calculate_without_accounts_witness :
    fresh_calculator.accounts_count = 0
    ∧ calculate fresh_calculator sample_callees = (Except.ok [], fresh_calculator)
    ∧ (∀ kind result, (calculate fresh_calculator sample_callees).1 = Except.ok result →
        List.lookup kind result = none) :=
  ⟨rfl, ((calculate_without_accounts fresh_calculator sample_callees).1 rfl).1,
    ((calculate_without_accounts fresh_calculator sample_callees).1 rfl).2⟩

/-! ## Claims on `collapse_matrix` -/

theorem foldl_max_facts (l : List double_type) (a : double_type) :
    a ≤ l.foldl max a ∧ (∀ x ∈ l, x ≤ l.foldl max a) ∧ (l.foldl max a = a ∨ l.foldl max a ∈ l) := by
  induction l generalizing a with
  | nil => exact ⟨le_refl _, fun x hx => absurd hx (List.not_mem_nil x), Or.inl rfl⟩
  | cons y ys ih =>
    rw [List.foldl_cons]
    obtain ⟨h1, h2, h3⟩ := ih (max a y)
    refine ⟨le_trans (le_max_left a y) h1, fun x hx => ?_, ?_⟩
    · rcases List.mem_cons.mp hx with rfl | hx
      · exact le_trans (le_max_right a x) h1
      · exact h2 x hx
    · rcases h3 with h3 | h3
      · rcases max_choice a y with hm | hm
        · exact Or.inl (h3.trans hm)
        · exact Or.inr (by rw [h3, hm]; exact List.mem_cons_self y ys)
      · exact Or.inr (List.mem_cons_of_mem y h3)

theorem collapse_cell_fold (in1 in2 : matrix_t) (i j n : Nat) :
    (in1.row_elements i n).foldl
        (fun x e => if e.2.2 * in2.get e.2.1 j > x then e.2.2 * in2.get e.2.1 j else x) 0
      = ((List.range n).map fun k => in1.get i k * in2.get k j).foldl max 0 := by
  induction n with
  | zero => rfl
  | succ n ih =>
    rw [row_elements_succ, List.foldl_append, ih, List.range_succ, List.map_append,
      List.foldl_append]
    have hnn := (foldl_max_facts ((List.range n).map fun k => in1.get i k * in2.get k j) 0).1
    cases hd : in1.data i n with
    | none =>
      have hg : in1.get i n = 0 := by simp [matrix_t.get, hd]
      simp only [Option.map_none', Option.toList_none, List.foldl_nil, List.map_cons,
        List.map_nil, List.foldl_cons, hg, zero_mul]
      exact (max_eq_left hnn).symm
    | some v =>
      have hg : in1.get i n = v := by simp [matrix_t.get, hd]
      simp only [Option.map_some', Option.toList_some, List.foldl_cons, List.foldl_nil,
        List.map_cons, List.map_nil, hg]
      split_ifs with h
      · exact (max_eq_right (le_of_lt h)).symm
      · exact (max_eq_left (not_lt.mp h)).symm

theorem collapse_cell_eq (in1 in2 : matrix_t) (i j : Nat) :
    collapse_cell in1 in2 i j = max_product in1 in2 i j :=
  collapse_cell_fold in1 in2 i j in1.size2

theorem collapse_row_fold (in1 in2 out : matrix_t) (i n a b : Nat) :
    ((List.range n).foldl
        (fun acc j => if collapse_cell in1 in2 i j > 0 then
            acc.set i j (collapse_cell in1 in2 i j) else acc) out).get a b
      = if a = i ∧ b < n ∧ collapse_cell in1 in2 i b > 0 then collapse_cell in1 in2 i b
        else out.get a b := by
  induction n with
  | zero => simp
  | succ n ih =>
    rw [List.range_succ, List.foldl_append, List.foldl_cons, List.foldl_nil]
    by_cases hp : collapse_cell in1 in2 i n > 0
    · rw [if_pos hp]
      show (Option.getD (if a = i ∧ b = n then some (collapse_cell in1 in2 i n) else _) 0) = _
      by_cases hab : a = i ∧ b = n
      · obtain ⟨rfl, rfl⟩ := hab
        simp [hp]
      · rw [if_neg hab]
        have := ih
        unfold matrix_t.get at this
        rw [this]
        have hiff : (a = i ∧ b < n + 1 ∧ collapse_cell in1 in2 i b > 0)
            ↔ (a = i ∧ b < n ∧ collapse_cell in1 in2 i b > 0) := by
          constructor
          · rintro ⟨h1, h2, h3⟩
            exact ⟨h1, by have : b ≠ n := fun h => hab ⟨h1, h⟩; omega, h3⟩
          · rintro ⟨h1, h2, h3⟩
            exact ⟨h1, by omega, h3⟩
        simp only [hiff]
        rfl
    · rw [if_neg hp, ih]
      have hiff : (a = i ∧ b < n + 1 ∧ collapse_cell in1 in2 i b > 0)
          ↔ (a = i ∧ b < n ∧ collapse_cell in1 in2 i b > 0) := by
        constructor
        · rintro ⟨h1, h2, h3⟩
          refine ⟨h1, ?_, h3⟩
          have : b ≠ n := fun h => hp (h ▸ h3)
          omega
        · rintro ⟨h1, h2, h3⟩
          exact ⟨h1, by omega, h3⟩
      simp only [hiff]

theorem collapse_row_get (in1 in2 out : matrix_t) (i a b : Nat) :
    (collapse_row in1 in2 out i).get a b
      = if a = i ∧ b < in2.size2 ∧ collapse_cell in1 in2 i b > 0 then collapse_cell in1 in2 i b
        else out.get a b :=
  collapse_row_fold in1 in2 out i in2.size2 a b

theorem collapse_matrix_fold (in1 in2 out : matrix_t) (m a b : Nat) :
    ((List.range m).foldl (collapse_row in1 in2) out).get a b
      = if a < m ∧ b < in2.size2 ∧ collapse_cell in1 in2 a b > 0 then collapse_cell in1 in2 a b
        else out.get a b := by
  induction m with
  | zero => simp
  | succ m ih =>
    rw [List.range_succ, List.foldl_append, List.foldl_cons, List.foldl_nil]
    rw [collapse_row_get, ih]
    by_cases ha : a = m
    · subst ha
      by_cases hc : b < in2.size2 ∧ collapse_cell in1 in2 a b > 0
      · rw [if_pos ⟨rfl, hc⟩, if_pos ⟨Nat.lt_succ_self a, hc⟩]
      · rw [if_neg fun h => hc h.2, if_neg fun h => absurd h.1 (lt_irrefl a),
          if_neg fun h => hc h.2]
    · rw [if_neg fun h => ha h.1]
      have hiff : (a < m + 1 ∧ b < in2.size2 ∧ collapse_cell in1 in2 a b > 0)
          ↔ (a < m ∧ b < in2.size2 ∧ collapse_cell in1 in2 a b > 0) := by
        constructor
        · rintro ⟨h1, h2⟩
          exact ⟨by omega, h2⟩
        · rintro ⟨h1, h2⟩
          exact ⟨by omega, h2⟩
      simp only [hiff]

/-- C23: for all matrices `in1`, `in2` and `out`, `collapse_matrix` writes, for every row
`i < in1.size1()` and column `j < in2.size2()`, the maximum of zero and of the products
`in1[i, k] · in2[k, j]` over `k` into `out[i, j]` when that maximum is positive, and leaves the
cell as it was otherwise: for an `out` without the cell, `out[i, j]` is the maximum of zero and
of the products, a single product or zero and never their sum.  When no product is negative it
is the maximum over `k` of `in1[i, k] · in2[k, j]`. -/
theorem collapse_matrix_max (out in1 in2 : matrix_t) (i j : Nat) :
    (collapse_matrix out in1 in2).get i j
        = (if i < in1.size1 ∧ j < in2.size2 ∧ 0 < max_product in1 in2 i j then
            max_product in1 in2 i j
          else out.get i j)
    ∧ (i < in1.size1 → j < in2.size2 → out.get i j = 0 →
        (collapse_matrix out in1 in2).get i j = max_product in1 in2 i j)
    ∧ 0 ≤ max_product in1 in2 i j
    ∧ (∀ k, k < in1.size2 → in1.get i k * in2.get k j ≤ max_product in1 in2 i j)
    ∧ (max_product in1 in2 i j = 0
        ∨ ∃ k, k < in1.size2 ∧ max_product in1 in2 i j = in1.get i k * in2.get k j)
    ∧ ((∀ k, k < in1.size2 → 0 ≤ in1.get i k * in2.get k j) → 0 < in1.size2 →
        ∃ k, k < in1.size2 ∧ max_product in1 in2 i j = in1.get i k * in2.get k j) := by
  obtain ⟨f1, f2, f3⟩ :=
    foldl_max_facts ((List.range in1.size2).map fun k => in1.get i k * in2.get k j) 0
  have hget : (collapse_matrix out in1 in2).get i j
      = (if i < in1.size1 ∧ j < in2.size2 ∧ 0 < max_product in1 in2 i j then
          max_product in1 in2 i j
        else out.get i j) := by
    unfold collapse_matrix
    rw [collapse_matrix_fold, collapse_cell_eq]
  have hle : ∀ k, k < in1.size2 → in1.get i k * in2.get k j ≤ max_product in1 in2 i j :=
    fun k hk => f2 _ (List.mem_map.mpr ⟨k, List.mem_range.mpr hk, rfl⟩)
  have hatt : max_product in1 in2 i j = 0
      ∨ ∃ k, k < in1.size2 ∧ max_product in1 in2 i j = in1.get i k * in2.get k j := by
    rcases f3 with h | h
    · exact Or.inl h
    · obtain ⟨k, hk, he⟩ := List.mem_map.mp h
      exact Or.inr ⟨k, List.mem_range.mp hk, he.symm⟩
  refine ⟨hget, fun hi hj ho => ?_, f1, hle, hatt, fun hnn hpos => ?_⟩
  · rw [hget]
    by_cases hp : 0 < max_product in1 in2 i j
    · rw [if_pos ⟨hi, hj, hp⟩]
    · rw [if_neg fun h => hp h.2.2, ho]
      exact le_antisymm f1 (not_lt.mp hp)
  · rcases hatt with h | h
    · exact ⟨0, hpos, h.trans (le_antisymm (hnn 0 hpos) (h ▸ hle 0 hpos))⟩
    · exact h

/-- Witness of C23: account `0` owns the contents `0` and `1`, to which voter `0` gave `2` and
`3`; the collapsed weight is `3` and not `5`. -/
theorem collapse_matrix_max_witness :
    (0 < two_owned.size1 ∧ 0 < two_votes.size2 ∧ (matrix_t.empty 1 1).get 0 0 = 0)
    ∧ two_owned.get 0 0 * two_votes.get 0 0 = 2
    ∧ two_owned.get 0 1 * two_votes.get 1 0 = 3
    ∧ max_product two_owned two_votes 0 0 = 3
    ∧ (collapse_matrix (matrix_t.empty 1 1) two_owned two_votes).get 0 0 = 3 := by
  have hm : max_product two_owned two_votes 0 0 = 3 := by
    norm_num [max_product, two_owned, two_votes, matrix_t.get, List.range_succ]
  refine ⟨⟨by decide, by decide, rfl⟩, by norm_num [two_owned, two_votes, matrix_t.get],
    by norm_num [two_owned, two_votes, matrix_t.get], hm, ?_⟩
  rw [(collapse_matrix_max (matrix_t.empty 1 1) two_owned two_votes 0 0).2.1 (by decide)
    (by decide) rfl, hm]

/-- C23, with a negative product: for the `1 × 1` matrices `in1 = (1)` and `in2 = (-1)` the only
product `in1[0, 0] · in2[0, 0]` is `-1`, so the maximum over `k` is `-1`; `collapse_matrix`
starts at `x = 0`, writes nothing, and `out[0, 0]` stays absent and reads as `0`. -/
theorem collapse_matrix_negative :
    unit_matrix.size2 = 1
    ∧ unit_matrix.get 0 0 * negative_matrix.get 0 0 = -1
    ∧ (collapse_matrix (matrix_t.empty 1 1) unit_matrix negative_matrix).get 0 0 = 0
    ∧ (collapse_matrix (matrix_t.empty 1 1) unit_matrix negative_matrix).get 0 0
        ≠ unit_matrix.get 0 0 * negative_matrix.get 0 0 := by
  have hp : unit_matrix.get 0 0 * negative_matrix.get 0 0 = -1 := by
    norm_num [unit_matrix, negative_matrix, matrix_t.get]
  have hc : collapse_cell unit_matrix negative_matrix 0 0 = 0 := by
    rw [collapse_cell_eq]
    norm_num [max_product, unit_matrix, negative_matrix, matrix_t.get, List.range_succ]
  have hg : (collapse_matrix (matrix_t.empty 1 1) unit_matrix negative_matrix).get 0 0 = 0 := by
    unfold collapse_matrix
    rw [collapse_matrix_fold, hc, if_neg fun h => absurd h.2.2 (lt_irrefl _)]
    rfl
  refine ⟨rfl, hp, hg, ?_⟩
  rw [hg, hp]
  norm_num

end singularity
